import Mathlib

/-!
# fesvr `htif_t`: chunked zero fill, command-line classification, session methods

A shallow embedding of `src/fesvr/htif.cc`.

* `clear_chunk` is the `for` loop of `htif_t::clear_chunk`.  `size_t` and
  `addr_t` arithmetic is taken modulo `2 ^ 64`, and the `write_chunk` calls the
  loop issues are recorded as a trace.
* `parse_arguments` is the `getopt_long` loop of `htif_t::parse_arguments`:
  `parse_body` is one pass through the loop body (`getopt_long`, then the
  `switch`, with the label `retry` as a program point), `parse_loop` iterates it
  and `done_processing` is the code after the loop.  The two macros of `htif.h`
  that the code uses are parameters (`htif_config`).
* `getopt_long` belongs to the C library.  It is embedded for the one option
  string the code passes, `"-h"`: elements are returned in order (no
  permutation), `--name`, `--name=value` and unambiguous abbreviations are
  looked up in the table, `-h` is the only short option, `--` ends the scan.
  The diagnostics it prints on `stderr` and the text `usage` prints are not
  part of the model.  `argv` is kept as the elements before `optind` (`seen`)
  and the elements from `optind` on (`rest`).

* `start`, `load_program`, `run`, `stop`, `done` and `exit_code` are the
  methods that drive a session.  What they call outside `htif.cc` (`access`,
  `load_elf`, `reset`, `idle`) is a parameter (`collaborators`), and the calls
  are recorded as a trace of events.  The macros `PREFIX` and `TARGET_ARCH` of
  the build are parameters too (`build_config`).

The first half of the file holds the definitions, the second half the theorems.
-/

namespace Fesvr

/-! ## Definitions -/

/-! ## Machine integers -/

/-- Number of values of a `size_t` (an unsigned 64-bit integer on LP64 hosts). -/
def SIZE_MOD : Nat := 2 ^ 64

/-- Number of values of an `addr_t` (fesvr declares it as `uint64_t`). -/
def ADDR_MOD : Nat := 2 ^ 64

/-! ## `htif_t::clear_chunk` -/

/-- One call `write_chunk(taddr, len, src)` made to the transport: the target
address, the number of bytes to transfer and the contents of the buffer that
`src` points to. -/
structure write_chunk_call where
  taddr : Nat
  len : Nat
  src : List Nat
deriving DecidableEq, Repr

/-- The scratch buffer `char zeros[chunk_max_size()]` after
`memset(zeros, 0, chunk_max_size())`. -/
def zeros (c : Nat) : List Nat := List.replicate c 0

/-- What a (possibly still running) execution of `clear_chunk` has done:
the `write_chunk` calls issued so far, in order, and whether the loop has
been left. -/
structure clear_chunk_run where
  calls : List write_chunk_call
  returned : Bool
deriving DecidableEq, Repr

/-- The loop
`for (size_t pos = 0; pos < len; pos += chunk_max_size()) write_chunk(taddr + pos, std::min(len - pos, chunk_max_size()), zeros);`
where `c` is the value of `chunk_max_size()`.  The first argument bounds the
number of loop tests that are executed. -/
def clear_chunk_loop (c taddr len : Nat) : Nat → Nat → List write_chunk_call → clear_chunk_run
  | 0, _, calls => ⟨calls, false⟩
  | fuel + 1, pos, calls =>
    if pos < len then
      clear_chunk_loop c taddr len fuel ((pos + c) % SIZE_MOD)
        (calls ++ [⟨(taddr + pos) % ADDR_MOD, min (len - pos) c, zeros c⟩])
    else
      ⟨calls, true⟩

/-- The method `htif_t::clear_chunk(taddr, len)` for a transport whose
`chunk_max_size()` is `c`, run for at most `fuel` loop tests. -/
def clear_chunk (fuel c taddr len : Nat) : clear_chunk_run :=
  clear_chunk_loop c taddr len fuel 0 []

/-- The bytes one `write_chunk` call stores: byte `j` of the buffer goes to
address `taddr + j`, for `j < len` (`none` would be a read past the buffer). -/
def bytes_written (k : write_chunk_call) : List (Nat × Option Nat) :=
  (List.range k.len).map (fun j => (k.taddr + j, k.src[j]?))

/-- The `i`-th call of the loop when it is entered with position `pos`. -/
def nth_call (c taddr len pos i : Nat) : write_chunk_call :=
  ⟨(taddr + (pos + i * c) % SIZE_MOD) % ADDR_MOD, min (len - (pos + i * c) % SIZE_MOD) c, zeros c⟩

/-- Number of iterations of the loop: `len / c` rounded up. -/
def chunk_count (c len : Nat) : Nat := (len + c - 1) / c

/-- The calls of a run that never wraps, as a function of the start address:
used to reason about the bytes they store. -/
def tile_calls (c a len n : Nat) : List write_chunk_call :=
  (List.range n).map (fun i => ⟨a + i * c, min (len - i * c) c, zeros c⟩)

/-! ### The command line and `getopt_long` -/

/-- A C string such as an element of `argv`: its characters, without the
terminating NUL. -/
abbrev Token := List Char

/-- The `struct option` of `getopt.h`: `has_arg` is 0 (`no_argument`), 1
(`required_argument`) or 2 (`optional_argument`); `flag` is the address stored in
the entry, `none` for a null pointer. -/
structure struct_option where
  name : List Char
  has_arg : Nat
  flag : Option Nat
  val : Int
deriving DecidableEq, Repr

/-- The two macros of `htif.h` that `parse_arguments` uses: the table
`HTIF_LONG_OPTIONS` (without its terminating null entry) and the number
`HTIF_LONG_OPTIONS_OPTIND`. -/
structure htif_config where
  HTIF_LONG_OPTIONS : List struct_option
  HTIF_LONG_OPTIONS_OPTIND : Int
deriving DecidableEq, Repr

/-- Modelled from the spec: `htif.h`, which defines `HTIF_LONG_OPTIONS` and
`HTIF_LONG_OPTIONS_OPTIND`, is not among the sources.  The spec names the host
options help, rfb, disk, signature and chroot; the table lists them in that
order with the codes the `switch` expects (`'h'` for help, base + 2 for the
signature file, base, base + 1 and base + 3 for the plusarg targets) and takes
1024 as base.  The theorems hold for every table and base that meet their
hypotheses; this configuration serves the concrete examples. -/
def fesvr_config : htif_config :=
  { HTIF_LONG_OPTIONS :=
      [ ⟨"help".toList, 0, none, 104⟩,
        ⟨"rfb".toList, 2, none, 1024⟩,
        ⟨"disk".toList, 1, none, 1025⟩,
        ⟨"signature".toList, 1, none, 1026⟩,
        ⟨"chroot".toList, 1, none, 1027⟩ ],
    HTIF_LONG_OPTIONS_OPTIND := 1024 }

/-- State of the C library's option scanner: `seen` holds `argv[optind-1]`, ...,
`argv[0]` (latest first), `rest` holds `argv[optind]`, ..., `argv[argc-1]`, and
`nextchar` is the unread part of the short-option cluster in `argv[optind]`
(empty when the pointer is null or at the terminating NUL). -/
structure getopt_data where
  seen : List Token
  rest : List Token
  nextchar : List Char
deriving DecidableEq, Repr

/-- What one call of `getopt_long` hands back: the return value `c`, the global
`optarg`, and the scanner state. -/
structure getopt_return where
  c : Int
  optarg : Option Token
  d : getopt_data
deriving DecidableEq, Repr

/-- The name part of `--name` or `--name=value`: `nextchar` up to `nameend`. -/
def option_name (nextchar : List Char) : List Char :=
  nextchar.takeWhile (fun ch => ch != '=')

/-- The text from `nameend` on: empty, or `=` followed by the value. -/
def option_nameend (nextchar : List Char) : List Char :=
  nextchar.dropWhile (fun ch => ch != '=')

/-- First pass of `process_long_option`: the first entry whose name is exactly
`name`. -/
def exact_match (longopts : List struct_option) (name : List Char) : Option struct_option :=
  longopts.find? (fun p => p.name == name)

/-- Second pass of `process_long_option`: the entries that `name` abbreviates
(`strncmp (p->name, nextchar, namelen) == 0`). -/
def abbrev_matches (longopts : List struct_option) (name : List Char) : List struct_option :=
  longopts.filter (fun p => name.isPrefixOf p.name)

/-- Two entries that an abbreviation may stand for without being ambiguous. -/
def same_option (p q : struct_option) : Bool :=
  p.has_arg == q.has_arg && p.flag == q.flag && p.val == q.val

/-- Result of the two passes over the table. -/
inductive long_lookup where
  | found (p : struct_option)
  | ambiguous
  | not_found
deriving DecidableEq, Repr

/-- The table search of `process_long_option`. -/
def lookup_long (longopts : List struct_option) (name : List Char) : long_lookup :=
  match exact_match longopts name with
  | some p => .found p
  | none =>
    match abbrev_matches longopts name with
    | [] => .not_found
    | p :: ps => if ps.all (same_option p) then .found p else .ambiguous

/-- Return value for a matched entry: 0 when the entry has a flag pointer,
its `val` otherwise. -/
def long_return (p : struct_option) : Int :=
  if p.flag.isSome then 0 else p.val

/-- The C library's `process_long_option` for the element `tok = "--" ++ nextchar`
at `argv[optind]`; `'?'` is 63. -/
def process_long_option (longopts : List struct_option) (tok : Token) (nextchar : List Char)
    (seen rest : List Token) : getopt_return :=
  match lookup_long longopts (option_name nextchar) with
  | .ambiguous => ⟨63, none, ⟨tok :: seen, rest, []⟩⟩
  | .not_found => ⟨63, none, ⟨tok :: seen, rest, []⟩⟩
  | .found p =>
    match option_nameend nextchar with
    | _ :: value =>
      if p.has_arg ≠ 0 then ⟨long_return p, some value, ⟨tok :: seen, rest, []⟩⟩
      else ⟨63, none, ⟨tok :: seen, rest, []⟩⟩
    | [] =>
      if p.has_arg = 1 then
        match rest with
        | a :: rest2 => ⟨long_return p, some a, ⟨a :: tok :: seen, rest2, []⟩⟩
        | [] => ⟨63, none, ⟨tok :: seen, rest, []⟩⟩
      else ⟨long_return p, none, ⟨tok :: seen, rest, []⟩⟩

/-- The short-option part of `getopt_long` for the option string `"h"`: `ch` is
the character read, `more` what follows it in the element; `optind` moves on
when the element is finished.  `'h'` is 104 and `'?'` is 63. -/
def short_option (ch : Char) (more : List Char) (seen rest : List Token) : getopt_return :=
  let d : getopt_data :=
    if more = [] then ⟨rest.head?.toList ++ seen, rest.tail, []⟩ else ⟨seen, rest, more⟩
  if ch = 'h' then ⟨104, none, d⟩ else ⟨63, none, d⟩

/-- The C library's `getopt_long (argc, argv, "-h", longopts, &option_index)`.
The leading `-` of the option string selects "return in order": an element
that is not an option is returned as the argument of option code 1. -/
def getopt_long (longopts : List struct_option) (d : getopt_data) : getopt_return :=
  match d.nextchar with
  | ch :: more => short_option ch more d.seen d.rest
  | [] =>
    match d.rest with
    | [] => ⟨-1, none, d⟩
    | tok :: rest =>
      match tok with
      | c0 :: c1 :: more =>
        if c0 = '-' then
          if c1 = '-' then
            if more = [] then ⟨-1, none, ⟨tok :: d.seen, rest, []⟩⟩
            else process_long_option longopts tok more d.seen rest
          else short_option c1 more d.seen (tok :: rest)
        else ⟨1, some tok, ⟨tok :: d.seen, rest, []⟩⟩
      | _ => ⟨1, some tok, ⟨tok :: d.seen, rest, []⟩⟩

/-! ### `htif_t::parse_arguments` -/

/-- The fields of `htif_t` that this file is about. -/
structure htif_t where
  entry : Nat
  exitcode : Int
  stopped : Bool
  sig_file : Token
  targs : List Token
deriving DecidableEq, Repr

/-- The exceptions the code throws, with their `what()` text. -/
inductive exception where
  | invalid_argument (what : String)
  | runtime_error (what : String)
deriving DecidableEq, Repr

/-- The variables `parse_arguments` works on: the scanner state (with `optind`),
the global `opterr` and the object. -/
structure parse_state where
  d : getopt_data
  opterr : Int
  self : htif_t
deriving DecidableEq, Repr

/-- Program points inside the `while (1)` loop: the call of `getopt_long`, and
the label `retry` with the current `c` and `optarg`. -/
inductive parse_pc where
  | top
  | retry (c : Int) (optarg : Option Token)
deriving DecidableEq, Repr

/-- Where control goes after the `switch`. -/
inductive parse_step where
  | next (pc : parse_pc) (s : parse_state)
  | done_processing (s : parse_state)
  | throw (e : exception) (s : parse_state)
  | undefined (s : parse_state)
deriving DecidableEq, Repr

/-- The `what()` texts of the five `throw` statements of `parse_arguments`. -/
def MSG_HELP : String := "User quered htif_t help text"

def MSG_UNKNOWN : String := "Unknown argument (did you mean to enable +permissive parsing?)"

def MSG_PERMISSIVE_OFF : String := "Found +permissive-off when not parsing permissively"

def MSG_PERMISSIVE : String := "Found +permissive when already parsing permissively"

def MSG_NO_BINARY : String :=
  "No binary specified (Did you forget it? Did you forget '+permissive-off' if running with +permissive?)"

/-- The literals that `case 1` compares `arg` with. -/
def PLUS_RFB : Token := "+rfb".toList

def PLUS_RFB_EQ : Token := "+rfb=".toList

def PLUS_DISK_EQ : Token := "+disk=".toList

def PLUS_SIGNATURE_EQ : Token := "+signature=".toList

def PLUS_CHROOT_EQ : Token := "+chroot=".toList

def PLUS_PERMISSIVE_OFF : Token := "+permissive-off".toList

def PLUS_PERMISSIVE : Token := "+permissive".toList

/-- The statements `optind--; goto done_processing;`. -/
def put_back (s : parse_state) : parse_step :=
  match s.d.seen with
  | t :: seen => .done_processing { s with d := ⟨seen, t :: s.d.rest, s.d.nextchar⟩ }
  | [] => .undefined s

/-- The block of `case 1:` for `std::string arg = optarg`: rewrite a plusarg into
the code of its long option and `goto retry`, toggle the mode, skip the element
(permissive) or put it back (`optind--`) and `goto done_processing` (strict). -/
def case_1 (cfg : htif_config) (arg : Token) (s : parse_state) : parse_step :=
  if arg = PLUS_RFB then
    .next (.retry cfg.HTIF_LONG_OPTIONS_OPTIND none) s
  else if PLUS_RFB_EQ.isPrefixOf arg then
    .next (.retry cfg.HTIF_LONG_OPTIONS_OPTIND (some (arg.drop 5))) s
  else if PLUS_DISK_EQ.isPrefixOf arg then
    .next (.retry (cfg.HTIF_LONG_OPTIONS_OPTIND + 1) (some (arg.drop 6))) s
  else if PLUS_SIGNATURE_EQ.isPrefixOf arg then
    .next (.retry (cfg.HTIF_LONG_OPTIONS_OPTIND + 2) (some (arg.drop 11))) s
  else if PLUS_CHROOT_EQ.isPrefixOf arg then
    .next (.retry (cfg.HTIF_LONG_OPTIONS_OPTIND + 3) (some (arg.drop 8))) s
  else if PLUS_PERMISSIVE_OFF.isPrefixOf arg then
    if s.opterr ≠ 0 then .throw (.invalid_argument MSG_PERMISSIVE_OFF) s
    else .next .top { s with opterr := 1 }
  else if PLUS_PERMISSIVE.isPrefixOf arg then
    if s.opterr = 0 then .throw (.invalid_argument MSG_PERMISSIVE) s
    else .next .top { s with opterr := 0 }
  else if s.opterr = 0 then .next .top s
  else put_back s

/-- The statement `switch (c)` at the label `retry`; `'h'` is 104 and `'?'` is 63.
Building a `std::string` from a null `optarg` is undefined behaviour. -/
def switch_c (cfg : htif_config) (c : Int) (optarg : Option Token) (s : parse_state) :
    parse_step :=
  if c = 104 then .throw (.invalid_argument MSG_HELP) s
  else if c = cfg.HTIF_LONG_OPTIONS_OPTIND + 2 then
    match optarg with
    | some v => .next .top { s with self := { s.self with sig_file := v } }
    | none => .undefined s
  else if c = 63 then
    if s.opterr = 0 then .next .top s
    else .throw (.invalid_argument MSG_UNKNOWN) s
  else if c = 1 then
    match optarg with
    | some arg => case_1 cfg arg s
    | none => .undefined s
  else .next .top s

/-- One pass through the body of the `while (1)` loop from a program point up to
the next one. -/
def parse_body (cfg : htif_config) (pc : parse_pc) (s : parse_state) : parse_step :=
  match pc with
  | .top =>
    let r := getopt_long cfg.HTIF_LONG_OPTIONS s.d
    if r.c = -1 then .done_processing { s with d := r.d }
    else switch_c cfg r.c r.optarg { s with d := r.d }
  | .retry c optarg => switch_c cfg c optarg s

/-- How a call of `parse_arguments` ends. -/
inductive parse_status where
  | returned
  | thrown (e : exception)
  | undefined
  | running
deriving DecidableEq, Repr

/-- The end of a call of `parse_arguments`: how it ended, the object and the
global `opterr` at that moment. -/
structure parse_outcome where
  status : parse_status
  self : htif_t
  opterr : Int
deriving DecidableEq, Repr

/-- The code from the label `done_processing` on. -/
def done_processing (s : parse_state) : parse_outcome :=
  let self := { s.self with targs := s.self.targs ++ s.d.rest }
  if self.targs = [] then ⟨.thrown (.invalid_argument MSG_NO_BINARY), self, s.opterr⟩
  else ⟨.returned, self, s.opterr⟩

/-- The `while (1)` loop, run for at most the given number of passes. -/
def parse_loop (cfg : htif_config) : Nat → parse_pc → parse_state → parse_outcome
  | 0, _, s => ⟨.running, s.self, s.opterr⟩
  | fuel + 1, pc, s =>
    match parse_body cfg pc s with
    | .next pc2 s2 => parse_loop cfg fuel pc2 s2
    | .done_processing s2 => done_processing s2
    | .throw e s2 => ⟨.thrown e, s2.self, s2.opterr⟩
    | .undefined s2 => ⟨.undefined, s2.self, s2.opterr⟩

/-- An upper bound on the number of passes the elements `toks` can cause. -/
def tokens_weight (toks : List Token) : Nat :=
  (toks.map (fun t => t.length + 2)).sum

/-- The method `htif_t::parse_arguments(argc, argv)`, called while the global
`opterr` has the value `opterr`.  `optind = 0` makes `getopt_long` start over
at `argv[1]`. -/
def parse_arguments (cfg : htif_config) (argv : List Token) (opterr : Int) (self : htif_t) :
    parse_outcome :=
  parse_loop cfg (tokens_weight (argv.drop 1) + 1) .top
    ⟨⟨(argv.take 1).reverse, argv.drop 1, []⟩, opterr, self⟩

/-! ### A measure for the loop -/

/-- Length of the string `optarg` points to (0 for a null pointer). -/
def optarg_length : Option Token → Nat
  | none => 0
  | some a => a.length

/-- A bound on the number of loop passes still possible from a scanner state. -/
def scan_measure (d : getopt_data) : Nat :=
  match d.nextchar with
  | [] => tokens_weight d.rest
  | _ :: more => more.length + 1 + tokens_weight d.rest.tail

/-- A bound on the number of loop passes still possible from a program point. -/
def parse_measure (pc : parse_pc) (s : parse_state) : Nat :=
  match pc with
  | .top => scan_measure s.d
  | .retry _ optarg => scan_measure s.d + optarg_length optarg + 1

/-- The loop run with as many passes as its state can need. -/
def parse_run (cfg : htif_config) (pc : parse_pc) (s : parse_state) : parse_outcome :=
  parse_loop cfg (parse_measure pc s + 1) pc s

/-! ### Classes of elements and of configurations -/

/-- The test `NONOPTION_P` of the C library: the element does not start with
`-`, or has fewer than two characters. -/
def nonoption (tok : Token) : Bool :=
  match tok with
  | c0 :: _ :: _ => c0 != '-'
  | _ => true

/-- The element has one of the forms that `case 1` recognises. -/
def is_plusarg (arg : Token) : Bool :=
  arg == PLUS_RFB || PLUS_RFB_EQ.isPrefixOf arg || PLUS_DISK_EQ.isPrefixOf arg
    || PLUS_SIGNATURE_EQ.isPrefixOf arg || PLUS_CHROOT_EQ.isPrefixOf arg
    || PLUS_PERMISSIVE_OFF.isPrefixOf arg || PLUS_PERMISSIVE.isPrefixOf arg

/-- The case labels of the `switch` are pairwise different, as the compiler
demands: `HTIF_LONG_OPTIONS_OPTIND + 2` is none of `'h'`, `'?'` and 1. -/
def labels_distinct (cfg : htif_config) : Prop :=
  cfg.HTIF_LONG_OPTIONS_OPTIND + 2 ≠ 104 ∧ cfg.HTIF_LONG_OPTIONS_OPTIND + 2 ≠ 63
    ∧ cfg.HTIF_LONG_OPTIONS_OPTIND + 2 ≠ 1

instance (cfg : htif_config) : Decidable (labels_distinct cfg) := by
  unfold labels_distinct
  infer_instance

/-- None of the four codes that plusargs are rewritten to is a case label of
another `case`. -/
def codes_free (cfg : htif_config) : Prop :=
  ∀ k ∈ [0, 1, 2, 3], cfg.HTIF_LONG_OPTIONS_OPTIND + k ≠ 104
    ∧ cfg.HTIF_LONG_OPTIONS_OPTIND + k ≠ 63 ∧ cfg.HTIF_LONG_OPTIONS_OPTIND + k ≠ 1

instance (cfg : htif_config) : Decidable (codes_free cfg) := by
  unfold codes_free
  infer_instance

/-- The element is a plusarg that stands for a long option: `+rfb`, `+rfb=...`,
`+disk=...`, `+signature=...` or `+chroot=...`. -/
def is_valued_plusarg (arg : Token) : Bool :=
  arg == PLUS_RFB || PLUS_RFB_EQ.isPrefixOf arg || PLUS_DISK_EQ.isPrefixOf arg
    || PLUS_SIGNATURE_EQ.isPrefixOf arg || PLUS_CHROOT_EQ.isPrefixOf arg

/-- The elements `grp` are one host option together with its value: `getopt_long`
takes all of them as one entry of the table, and the code it returns is one the
`switch` stores as signature file or ignores (not -1, `'h'`, `'?'` or 1). -/
def is_host_option (cfg : htif_config) (grp : List Token) : Bool :=
  let r := getopt_long cfg.HTIF_LONG_OPTIONS ⟨[], grp, []⟩
  decide (grp ≠ [] ∧ r.d.rest = [] ∧ r.c ≠ -1 ∧ r.c ≠ 104 ∧ r.c ≠ 63 ∧ r.c ≠ 1
    ∧ (r.c = cfg.HTIF_LONG_OPTIONS_OPTIND + 2 → r.optarg ≠ none))

/-- The element is neither a host option nor a plusarg: a `--name` that no entry
of the table matches, a cluster of short options without `h`, or an element that
is not an option and has none of the plusarg forms. -/
def unrecognized (cfg : htif_config) (tok : Token) : Bool :=
  match tok with
  | c0 :: c1 :: more =>
    if c0 = '-' then
      if c1 = '-' then
        decide (more ≠ [])
          && decide (lookup_long cfg.HTIF_LONG_OPTIONS (option_name more) = .not_found)
      else !(c1 :: more).contains 'h'
    else !is_plusarg tok
  | _ => !is_plusarg tok

/-- What the loop does to the object when it has scanned a host option. -/
def after_option (cfg : htif_config) (r : getopt_return) (self : htif_t) : htif_t :=
  if r.c = cfg.HTIF_LONG_OPTIONS_OPTIND + 2 then
    { self with sig_file := r.optarg.getD [] }
  else self

/-- A run of host options and plusargs: `option_list cfg m opts m'` says that
`opts` is made of host options with their values, of plusargs standing for a long
option, and of mode toggles used in the right order, taking the mode from `m` to
`m'` (`true` is permissive). -/
inductive option_list (cfg : htif_config) : Bool → List Token → Bool → Prop
  | nil (m : Bool) : option_list cfg m [] m
  | host (grp opts : List Token) (m m2 : Bool) :
      is_host_option cfg grp = true → option_list cfg m opts m2 →
      option_list cfg m (grp ++ opts) m2
  | plusarg (tok : Token) (opts : List Token) (m m2 : Bool) :
      is_valued_plusarg tok = true → option_list cfg m opts m2 →
      option_list cfg m (tok :: opts) m2
  | permissive (tok : Token) (opts : List Token) (m2 : Bool) :
      PLUS_PERMISSIVE.isPrefixOf tok = true → PLUS_PERMISSIVE_OFF.isPrefixOf tok = false →
      option_list cfg true opts m2 → option_list cfg false (tok :: opts) m2
  | permissive_off (tok : Token) (opts : List Token) (m2 : Bool) :
      PLUS_PERMISSIVE_OFF.isPrefixOf tok = true →
      option_list cfg false opts m2 → option_list cfg true (tok :: opts) m2

/-- What the loop does to the object when it has scanned such a plusarg. -/
def after_plusarg (tok : Token) (self : htif_t) : htif_t :=
  if PLUS_SIGNATURE_EQ.isPrefixOf tok then { self with sig_file := tok.drop 11 } else self

/-- The object as the constructor `htif_t::htif_t()` leaves it (`entry` is set
to `DRAM_BASE`, a constant of `encoding.h`). -/
def htif_t.ctor (DRAM_BASE : Nat) : htif_t := ⟨DRAM_BASE, 0, false, [], []⟩

/-- The exception is a `std::invalid_argument`. -/
def exception.is_invalid_argument : exception → Bool
  | .invalid_argument _ => true
  | .runtime_error _ => false

/-- The element is an unrecognized dash-option in the sense of C6: it starts with
`-`, is neither `-` nor `--` nor `-h`, and, when it starts with `--`, no entry
of the table matches its name. -/
def unrecognized_dash_option (cfg : htif_config) (tok : Token) : Bool :=
  match tok with
  | c0 :: c1 :: more =>
    decide (c0 = '-') && decide (c1 :: more ≠ ['-']) && decide (c1 :: more ≠ ['h'])
      && (decide (c1 ≠ '-')
          || decide (lookup_long cfg.HTIF_LONG_OPTIONS (option_name more) = .not_found))
  | _ => false

/-- What the strict loop throws at an unrecognized dash-option: the help text
when the element starts with `-h`, "Unknown argument" otherwise. -/
def dash_option_message (tok : Token) : String :=
  if (tok.drop 1).head? = some 'h' then MSG_HELP else MSG_UNKNOWN

/-- The table has an entry that `--help` selects, without argument and with
return value `'h'`. -/
def has_help_option (cfg : htif_config) : Bool :=
  match lookup_long cfg.HTIF_LONG_OPTIONS "help".toList with
  | .found p => p.has_arg == 0 && long_return p == 104
  | _ => false

/-! ### The session controller: `start`, `load_program`, `run`, `stop` -/

/-- The method `htif_t::stop()`. -/
def stop (self : htif_t) : htif_t := { self with stopped := true }

/-- The method `htif_t::done()`: its value and the object afterwards. -/
def done (self : htif_t) : Bool × htif_t := (self.stopped, self)

/-- The method `htif_t::exit_code()`: its value and the object afterwards.
`exitcode` is a C `int`; `>>` on it is the arithmetic shift. -/
def exit_code (self : htif_t) : Int × htif_t := (self.exitcode >>> (1 : Nat), self)

/-- The macros the path of `load_program` is built from: `PREFIX` comes from the
build system, `TARGET_ARCH` is `"riscv64-unknown-elf"` unless the build
defines it. -/
structure build_config where
  PREFIX : Token
  TARGET_ARCH : Token
deriving DecidableEq, Repr

/-- The macro `TARGET_DIR`, `"/" TARGET_ARCH "/bin/"`. -/
def TARGET_DIR (b : build_config) : Token :=
  "/".toList ++ b.TARGET_ARCH ++ "/bin/".toList

/-- What a call of `idle()` does: it comes back with the object in some state,
it ends the process, or it throws. -/
inductive idle_result where
  | continues (self : htif_t)
  | exits (status : Int)
  | throws (e : exception)
deriving DecidableEq, Repr

/-- The collaborators of the session controller: the file-existence test
`access(path, F_OK) == 0`, the ELF loader (the entry address it stores, or the
exception it throws), and the transport's `reset()` and `idle()`. -/
structure collaborators where
  access : Token → Bool
  load_elf : Token → Except exception Nat
  reset : htif_t → htif_t
  idle : htif_t → idle_result

/-- The calls made to the collaborators, as they are observed from outside;
`idle` records the value of `stopped` at the moment of the call. -/
inductive event where
  | access (path : Token)
  | load_elf (path : Token)
  | reset
  | idle (stopped : Bool)
deriving DecidableEq, Repr

/-- How a call of a method of the session controller ends. -/
inductive call_status where
  | returned
  | thrown (e : exception)
  | undefined
deriving DecidableEq, Repr

/-- The end of a call of `load_program` or `start`: how it ended, the object,
and the calls made to the collaborators, in order. -/
structure call_result where
  status : call_status
  self : htif_t
  trace : List event
deriving DecidableEq, Repr

/-- The text of the exception of `load_program`. -/
def MSG_COULD_NOT_OPEN (t : Token) : String :=
  "could not open " ++ String.mk t
    ++ " (did you misspell it? If VCS, did you forget +permissive/+permissive-off?)"

/-- The first part of `load_program`: the value of `path` after the two probes,
and the probes made. -/
def resolve_path (b : build_config) (env : collaborators) (t : Token) : Token × List event :=
  if env.access t then (t, [.access t])
  else if ¬ t.contains '/' then
    if env.access (b.PREFIX ++ TARGET_DIR b ++ t) then
      (b.PREFIX ++ TARGET_DIR b ++ t, [.access t, .access (b.PREFIX ++ TARGET_DIR b ++ t)])
    else ([], [.access t, .access (b.PREFIX ++ TARGET_DIR b ++ t)])
  else ([], [.access t])

/-- The method `htif_t::load_program()`.  `targs[0]` on an empty vector is
undefined behaviour. -/
def load_program (b : build_config) (env : collaborators) (self : htif_t) : call_result :=
  match self.targs with
  | [] => ⟨.undefined, self, []⟩
  | t :: _ =>
    let r := resolve_path b env t
    if r.1 = [] then
      ⟨.thrown (.runtime_error (MSG_COULD_NOT_OPEN t)), self, r.2⟩
    else
      match env.load_elf r.1 with
      | .ok entry => ⟨.returned, { self with entry := entry }, r.2 ++ [.load_elf r.1]⟩
      | .error e => ⟨.thrown e, self, r.2 ++ [.load_elf r.1]⟩

/-- The method `htif_t::start()`. -/
def start (b : build_config) (env : collaborators) (self : htif_t) : call_result :=
  if self.targs ≠ [] ∧ self.targs.head? ≠ some "none".toList then
    let r := load_program b env self
    match r.status with
    | .returned => ⟨.returned, env.reset r.self, r.trace ++ [.reset]⟩
    | _ => r
  else ⟨.returned, env.reset self, [.reset]⟩

/-- How an execution of `run` stands after a number of loop tests. -/
inductive run_status where
  | returned (value : Int)
  | thrown (e : exception)
  | exited (status : Int)
  | undefined
  | running
deriving DecidableEq, Repr

/-- An execution of `run`: how it stands, the object, and the calls made to the
collaborators so far. -/
structure run_result where
  status : run_status
  self : htif_t
  trace : List event
deriving DecidableEq, Repr

/-- A loop `while (cond) idle();` followed by `stop(); return exit_code();`, run
for at most the given number of loop tests. -/
def run_loop (env : collaborators) (cond : htif_t → Bool) :
    Nat → htif_t → List event → run_result
  | 0, self, trace => ⟨.running, self, trace⟩
  | fuel + 1, self, trace =>
    if cond self then
      match env.idle self with
      | .continues self2 => run_loop env cond fuel self2 (trace ++ [.idle self.stopped])
      | .exits status => ⟨.exited status, self, trace ++ [.idle self.stopped]⟩
      | .throws e => ⟨.thrown e, self, trace ++ [.idle self.stopped]⟩
    else
      ⟨.returned (exit_code (stop self)).1, (exit_code (stop self)).2, trace⟩

/-- The method `htif_t::run()`: `start();`, then `while (true) idle();`, then
`stop(); return exit_code();`. -/
def run (b : build_config) (env : collaborators) (fuel : Nat) (self : htif_t) : run_result :=
  let r := start b env self
  match r.status with
  | .returned => run_loop env (fun _ => true) fuel r.self r.trace
  | .thrown e => ⟨.thrown e, r.self, r.trace⟩
  | .undefined => ⟨.undefined, r.self, r.trace⟩

/-- A transport for the examples: no file exists, the loader stores the entry
address 0, `reset()` leaves the object alone and `idle()` calls `stop()`. -/
def stopping_transport : collaborators :=
  { access := fun _ => false,
    load_elf := fun _ => .ok 0,
    reset := fun self => self,
    idle := fun self => .continues (stop self) }

/-- The build of the examples: prefix `/usr/local`, default target triple. -/
def example_build : build_config := ⟨"/usr/local".toList, "riscv64-unknown-elf".toList⟩

/-- The object after a call of `idle()` that comes back (as it was, when the
call does not come back). -/
def after_idle (env : collaborators) (self : htif_t) : htif_t :=
  match env.idle self with
  | .continues self2 => self2
  | _ => self

/-- The object after `n` calls of `idle()`, one after the other. -/
def polled (env : collaborators) : Nat → htif_t → htif_t
  | 0, self => self
  | n + 1, self => polled env n (after_idle env self)

/-- The events of `n` calls of `idle()`, one after the other, from the object
`self`: each records the value of `stopped` it was made with. -/
def idle_calls (env : collaborators) : Nat → htif_t → List event
  | 0, _ => []
  | n + 1, self => .idle self.stopped :: idle_calls env n (after_idle env self)

/-- A transport for the examples in which exactly the installed copy
`/usr/local/riscv64-unknown-elf/bin/pk` exists; the loader stores the entry
address 65536. -/
def installed_pk : collaborators :=
  { access := fun path => path == "/usr/local/riscv64-unknown-elf/bin/pk".toList,
    load_elf := fun _ => .ok 65536,
    reset := fun self => self,
    idle := fun self => .continues self }

/-! ### The elements before `optind` do not matter -/

/-- The state `s` with other elements before `optind`. -/
def reseen (seen : List Token) (s : parse_state) : parse_state :=
  { s with d := { s.d with seen := seen } }

/-- Two results of the `switch` that agree up to the elements before `optind`
(and, on the way to `retry`, agree on the last of them). -/
def step_same (a b : parse_step) : Prop :=
  match a, b with
  | .next p s, .next p2 s2 =>
    p = p2 ∧ ∃ seen, s2 = reseen seen s ∧ (p ≠ .top → seen.head? = s.d.seen.head?)
  | .done_processing s, .done_processing s2 => ∃ seen, s2 = reseen seen s
  | .throw e s, .throw e2 s2 => e = e2 ∧ ∃ seen, s2 = reseen seen s
  | .undefined s, .undefined s2 => ∃ seen, s2 = reseen seen s
  | _, _ => False

/-- The text `--signature=`. -/
def DASH_SIGNATURE_EQ : Token := "--signature=".toList

/-- The table has an entry that `--signature` selects, which takes an argument
and whose return value is the case label `HTIF_LONG_OPTIONS_OPTIND + 2` (and
not -1, the value that ends the loop). -/
def has_signature_option (cfg : htif_config) : Bool :=
  match lookup_long cfg.HTIF_LONG_OPTIONS "signature".toList with
  | .found p =>
    p.has_arg != 0 && long_return p == cfg.HTIF_LONG_OPTIONS_OPTIND + 2 && long_return p != -1
  | _ => false

/-- The text `t` occurs somewhere in `msg`. -/
def contains_text (t msg : List Char) : Bool :=
  msg.tails.any (fun s => t.isPrefixOf s)

/-- What `case 1` does with `+permissive-off`. -/
def toggle_off (s : parse_state) : parse_step :=
  if s.opterr ≠ 0 then .throw (.invalid_argument MSG_PERMISSIVE_OFF) s
  else .next .top { s with opterr := 1 }

/-- What `case 1` does with `+permissive`. -/
def toggle_on (s : parse_state) : parse_step :=
  if s.opterr = 0 then .throw (.invalid_argument MSG_PERMISSIVE) s
  else .next .top { s with opterr := 0 }

/-- The element `--`, at which `getopt_long` ends option scanning. -/
def DASH_DASH : Token := "--".toList

/-- No entry of the table collides with the `switch`: its return value is
neither -1 (which `getopt_long` returns at the end) nor 1 (the code of an element
that is not an option), and an entry with the code of the signature file takes a
required argument, so that `optarg` is not null at `case` of the signature
file. -/
def options_plain (cfg : htif_config) : Prop :=
  ∀ p ∈ cfg.HTIF_LONG_OPTIONS, long_return p ≠ -1 ∧ long_return p ≠ 1
    ∧ (long_return p = cfg.HTIF_LONG_OPTIONS_OPTIND + 2 → p.has_arg = 1)

instance (cfg : htif_config) : Decidable (options_plain cfg) := by
  unfold options_plain
  infer_instance

/-- What the label `retry` can be reached with from `case 1`: a code that is no
other case label, and a non-null `optarg` with the code of the signature file. -/
def retry_plain (cfg : htif_config) : parse_pc → Prop
  | .top => True
  | .retry c optarg =>
    c ≠ 104 ∧ c ≠ 63 ∧ c ≠ 1 ∧ (c = cfg.HTIF_LONG_OPTIONS_OPTIND + 2 → optarg ≠ none)

/-- The elements still to scan hold neither `--` nor a `+permissive-off`. -/
def stays_permissive (rest : List Token) : Prop :=
  ∀ t ∈ rest, t ≠ DASH_DASH ∧ PLUS_PERMISSIVE_OFF.isPrefixOf t = false

instance (rest : List Token) : Decidable (stays_permissive rest) := by
  unfold stays_permissive
  infer_instance

/-- A loop state in permissive mode with nothing collected and no way back to
strict mode. -/
def permissive_inv (cfg : htif_config) (pc : parse_pc) (s : parse_state) : Prop :=
  s.opterr = 0 ∧ s.self.targs = [] ∧ stays_permissive s.d.rest ∧ retry_plain cfg pc

/-- Where a pass of the loop can lead from such a state. -/
def dead_end_step (cfg : htif_config) : parse_step → Prop
  | .next pc s => permissive_inv cfg pc s
  | .done_processing s => s.d.rest = [] ∧ s.self.targs = [] ∧ s.opterr = 0
  | .throw e s =>
    (e = .invalid_argument MSG_HELP ∨ e = .invalid_argument MSG_PERMISSIVE)
      ∧ s.self.targs = [] ∧ s.opterr = 0
  | .undefined _ => False

/-- How a call ends that can collect no target argument: one of three
`std::invalid_argument` exceptions, with empty `targs` and the mode still
permissive. -/
def dead_end (o : parse_outcome) : Prop :=
  (o.status = .thrown (.invalid_argument MSG_NO_BINARY)
    ∨ o.status = .thrown (.invalid_argument MSG_HELP)
    ∨ o.status = .thrown (.invalid_argument MSG_PERMISSIVE))
  ∧ o.self.targs = [] ∧ o.opterr = 0

instance (o : parse_outcome) : Decidable (dead_end o) := by
  unfold dead_end
  infer_instance

/-- The element is a cluster of short options in which the letter `h` occurs: it
starts with one `-` and has an `h` after it (`-xh`, `-cm_hier`).  `getopt_long`
reads it letter by letter, and the `h` is the option `-h`. -/
def help_cluster (tok : Token) : Bool :=
  match tok with
  | c0 :: c1 :: more => decide (c0 = '-') && decide (c1 ≠ '-') && (c1 :: more).contains 'h'
  | _ => false

/-- A vector of options only: every element is a dash-option (it starts with `-`,
has a second character and is not `--`) or has one of the plusarg forms of
`case 1`. -/
def all_options (args : List Token) : Prop :=
  ∀ t ∈ args, t ≠ DASH_DASH ∧ (nonoption t = true → is_plusarg t = true)

instance (args : List Token) : Decidable (all_options args) := by
  unfold all_options
  infer_instance

/-- A loop state with nothing collected and only options ahead. -/
def option_inv (cfg : htif_config) (pc : parse_pc) (s : parse_state) : Prop :=
  s.self.targs = [] ∧ all_options s.d.rest ∧ retry_plain cfg pc

/-- The `what()` texts of the `throw` statements of `parse_arguments`. -/
def CLASSIFICATION_MESSAGES : List String :=
  [MSG_NO_BINARY, MSG_HELP, MSG_UNKNOWN, MSG_PERMISSIVE, MSG_PERMISSIVE_OFF]

/-- Where a pass of the loop can lead from such a state. -/
def fails_step (cfg : htif_config) : parse_step → Prop
  | .next pc s => option_inv cfg pc s
  | .done_processing s => s.d.rest = [] ∧ s.self.targs = []
  | .throw e s =>
    (∃ msg ∈ CLASSIFICATION_MESSAGES, e = .invalid_argument msg) ∧ s.self.targs = []
  | .undefined _ => False

/-- The call ends with a `std::invalid_argument` of `parse_arguments` and has
collected nothing. -/
def classification_error (o : parse_outcome) : Prop :=
  (∃ msg ∈ CLASSIFICATION_MESSAGES, o.status = .thrown (.invalid_argument msg))
    ∧ o.self.targs = []

instance (o : parse_outcome) : Decidable (classification_error o) := by
  unfold classification_error
  infer_instance

/-! ## Theorems -/

/-! ### `clear_chunk`: the loop, iteration by iteration -/

theorem nth_call_shift (c taddr len pos i : Nat) :
    nth_call c taddr len ((pos + c) % SIZE_MOD) i = nth_call c taddr len pos (i + 1) := by
  have h : ((pos + c) % SIZE_MOD + i * c) % SIZE_MOD = (pos + (i + 1) * c) % SIZE_MOD := by
    rw [Nat.mod_add_mod]
    congr 1
    ring
  simp [nth_call, h]

theorem clear_chunk_loop_running (c taddr len : Nat) :
    ∀ (fuel pos : Nat) (acc : List write_chunk_call), pos < SIZE_MOD →
      (∀ i, i < fuel → (pos + i * c) % SIZE_MOD < len) →
      clear_chunk_loop c taddr len fuel pos acc
        = ⟨acc ++ (List.range fuel).map (nth_call c taddr len pos), false⟩ := by
  intro fuel
  induction fuel with
  | zero => intro pos acc _ _; simp [clear_chunk_loop]
  | succ n ih =>
    intro pos acc hpos h
    have h0 : pos < len := by
      have := h 0 (Nat.succ_pos n)
      simpa [Nat.mod_eq_of_lt hpos] using this
    have hstep : ∀ i, i < n → ((pos + c) % SIZE_MOD + i * c) % SIZE_MOD < len := by
      intro i hi
      have := h (i + 1) (Nat.succ_lt_succ hi)
      rw [Nat.mod_add_mod]
      have e : pos + c + i * c = pos + (i + 1) * c := by ring
      rw [e]; exact this
    rw [clear_chunk_loop, if_pos h0, ih _ _ (Nat.mod_lt _ (by decide)) hstep]
    have hfun : nth_call c taddr len ((pos + c) % SIZE_MOD)
        = (nth_call c taddr len pos) ∘ Nat.succ := by
      funext i; simp [nth_call_shift]
    rw [List.range_succ_eq_map, List.map_cons, List.map_map, ← hfun]
    simp [nth_call, Nat.mod_eq_of_lt hpos]

theorem clear_chunk_loop_exit (c taddr len : Nat) :
    ∀ (m fuel pos : Nat) (acc : List write_chunk_call), pos < SIZE_MOD → m < fuel →
      (∀ i, i < m → (pos + i * c) % SIZE_MOD < len) →
      len ≤ (pos + m * c) % SIZE_MOD →
      clear_chunk_loop c taddr len fuel pos acc
        = ⟨acc ++ (List.range m).map (nth_call c taddr len pos), true⟩ := by
  intro m
  induction m with
  | zero =>
    intro fuel pos acc hpos hf _ hle
    obtain ⟨f, rfl⟩ : ∃ f, fuel = f + 1 := ⟨fuel - 1, by omega⟩
    have : ¬ pos < len := by
      simp [Nat.mod_eq_of_lt hpos] at hle; omega
    simp [clear_chunk_loop, this]
  | succ n ih =>
    intro fuel pos acc hpos hf h hle
    obtain ⟨f, rfl⟩ : ∃ f, fuel = f + 1 := ⟨fuel - 1, by omega⟩
    have h0 : pos < len := by
      have := h 0 (Nat.succ_pos n)
      simpa [Nat.mod_eq_of_lt hpos] using this
    have hstep : ∀ i, i < n → ((pos + c) % SIZE_MOD + i * c) % SIZE_MOD < len := by
      intro i hi
      have := h (i + 1) (Nat.succ_lt_succ hi)
      rw [Nat.mod_add_mod]
      have e : pos + c + i * c = pos + (i + 1) * c := by ring
      rw [e]; exact this
    have hle2 : len ≤ ((pos + c) % SIZE_MOD + n * c) % SIZE_MOD := by
      rw [Nat.mod_add_mod]
      have e : pos + c + n * c = pos + (n + 1) * c := by ring
      rw [e]; exact hle
    rw [clear_chunk_loop, if_pos h0,
      ih f _ _ (Nat.mod_lt _ (by decide)) (by omega) hstep hle2]
    have hfun : nth_call c taddr len ((pos + c) % SIZE_MOD)
        = (nth_call c taddr len pos) ∘ Nat.succ := by
      funext i; simp [nth_call_shift]
    rw [List.range_succ_eq_map, List.map_cons, List.map_map, ← hfun]
    simp [nth_call, Nat.mod_eq_of_lt hpos]

theorem chunk_count_cover (c len : Nat) (hc : 1 ≤ c) : len ≤ chunk_count c len * c := by
  unfold chunk_count
  have h1 := Nat.div_add_mod (len + c - 1) c
  have h2 := Nat.mod_lt (len + c - 1) hc
  have h3 : c * ((len + c - 1) / c) = (len + c - 1) / c * c := Nat.mul_comm _ _
  omega

theorem chunk_count_below (c len i : Nat) (hc : 1 ≤ c) (hi : i < chunk_count c len) :
    i * c < len := by
  have h1 : (i + 1) * c ≤ chunk_count c len * c := Nat.mul_le_mul_right c hi
  have h2 : chunk_count c len * c ≤ len + c - 1 := by
    unfold chunk_count
    exact Nat.div_mul_le_self _ _
  have h3 : (i + 1) * c = i * c + c := by ring
  omega

/-- Closed form of a run that never wraps `pos`: the loop is left after
`chunk_count c len` calls, call `i` being `write_chunk(taddr + i * c, min(len - i * c, c), zeros)`. -/
theorem clear_chunk_closed (fuel c taddr len : Nat) (hc : 1 ≤ c)
    (hwrap : chunk_count c len * c < SIZE_MOD) (hfuel : chunk_count c len < fuel) :
    clear_chunk fuel c taddr len
      = ⟨(List.range (chunk_count c len)).map
          (fun i => ⟨(taddr + i * c) % ADDR_MOD, min (len - i * c) c, zeros c⟩), true⟩ := by
  have hlt : ∀ i, i ≤ chunk_count c len → (0 + i * c) % SIZE_MOD = i * c := by
    intro i hi
    have : i * c ≤ chunk_count c len * c := Nat.mul_le_mul_right c hi
    rw [Nat.zero_add]
    exact Nat.mod_eq_of_lt (by omega)
  unfold clear_chunk
  rw [clear_chunk_loop_exit c taddr len (chunk_count c len) fuel 0 [] (by decide) hfuel
    (fun i hi => by rw [hlt i (Nat.le_of_lt hi)]; exact chunk_count_below c len i hc hi)
    (by rw [hlt _ (Nat.le_refl _)]; exact chunk_count_cover c len hc)]
  simp only [List.nil_append, clear_chunk_run.mk.injEq, and_true]
  apply List.map_congr_left
  intro i hi
  have := hlt i (Nat.le_of_lt (List.mem_range.mp hi))
  simp only [nth_call, this]

theorem bytes_written_zeros (c a m : Nat) (hm : m ≤ c) :
    bytes_written ⟨a, m, zeros c⟩ = (List.range' a m).map (fun x => (x, some 0)) := by
  unfold bytes_written
  rw [List.range'_eq_map_range, List.map_map]
  apply List.map_congr_left
  intro j hj
  have hj2 : j < c := Nat.lt_of_lt_of_le (List.mem_range.mp hj) hm
  simp [zeros, List.getElem?_replicate, hj2]

theorem tile_calls_bytes (c : Nat) :
    ∀ (n a len : Nat), (∀ i, i < n → i * c < len) → len ≤ n * c →
      (tile_calls c a len n).flatMap bytes_written
        = (List.range' a len).map (fun x => (x, some 0)) := by
  intro n
  induction n with
  | zero =>
    intro a len _ h
    have : len = 0 := by omega
    subst this
    simp [tile_calls]
  | succ n ih =>
    intro a len h1 h2
    have hsplit : tile_calls c a len (n + 1)
        = ⟨a, min len c, zeros c⟩ :: tile_calls c (a + c) (len - c) n := by
      unfold tile_calls
      rw [List.range_succ_eq_map, List.map_cons, List.map_map]
      simp only [Nat.zero_mul, Nat.add_zero, Nat.sub_zero, List.cons.injEq, true_and]
      apply List.map_congr_left
      intro i _
      have e1 : a + (i + 1) * c = a + c + i * c := by ring
      have e2 : len - (i + 1) * c = len - c - i * c := by
        have : (i + 1) * c = c + i * c := by ring
        omega
      simp [e1, e2]
    rw [hsplit, List.flatMap_cons]
    rcases Nat.eq_zero_or_pos n with hn | hn
    · subst hn
      have hlen : len ≤ c := by omega
      have hmin : min len c = len := Nat.min_eq_left hlen
      rw [hmin, bytes_written_zeros c a len hlen]
      simp [tile_calls]
    · have hcl : c < len := by
        have h3 := h1 n (Nat.lt_succ_self n)
        have h4 : 1 * c ≤ n * c := Nat.mul_le_mul_right c hn
        omega
      have hmin : min len c = c := Nat.min_eq_right (Nat.le_of_lt hcl)
      have hih := ih (a + c) (len - c)
        (fun i hi => by
          have h3 := h1 (i + 1) (Nat.succ_lt_succ hi)
          have : (i + 1) * c = i * c + c := by ring
          omega)
        (by
          have : (n + 1) * c = n * c + c := by ring
          omega)
      rw [hmin, bytes_written_zeros c a c (Nat.le_refl c), hih, ← List.map_append,
        List.range'_append_1]
      congr 2
      omega

theorem clear_chunk_calls_eq_tile (fuel c taddr len : Nat) (hc : 1 ≤ c)
    (hwrap : chunk_count c len * c < SIZE_MOD) (haddr : taddr + len ≤ ADDR_MOD)
    (hfuel : chunk_count c len < fuel) :
    clear_chunk fuel c taddr len = ⟨tile_calls c taddr len (chunk_count c len), true⟩ := by
  rw [clear_chunk_closed fuel c taddr len hc hwrap hfuel]
  simp only [tile_calls, clear_chunk_run.mk.injEq, and_true]
  apply List.map_congr_left
  intro i hi
  have := chunk_count_below c len i hc (List.mem_range.mp hi)
  have h : (taddr + i * c) % ADDR_MOD = taddr + i * c := Nat.mod_eq_of_lt (by omega)
  simp [h]

/-! ### The claims about `clear_chunk` -/

/-- C1 (amended): when `pos` never wraps (`ceil(len / c) * c < 2 ^ 64`) and `c ≥ 1`,
`clear_chunk(taddr, len)` returns after exactly `ceil(len / c)` `write_chunk`
calls (none when `len = 0`); every call transfers between 1 and `c` bytes and
every call but the last transfers exactly `c`. -/
theorem clear_chunk_call_count (fuel c taddr len : Nat) (hc : 1 ≤ c)
    (hwrap : (len + c - 1) / c * c < 2 ^ 64) (hfuel : (len + c - 1) / c < fuel) :
    (clear_chunk fuel c taddr len).returned = true ∧
    (clear_chunk fuel c taddr len).calls.length = (len + c - 1) / c ∧
    (len = 0 → (clear_chunk fuel c taddr len).calls = []) ∧
    (∀ k ∈ (clear_chunk fuel c taddr len).calls, 1 ≤ k.len ∧ k.len ≤ c) ∧
    (∀ i k, i + 1 < (clear_chunk fuel c taddr len).calls.length →
      (clear_chunk fuel c taddr len).calls[i]? = some k → k.len = c) := by
  rw [clear_chunk_closed fuel c taddr len hc hwrap hfuel]
  refine ⟨rfl, by simp [chunk_count], ?_, ?_, ?_⟩
  · intro h0
    subst h0
    have : chunk_count c 0 = 0 := by
      unfold chunk_count
      exact Nat.div_eq_of_lt (by omega)
    simp [this]
  · intro k hk
    simp only [List.mem_map, List.mem_range] at hk
    obtain ⟨i, hi, rfl⟩ := hk
    have := chunk_count_below c len i hc hi
    simp only [Nat.le_min, Nat.min_le_right, and_true]
    omega
  · intro i k hi hk
    simp only [List.length_map, List.length_range] at hi
    rw [List.getElem?_map, List.getElem?_range (by omega)] at hk
    simp only [Option.map_some', Option.some.injEq] at hk
    subst hk
    have := chunk_count_below c len (i + 1) hc hi
    have e : (i + 1) * c = i * c + c := by ring
    simp only
    omega

/-- Witness for `clear_chunk_call_count`: 20 bytes in chunks of 8. -/
theorem clear_chunk_call_count_witness :
    (clear_chunk 4 8 2147483648 20).returned = true ∧
    (clear_chunk 4 8 2147483648 20).calls.length = (20 + 8 - 1) / 8 ∧
    (20 = 0 → (clear_chunk 4 8 2147483648 20).calls = []) ∧
    (∀ k ∈ (clear_chunk 4 8 2147483648 20).calls, 1 ≤ k.len ∧ k.len ≤ 8) ∧
    (∀ i k, i + 1 < (clear_chunk 4 8 2147483648 20).calls.length →
      (clear_chunk 4 8 2147483648 20).calls[i]? = some k → k.len = 8) :=
  clear_chunk_call_count 4 8 2147483648 20 (by decide) (by decide) (by decide)

/-- C1 as stated fails when `pos += chunk_max_size()` wraps: for `len = 2 ^ 64 - 1`
and chunks of 8 bytes the loop has issued `2 ^ 61 + 1` calls, one more than
`ceil(len / 8) = 2 ^ 61`, and is still running. -/
theorem clear_chunk_call_count_wraps :
    (clear_chunk (2 ^ 61 + 1) 8 0 (2 ^ 64 - 1)).returned = false ∧
    (clear_chunk (2 ^ 61 + 1) 8 0 (2 ^ 64 - 1)).calls.length = 2 ^ 61 + 1 ∧
    (2 ^ 64 - 1 + 8 - 1) / 8 = 2 ^ 61 := by
  have h := clear_chunk_loop_running 8 0 (2 ^ 64 - 1) (2 ^ 61 + 1) 0 [] (by decide)
    (fun i _ => by simp only [SIZE_MOD]; omega)
  unfold clear_chunk
  rw [h]
  refine ⟨rfl, ?_, by norm_num⟩
  rw [List.nil_append, List.length_map, List.length_range]

/-- C2 (amended): when neither `pos` nor `taddr + pos` wraps
(`ceil(len / c) * c < 2 ^ 64` and `taddr + len ≤ 2 ^ 64`) and `c ≥ 1`, the calls of
`clear_chunk(taddr, len)` tile `[taddr, taddr + len)` in ascending order: the first
call starts at `taddr`, each later call starts where the previous one ended, the
sizes sum to `len`, every buffer byte is zero, and the bytes stored are exactly a
zero at `taddr`, `taddr + 1`, ..., `taddr + len - 1`, each address once. -/
theorem clear_chunk_tiles (fuel c taddr len : Nat) (hc : 1 ≤ c)
    (hwrap : (len + c - 1) / c * c < 2 ^ 64) (haddr : taddr + len ≤ 2 ^ 64)
    (hfuel : (len + c - 1) / c < fuel) :
    (clear_chunk fuel c taddr len).returned = true ∧
    (∀ k, (clear_chunk fuel c taddr len).calls.head? = some k → k.taddr = taddr) ∧
    (∀ i k k2, (clear_chunk fuel c taddr len).calls[i]? = some k →
      (clear_chunk fuel c taddr len).calls[i + 1]? = some k2 → k2.taddr = k.taddr + k.len) ∧
    ((clear_chunk fuel c taddr len).calls.map (fun k => k.len)).sum = len ∧
    (∀ k ∈ (clear_chunk fuel c taddr len).calls,
      k.len ≤ k.src.length ∧ ∀ b ∈ k.src, b = 0) ∧
    (clear_chunk fuel c taddr len).calls.flatMap bytes_written
      = (List.range' taddr len).map (fun a => (a, some 0)) ∧
    (∀ a, (((clear_chunk fuel c taddr len).calls.flatMap bytes_written).map Prod.fst).count a
      = if taddr ≤ a ∧ a < taddr + len then 1 else 0) := by
  have hbytes := tile_calls_bytes c (chunk_count c len) taddr len
    (fun i hi => chunk_count_below c len i hc hi) (chunk_count_cover c len hc)
  rw [clear_chunk_calls_eq_tile fuel c taddr len hc hwrap haddr hfuel]
  refine ⟨rfl, ?_, ?_, ?_, ?_, hbytes, ?_⟩
  · intro k hk
    simp only [tile_calls, List.head?_map, List.head?_range] at hk
    split at hk
    · simp at hk
    · simp only [Option.map_some', Option.some.injEq] at hk
      subst hk
      simp
  · intro i k k2 hk hk2
    simp only [tile_calls] at hk hk2
    have hi : i + 1 < chunk_count c len := by
      by_contra hcon
      rw [List.getElem?_eq_none (by simp; omega)] at hk2
      exact Option.noConfusion hk2
    rw [List.getElem?_map, List.getElem?_range (by omega)] at hk
    rw [List.getElem?_map, List.getElem?_range hi] at hk2
    simp only [Option.map_some', Option.some.injEq] at hk hk2
    subst hk
    subst hk2
    have := chunk_count_below c len (i + 1) hc hi
    have e : (i + 1) * c = i * c + c := by ring
    have hmin : min (len - i * c) c = c := Nat.min_eq_right (by omega)
    simp only [hmin, e]
    omega
  · have hlen := congrArg List.length hbytes
    rw [List.length_flatMap, List.length_map, List.length_range'] at hlen
    have hfun : (fun k : write_chunk_call => k.len) = List.length ∘ bytes_written := by
      funext k
      simp [bytes_written]
    rw [hfun]
    exact hlen
  · intro k hk
    simp only [tile_calls, List.mem_map, List.mem_range] at hk
    obtain ⟨i, _, rfl⟩ := hk
    simp [zeros]
  · intro a
    rw [hbytes, List.map_map]
    have hid : (Prod.fst ∘ fun (x : Nat) => (x, (some 0 : Option Nat))) = id := rfl
    rw [hid, List.map_id]
    by_cases ha : taddr ≤ a ∧ a < taddr + len
    · rw [if_pos ha]
      exact List.count_eq_one_of_mem (List.nodup_range' taddr len)
        (List.mem_range'_1.mpr ha)
    · rw [if_neg ha]
      exact List.count_eq_zero.mpr (fun hmem => ha (List.mem_range'_1.mp hmem))

/-- Witness for `clear_chunk_tiles`: 20 bytes at `0x80000000` in chunks of 8. -/
theorem clear_chunk_tiles_witness :
    (clear_chunk 4 8 2147483648 20).returned = true ∧
    (∀ k, (clear_chunk 4 8 2147483648 20).calls.head? = some k → k.taddr = 2147483648) ∧
    (∀ i k k2, (clear_chunk 4 8 2147483648 20).calls[i]? = some k →
      (clear_chunk 4 8 2147483648 20).calls[i + 1]? = some k2 → k2.taddr = k.taddr + k.len) ∧
    ((clear_chunk 4 8 2147483648 20).calls.map (fun k => k.len)).sum = 20 ∧
    (∀ k ∈ (clear_chunk 4 8 2147483648 20).calls,
      k.len ≤ k.src.length ∧ ∀ b ∈ k.src, b = 0) ∧
    (clear_chunk 4 8 2147483648 20).calls.flatMap bytes_written
      = (List.range' 2147483648 20).map (fun a => (a, some 0)) ∧
    (∀ a, (((clear_chunk 4 8 2147483648 20).calls.flatMap bytes_written).map Prod.fst).count a
      = if 2147483648 ≤ a ∧ a < 2147483648 + 20 then 1 else 0) :=
  clear_chunk_tiles 4 8 2147483648 20 (by decide) (by decide) (by decide) (by decide)

/-- C2 as stated fails when `pos += chunk_max_size()` wraps: for `taddr = 0`,
`len = 2 ^ 64 - 1` and chunks of 16 bytes, the call number `2 ^ 60` (counted
from 0) starts at address 0 again, so the bytes at addresses 0..15 are written
by two different calls and the loop has not returned. -/
theorem clear_chunk_tiles_wraps :
    (clear_chunk (2 ^ 60 + 1) 16 0 (2 ^ 64 - 1)).returned = false ∧
    (clear_chunk (2 ^ 60 + 1) 16 0 (2 ^ 64 - 1)).calls[0]? = some ⟨0, 16, zeros 16⟩ ∧
    (clear_chunk (2 ^ 60 + 1) 16 0 (2 ^ 64 - 1)).calls[2 ^ 60]? = some ⟨0, 16, zeros 16⟩ := by
  have h := clear_chunk_loop_running 16 0 (2 ^ 64 - 1) (2 ^ 60 + 1) 0 [] (by decide)
    (fun i _ => by simp only [SIZE_MOD]; omega)
  unfold clear_chunk
  rw [h]
  refine ⟨rfl, ?_, ?_⟩
  · rw [List.nil_append, List.getElem?_map, List.getElem?_range (by norm_num)]
    simp [nth_call, SIZE_MOD, ADDR_MOD]
  · rw [List.nil_append, List.getElem?_map, List.getElem?_range (by norm_num)]
    simp [nth_call, SIZE_MOD, ADDR_MOD]

/-! ### `parse_arguments`: the loop ends -/

theorem tokens_weight_cons (t : Token) (ts : List Token) :
    tokens_weight (t :: ts) = t.length + 2 + tokens_weight ts := by
  simp [tokens_weight]

theorem short_option_measure (ch : Char) (more : List Char) (seen rest : List Token) :
    scan_measure (short_option ch more seen rest).d + 1
      ≤ more.length + 1 + tokens_weight rest.tail
    ∧ (short_option ch more seen rest).optarg = none := by
  unfold short_option
  cases more with
  | nil => by_cases h : ch = 'h' <;> simp [h, scan_measure] <;> omega
  | cons m ms => by_cases h : ch = 'h' <;> simp [h, scan_measure] <;> omega

theorem option_nameend_length (nextchar value : List Char) (x : Char)
    (h : option_nameend nextchar = x :: value) : value.length < nextchar.length := by
  have h1 : (option_nameend nextchar).length ≤ nextchar.length := by
    unfold option_nameend
    exact (List.dropWhile_sublist _).length_le
  rw [h] at h1
  simp at h1
  omega

theorem process_long_option_measure (lo : List struct_option) (tok : Token)
    (nextchar : List Char) (seen rest : List Token) :
    scan_measure (process_long_option lo tok nextchar seen rest).d
        + optarg_length (process_long_option lo tok nextchar seen rest).optarg + 1
      ≤ nextchar.length + 2 + tokens_weight rest := by
  unfold process_long_option
  split
  · simp only [scan_measure, optarg_length]
    omega
  · simp only [scan_measure, optarg_length]
    omega
  · split
    · rename_i x value hn
      have := option_nameend_length nextchar value x hn
      split
      · simp only [scan_measure, optarg_length]
        omega
      · simp only [scan_measure, optarg_length]
        omega
    · split
      · split
        · simp only [scan_measure, optarg_length, tokens_weight_cons]
          omega
        · simp only [scan_measure, optarg_length]
          omega
      · simp only [scan_measure, optarg_length]
        omega

theorem getopt_long_cluster (lo : List struct_option) (seen rest : List Token)
    (ch : Char) (more : List Char) :
    getopt_long lo ⟨seen, rest, ch :: more⟩ = short_option ch more seen rest := rfl

theorem getopt_long_end (lo : List struct_option) (seen : List Token) :
    getopt_long lo ⟨seen, [], []⟩ = ⟨-1, none, ⟨seen, [], []⟩⟩ := rfl

theorem getopt_long_empty (lo : List struct_option) (seen rest : List Token) :
    getopt_long lo ⟨seen, [] :: rest, []⟩ = ⟨1, some [], ⟨[] :: seen, rest, []⟩⟩ := rfl

theorem getopt_long_single (lo : List struct_option) (seen rest : List Token) (c0 : Char) :
    getopt_long lo ⟨seen, [c0] :: rest, []⟩ = ⟨1, some [c0], ⟨[c0] :: seen, rest, []⟩⟩ := rfl

theorem getopt_long_nondash (lo : List struct_option) (seen rest : List Token)
    (c0 c1 : Char) (more : List Char) (h : c0 ≠ '-') :
    getopt_long lo ⟨seen, (c0 :: c1 :: more) :: rest, []⟩
      = ⟨1, some (c0 :: c1 :: more), ⟨(c0 :: c1 :: more) :: seen, rest, []⟩⟩ := by
  simp [getopt_long, h]

theorem getopt_long_dashdash (lo : List struct_option) (seen rest : List Token) :
    getopt_long lo ⟨seen, ['-', '-'] :: rest, []⟩
      = ⟨-1, none, ⟨['-', '-'] :: seen, rest, []⟩⟩ := rfl

theorem getopt_long_long (lo : List struct_option) (seen rest : List Token)
    (m : Char) (ms : List Char) :
    getopt_long lo ⟨seen, ('-' :: '-' :: m :: ms) :: rest, []⟩
      = process_long_option lo ('-' :: '-' :: m :: ms) (m :: ms) seen rest := by
  simp [getopt_long]

theorem getopt_long_short (lo : List struct_option) (seen rest : List Token)
    (c1 : Char) (more : List Char) (h : c1 ≠ '-') :
    getopt_long lo ⟨seen, ('-' :: c1 :: more) :: rest, []⟩
      = short_option c1 more seen (('-' :: c1 :: more) :: rest) := by
  simp [getopt_long, h]

theorem getopt_long_measure (lo : List struct_option) (d : getopt_data)
    (h : (getopt_long lo d).c ≠ -1) :
    scan_measure (getopt_long lo d).d + optarg_length (getopt_long lo d).optarg + 1
      ≤ scan_measure d := by
  obtain ⟨seen, rest, nextchar⟩ := d
  cases nextchar with
  | cons ch more =>
    rw [getopt_long_cluster]
    have := short_option_measure ch more seen rest
    simp only [scan_measure, this.2, optarg_length] at this ⊢
    omega
  | nil =>
    cases rest with
    | nil => simp [getopt_long_end] at h
    | cons tok rest =>
      rcases tok with _ | ⟨c0, _ | ⟨c1, more⟩⟩
      · simp [getopt_long_empty, scan_measure, optarg_length, tokens_weight_cons]
        omega
      · simp [getopt_long_single, scan_measure, optarg_length, tokens_weight_cons]
        omega
      · by_cases h0 : c0 = '-'
        · subst h0
          by_cases h1 : c1 = '-'
          · subst h1
            cases more with
            | nil => simp [getopt_long_dashdash] at h
            | cons m ms =>
              rw [getopt_long_long]
              have := process_long_option_measure lo ('-' :: '-' :: m :: ms) (m :: ms) seen rest
              simp only [scan_measure, tokens_weight_cons, List.length_cons] at this ⊢
              omega
          · rw [getopt_long_short _ _ _ _ _ h1]
            have := short_option_measure c1 more seen (('-' :: c1 :: more) :: rest)
            simp only [this.2, optarg_length, scan_measure, tokens_weight_cons,
              List.length_cons, List.tail_cons] at this ⊢
            omega
        · rw [getopt_long_nondash _ _ _ _ _ _ h0]
          simp [scan_measure, optarg_length, tokens_weight_cons]
          omega

theorem starts_with_split (p l : List Char) (h : p.isPrefixOf l = true) :
    ∃ t, p ++ t = l :=
  List.isPrefixOf_iff_prefix.mp h

theorem starts_with_drop_length (p arg : List Char) (h : p.isPrefixOf arg = true) :
    (arg.drop p.length).length + p.length = arg.length := by
  obtain ⟨t, rfl⟩ := starts_with_split p arg h
  simp
  omega

theorem case_1_measure (cfg : htif_config) (arg : Token)
    (s s2 : parse_state) (pc2 : parse_pc)
    (h : case_1 cfg arg s = .next pc2 s2) :
    parse_measure pc2 s2 ≤ scan_measure s.d + arg.length := by
  unfold case_1 at h
  by_cases h1 : arg = PLUS_RFB
  · rw [if_pos h1] at h
    injection h with e1 e2
    subst e1; subst e2; subst h1
    simp [parse_measure, optarg_length, PLUS_RFB]
  rw [if_neg h1] at h
  by_cases h2 : PLUS_RFB_EQ.isPrefixOf arg = true
  · rw [if_pos h2] at h
    have := starts_with_drop_length _ _ h2
    injection h with e1 e2
    subst e1; subst e2
    simp [parse_measure, optarg_length, PLUS_RFB_EQ] at this ⊢
    omega
  rw [if_neg h2] at h
  by_cases h3 : PLUS_DISK_EQ.isPrefixOf arg = true
  · rw [if_pos h3] at h
    have := starts_with_drop_length _ _ h3
    injection h with e1 e2
    subst e1; subst e2
    simp [parse_measure, optarg_length, PLUS_DISK_EQ] at this ⊢
    omega
  rw [if_neg h3] at h
  by_cases h4 : PLUS_SIGNATURE_EQ.isPrefixOf arg = true
  · rw [if_pos h4] at h
    have := starts_with_drop_length _ _ h4
    injection h with e1 e2
    subst e1; subst e2
    simp [parse_measure, optarg_length, PLUS_SIGNATURE_EQ] at this ⊢
    omega
  rw [if_neg h4] at h
  by_cases h5 : PLUS_CHROOT_EQ.isPrefixOf arg = true
  · rw [if_pos h5] at h
    have := starts_with_drop_length _ _ h5
    injection h with e1 e2
    subst e1; subst e2
    simp [parse_measure, optarg_length, PLUS_CHROOT_EQ] at this ⊢
    omega
  rw [if_neg h5] at h
  by_cases h6 : PLUS_PERMISSIVE_OFF.isPrefixOf arg = true
  · rw [if_pos h6] at h
    by_cases he : s.opterr ≠ 0
    · rw [if_pos he] at h
      exact parse_step.noConfusion h
    · rw [if_neg he] at h
      injection h with e1 e2
      subst e1; subst e2
      simp [parse_measure]
  rw [if_neg h6] at h
  by_cases h7 : PLUS_PERMISSIVE.isPrefixOf arg = true
  · rw [if_pos h7] at h
    by_cases he : s.opterr = 0
    · rw [if_pos he] at h
      exact parse_step.noConfusion h
    · rw [if_neg he] at h
      injection h with e1 e2
      subst e1; subst e2
      simp [parse_measure]
  rw [if_neg h7] at h
  by_cases he : s.opterr = 0
  · rw [if_pos he] at h
    injection h with e1 e2
    subst e1; subst e2
    simp [parse_measure]
  · rw [if_neg he] at h
    unfold put_back at h
    cases hs : s.d.seen with
    | nil => rw [hs] at h; exact parse_step.noConfusion h
    | cons t ts => rw [hs] at h; exact parse_step.noConfusion h

theorem switch_c_measure (cfg : htif_config) (c : Int) (optarg : Option Token)
    (s s2 : parse_state) (pc2 : parse_pc)
    (h : switch_c cfg c optarg s = .next pc2 s2) :
    parse_measure pc2 s2 ≤ scan_measure s.d + optarg_length optarg := by
  unfold switch_c at h
  by_cases h1 : c = 104
  · rw [if_pos h1] at h
    exact parse_step.noConfusion h
  rw [if_neg h1] at h
  by_cases h2 : c = cfg.HTIF_LONG_OPTIONS_OPTIND + 2
  · rw [if_pos h2] at h
    cases optarg with
    | none => exact parse_step.noConfusion h
    | some v =>
      injection h with e1 e2
      subst e1; subst e2
      simp [parse_measure]
  rw [if_neg h2] at h
  by_cases h3 : c = 63
  · rw [if_pos h3] at h
    by_cases he : s.opterr = 0
    · rw [if_pos he] at h
      injection h with e1 e2
      subst e1; subst e2
      simp [parse_measure]
    · rw [if_neg he] at h
      exact parse_step.noConfusion h
  rw [if_neg h3] at h
  by_cases h4 : c = 1
  · rw [if_pos h4] at h
    cases optarg with
    | none => exact parse_step.noConfusion h
    | some arg => exact case_1_measure cfg arg s s2 pc2 h
  · rw [if_neg h4] at h
    injection h with e1 e2
    subst e1; subst e2
    simp [parse_measure]

theorem parse_body_measure (cfg : htif_config) (pc pc2 : parse_pc) (s s2 : parse_state)
    (h : parse_body cfg pc s = .next pc2 s2) :
    parse_measure pc2 s2 < parse_measure pc s := by
  cases pc with
  | top =>
    simp only [parse_body] at h
    split at h
    · exact parse_step.noConfusion h
    · rename_i hc
      have h1 := switch_c_measure cfg _ _ _ _ _ h
      have h2 := getopt_long_measure cfg.HTIF_LONG_OPTIONS s.d hc
      simp only [parse_measure] at h1 ⊢
      omega
  | retry c optarg =>
    simp only [parse_body] at h
    have h1 := switch_c_measure cfg _ _ _ _ _ h
    simp only [parse_measure] at h1 ⊢
    omega

/-- Once the loop has enough passes for its state, more passes change nothing. -/
theorem parse_loop_eq_run (cfg : htif_config) :
    ∀ (n : Nat) (pc : parse_pc) (s : parse_state), parse_measure pc s < n →
      parse_loop cfg n pc s = parse_run cfg pc s := by
  intro n
  induction n using Nat.strong_induction_on with
  | _ n ih =>
    intro pc s hn
    obtain ⟨k, rfl⟩ : ∃ k, n = k + 1 := ⟨n - 1, by omega⟩
    unfold parse_run
    rw [parse_loop, parse_loop]
    cases hb : parse_body cfg pc s with
    | next pc2 s2 =>
      have hm := parse_body_measure cfg pc pc2 s s2 hb
      simp only
      rw [ih k (by omega) pc2 s2 (by omega),
        ih (parse_measure pc s) (by omega) pc2 s2 hm]
    | done_processing s2 => rfl
    | throw e s2 => rfl
    | undefined s2 => rfl

/-- The loop, one pass at a time. -/
theorem parse_run_eq (cfg : htif_config) (pc : parse_pc) (s : parse_state) :
    parse_run cfg pc s =
      match parse_body cfg pc s with
      | .next pc2 s2 => parse_run cfg pc2 s2
      | .done_processing s2 => done_processing s2
      | .throw e s2 => ⟨.thrown e, s2.self, s2.opterr⟩
      | .undefined s2 => ⟨.undefined, s2.self, s2.opterr⟩ := by
  conv_lhs => unfold parse_run
  rw [parse_loop]
  cases hb : parse_body cfg pc s with
  | next pc2 s2 =>
    exact parse_loop_eq_run cfg _ pc2 s2 (parse_body_measure cfg pc pc2 s s2 hb)
  | done_processing s2 => rfl
  | throw e s2 => rfl
  | undefined s2 => rfl

theorem parse_arguments_eq_run (cfg : htif_config) (argv : List Token) (opterr : Int)
    (self : htif_t) :
    parse_arguments cfg argv opterr self
      = parse_run cfg .top ⟨⟨(argv.take 1).reverse, argv.drop 1, []⟩, opterr, self⟩ := rfl

/-- The loop never runs out of passes: `parse_arguments` always ends. -/
theorem parse_run_ends (cfg : htif_config) :
    ∀ (n : Nat) (pc : parse_pc) (s : parse_state), parse_measure pc s < n →
      (parse_loop cfg n pc s).status ≠ .running := by
  intro n
  induction n with
  | zero => intro pc s h; omega
  | succ k ih =>
    intro pc s hn
    rw [parse_loop]
    cases hb : parse_body cfg pc s with
    | next pc2 s2 =>
      have hm := parse_body_measure cfg pc pc2 s s2 hb
      exact ih pc2 s2 (by omega)
    | done_processing s2 =>
      simp only [done_processing]
      split <;> simp
    | throw e s2 => simp
    | undefined s2 => simp

theorem codes_free_labels (cfg : htif_config) (h : codes_free cfg) : labels_distinct cfg :=
  h 2 (by decide)

/-! ### The `switch`, case by case -/

theorem switch_c_help (cfg : htif_config) (optarg : Option Token) (s : parse_state) :
    switch_c cfg 104 optarg s = .throw (.invalid_argument MSG_HELP) s := by
  simp [switch_c]

theorem switch_c_signature (cfg : htif_config) (h : labels_distinct cfg) (v : Token)
    (s : parse_state) :
    switch_c cfg (cfg.HTIF_LONG_OPTIONS_OPTIND + 2) (some v) s
      = .next .top { s with self := { s.self with sig_file := v } } := by
  simp [switch_c, h.1]

theorem switch_c_unknown (cfg : htif_config) (h : labels_distinct cfg)
    (optarg : Option Token) (s : parse_state) :
    switch_c cfg 63 optarg s
      = if s.opterr = 0 then .next .top s
        else .throw (.invalid_argument MSG_UNKNOWN) s := by
  have h2 : (63 : Int) ≠ cfg.HTIF_LONG_OPTIONS_OPTIND + 2 := fun e => h.2.1 e.symm
  simp [switch_c, h2]

theorem switch_c_one (cfg : htif_config) (h : labels_distinct cfg) (arg : Token)
    (s : parse_state) :
    switch_c cfg 1 (some arg) s = case_1 cfg arg s := by
  have h2 : (1 : Int) ≠ cfg.HTIF_LONG_OPTIONS_OPTIND + 2 := fun e => h.2.2 e.symm
  simp [switch_c, h2]

theorem switch_c_default (cfg : htif_config) (c : Int) (optarg : Option Token)
    (s : parse_state) (h1 : c ≠ 104) (h2 : c ≠ cfg.HTIF_LONG_OPTIONS_OPTIND + 2)
    (h3 : c ≠ 63) (h4 : c ≠ 1) :
    switch_c cfg c optarg s = .next .top s := by
  simp [switch_c, h1, h2, h3, h4]

/-! ### `case 1`, pattern by pattern -/

theorem is_plusarg_false (arg : Token) (h : is_plusarg arg = false) :
    arg ≠ PLUS_RFB ∧ PLUS_RFB_EQ.isPrefixOf arg = false ∧ PLUS_DISK_EQ.isPrefixOf arg = false
      ∧ PLUS_SIGNATURE_EQ.isPrefixOf arg = false ∧ PLUS_CHROOT_EQ.isPrefixOf arg = false
      ∧ PLUS_PERMISSIVE_OFF.isPrefixOf arg = false ∧ PLUS_PERMISSIVE.isPrefixOf arg = false := by
  simp only [is_plusarg, Bool.or_eq_false_iff, beq_eq_false_iff_ne] at h
  obtain ⟨⟨⟨⟨⟨⟨h1, h2⟩, h3⟩, h4⟩, h5⟩, h6⟩, h7⟩ := h
  exact ⟨h1, h2, h3, h4, h5, h6, h7⟩

theorem case_1_other (cfg : htif_config) (arg : Token) (s : parse_state)
    (h : is_plusarg arg = false) :
    case_1 cfg arg s =
      if s.opterr = 0 then .next .top s else put_back s := by
  obtain ⟨h1, h2, h3, h4, h5, h6, h7⟩ := is_plusarg_false arg h
  simp only [case_1, h1, h2, h3, h4, h5, h6, h7, if_false, Bool.false_eq_true]

theorem permissive_not_valued (arg : Token) (h : PLUS_PERMISSIVE.isPrefixOf arg = true) :
    arg ≠ PLUS_RFB ∧ PLUS_RFB_EQ.isPrefixOf arg = false ∧ PLUS_DISK_EQ.isPrefixOf arg = false
      ∧ PLUS_SIGNATURE_EQ.isPrefixOf arg = false ∧ PLUS_CHROOT_EQ.isPrefixOf arg = false := by
  obtain ⟨t, rfl⟩ := starts_with_split _ _ h
  refine ⟨?_, rfl, rfl, rfl, rfl⟩
  intro e
  have := congrArg (fun l => l.drop 1 |>.head?) e
  simp [PLUS_PERMISSIVE, PLUS_RFB] at this

theorem permissive_off_is_permissive (arg : Token) (h : PLUS_PERMISSIVE_OFF.isPrefixOf arg = true) :
    PLUS_PERMISSIVE.isPrefixOf arg = true := by
  obtain ⟨t, rfl⟩ := starts_with_split _ _ h
  rfl

theorem case_1_permissive_off (cfg : htif_config) (arg : Token) (s : parse_state)
    (h : PLUS_PERMISSIVE_OFF.isPrefixOf arg = true) :
    case_1 cfg arg s =
      if s.opterr ≠ 0 then .throw (.invalid_argument MSG_PERMISSIVE_OFF) s
      else .next .top { s with opterr := 1 } := by
  obtain ⟨h1, h2, h3, h4, h5⟩ := permissive_not_valued arg (permissive_off_is_permissive arg h)
  simp only [case_1, h1, h2, h3, h4, h5, h, if_false, if_true, Bool.false_eq_true]

theorem case_1_permissive (cfg : htif_config) (arg : Token) (s : parse_state)
    (h : PLUS_PERMISSIVE.isPrefixOf arg = true)
    (hoff : PLUS_PERMISSIVE_OFF.isPrefixOf arg = false) :
    case_1 cfg arg s =
      if s.opterr = 0 then .throw (.invalid_argument MSG_PERMISSIVE) s
      else .next .top { s with opterr := 0 } := by
  obtain ⟨h1, h2, h3, h4, h5⟩ := permissive_not_valued arg h
  simp only [case_1, h1, h2, h3, h4, h5, h, hoff, if_false, if_true, Bool.false_eq_true]

/-! ### `getopt_long`, element by element -/

theorem getopt_long_nonoption (lo : List struct_option) (seen rest : List Token) (tok : Token)
    (h : nonoption tok = true) :
    getopt_long lo ⟨seen, tok :: rest, []⟩ = ⟨1, some tok, ⟨tok :: seen, rest, []⟩⟩ := by
  rcases tok with _ | ⟨c0, _ | ⟨c1, more⟩⟩
  · rfl
  · rfl
  · have h0 : c0 ≠ '-' := by simpa [nonoption] using h
    exact getopt_long_nondash lo seen rest c0 c1 more h0

theorem nonoption_of_head (tok : Token) (h : tok.head? ≠ some '-') : nonoption tok = true := by
  rcases tok with _ | ⟨c0, _ | ⟨c1, more⟩⟩
  · rfl
  · rfl
  · simpa [nonoption] using h

theorem nonoption_of_permissive (tok : Token) (h : PLUS_PERMISSIVE.isPrefixOf tok = true) :
    nonoption tok = true := by
  obtain ⟨t, rfl⟩ := starts_with_split _ _ h
  rfl

theorem parse_body_nonoption (cfg : htif_config) (h : labels_distinct cfg)
    (seen rest : List Token) (tok : Token) (hn : nonoption tok = true) (e : Int)
    (self : htif_t) :
    parse_body cfg .top ⟨⟨seen, tok :: rest, []⟩, e, self⟩
      = case_1 cfg tok ⟨⟨tok :: seen, rest, []⟩, e, self⟩ := by
  simp only [parse_body, getopt_long_nonoption _ _ _ _ hn]
  rw [if_neg (by decide)]
  exact switch_c_one cfg h tok _

/-! ### The loop, element by element -/

theorem done_processing_nonempty (seen rest : List Token) (p : Token) (e : Int)
    (self : htif_t) :
    done_processing ⟨⟨seen, p :: rest, []⟩, e, self⟩
      = ⟨.returned, { self with targs := self.targs ++ p :: rest }, e⟩ := by
  simp [done_processing]

/-- In strict mode an element that is neither an option nor a plusarg ends the
scan: it and everything after it become the target arguments. -/
theorem run_program_path (cfg : htif_config) (h : labels_distinct cfg)
    (seen rest : List Token) (p : Token) (hn : nonoption p = true)
    (hp : is_plusarg p = false) (e : Int) (he : e ≠ 0) (self : htif_t) :
    parse_run cfg .top ⟨⟨seen, p :: rest, []⟩, e, self⟩
      = ⟨.returned, { self with targs := self.targs ++ p :: rest }, e⟩ := by
  rw [parse_run_eq, parse_body_nonoption cfg h _ _ _ hn, case_1_other cfg p _ hp]
  simp only [if_neg he, put_back]
  exact done_processing_nonempty seen rest p e self

/-- In permissive mode an element that is neither an option nor a plusarg is
passed over. -/
theorem run_skip_nonoption (cfg : htif_config) (h : labels_distinct cfg)
    (seen rest : List Token) (p : Token) (hn : nonoption p = true)
    (hp : is_plusarg p = false) (self : htif_t) :
    parse_run cfg .top ⟨⟨seen, p :: rest, []⟩, 0, self⟩
      = parse_run cfg .top ⟨⟨p :: seen, rest, []⟩, 0, self⟩ := by
  rw [parse_run_eq, parse_body_nonoption cfg h _ _ _ hn, case_1_other cfg p _ hp]
  simp

theorem run_permissive (cfg : htif_config) (h : labels_distinct cfg)
    (seen rest : List Token) (tok : Token) (hp : PLUS_PERMISSIVE.isPrefixOf tok = true)
    (hoff : PLUS_PERMISSIVE_OFF.isPrefixOf tok = false) (e : Int) (self : htif_t) :
    parse_run cfg .top ⟨⟨seen, tok :: rest, []⟩, e, self⟩
      = if e = 0 then ⟨.thrown (.invalid_argument MSG_PERMISSIVE), self, e⟩
        else parse_run cfg .top ⟨⟨tok :: seen, rest, []⟩, 0, self⟩ := by
  rw [parse_run_eq, parse_body_nonoption cfg h _ _ _ (nonoption_of_permissive tok hp),
    case_1_permissive cfg tok _ hp hoff]
  by_cases he : e = 0 <;> simp [he]

theorem run_permissive_off (cfg : htif_config) (h : labels_distinct cfg)
    (seen rest : List Token) (tok : Token)
    (hp : PLUS_PERMISSIVE_OFF.isPrefixOf tok = true) (e : Int) (self : htif_t) :
    parse_run cfg .top ⟨⟨seen, tok :: rest, []⟩, e, self⟩
      = if e ≠ 0 then ⟨.thrown (.invalid_argument MSG_PERMISSIVE_OFF), self, e⟩
        else parse_run cfg .top ⟨⟨tok :: seen, rest, []⟩, 1, self⟩ := by
  rw [parse_run_eq, parse_body_nonoption cfg h _ _ _
      (nonoption_of_permissive tok (permissive_off_is_permissive tok hp)),
    case_1_permissive_off cfg tok _ hp]
  by_cases he : e = 0 <;> simp [he]

/-! ### Short-option clusters -/

theorem short_option_other (ch : Char) (more : List Char) (seen rest : List Token)
    (h : ch ≠ 'h') :
    short_option ch more seen rest
      = ⟨63, none, if more = [] then ⟨rest.head?.toList ++ seen, rest.tail, []⟩
          else ⟨seen, rest, more⟩⟩ := by
  simp [short_option, h]

theorem short_option_h (more : List Char) (seen rest : List Token) :
    short_option 'h' more seen rest
      = ⟨104, none, if more = [] then ⟨rest.head?.toList ++ seen, rest.tail, []⟩
          else ⟨seen, rest, more⟩⟩ := by
  simp [short_option]

/-- In permissive mode the rest of a cluster without `h` is passed over. -/
theorem run_cluster_permissive (cfg : htif_config) (h : labels_distinct cfg)
    (seen rest : List Token) (tok : Token) (self : htif_t) :
    ∀ (ch : Char) (more : List Char), (ch :: more).contains 'h' = false →
      parse_run cfg .top ⟨⟨seen, tok :: rest, ch :: more⟩, 0, self⟩
        = parse_run cfg .top ⟨⟨tok :: seen, rest, []⟩, 0, self⟩ := by
  intro ch more
  induction more generalizing ch with
  | nil =>
    intro hh
    have hch : ch ≠ 'h' := by
      intro e; subst e; simp at hh
    rw [parse_run_eq]
    simp only [parse_body, getopt_long_cluster, short_option_other _ _ _ _ hch]
    rw [if_neg (by decide), switch_c_unknown cfg h]
    simp
  | cons m ms ih =>
    intro hh
    have hch : ch ≠ 'h' := by
      intro e; subst e; simp at hh
    have hrest : (m :: ms).contains 'h' = false := by
      simp only [List.contains_cons, Bool.or_eq_false_iff] at hh ⊢
      exact hh.2
    rw [parse_run_eq]
    simp only [parse_body, getopt_long_cluster, short_option_other _ _ _ _ hch]
    rw [if_neg (by decide), switch_c_unknown cfg h]
    simp only [if_true, if_false, List.cons_ne_nil]
    exact ih m hrest

/-- In permissive mode an unrecognized element is passed over: the loop is back
at its top with the next element, mode and object unchanged. -/
theorem run_skip_unrecognized (cfg : htif_config) (h : labels_distinct cfg)
    (seen rest : List Token) (tok : Token) (hu : unrecognized cfg tok = true)
    (self : htif_t) :
    parse_run cfg .top ⟨⟨seen, tok :: rest, []⟩, 0, self⟩
      = parse_run cfg .top ⟨⟨tok :: seen, rest, []⟩, 0, self⟩ := by
  rcases tok with _ | ⟨c0, _ | ⟨c1, more⟩⟩
  · exact run_skip_nonoption cfg h seen rest [] rfl (by simpa [unrecognized] using hu) self
  · exact run_skip_nonoption cfg h seen rest [c0] rfl (by simpa [unrecognized] using hu) self
  · by_cases h0 : c0 = '-'
    · subst h0
      by_cases h1 : c1 = '-'
      · subst h1
        simp only [unrecognized, if_true, Bool.and_eq_true, decide_eq_true_eq] at hu
        obtain ⟨hne, hl⟩ := hu
        obtain ⟨m, ms, rfl⟩ : ∃ m ms, more = m :: ms := by
          cases more with
          | nil => exact absurd rfl hne
          | cons m ms => exact ⟨m, ms, rfl⟩
        rw [parse_run_eq]
        simp only [parse_body, getopt_long_long, process_long_option, hl]
        rw [if_neg (by decide), switch_c_unknown cfg h]
        simp
      · simp only [unrecognized, if_true, if_neg h1, Bool.not_eq_true'] at hu
        rw [parse_run_eq]
        have hch : c1 ≠ 'h' := by
          intro e; subst e; simp at hu
        simp only [parse_body, getopt_long_short _ _ _ _ _ h1, short_option_other _ _ _ _ hch]
        rw [if_neg (by decide), switch_c_unknown cfg h]
        cases more with
        | nil => simp
        | cons m ms =>
          simp only [if_true, if_false, List.cons_ne_nil]
          apply run_cluster_permissive cfg h
          simp only [List.contains_cons, Bool.or_eq_false_iff] at hu ⊢
          exact hu.2
    · have hn : nonoption (c0 :: c1 :: more) = true := by simp [nonoption, h0]
      have hp : is_plusarg (c0 :: c1 :: more) = false := by
        simpa [unrecognized, h0] using hu
      exact run_skip_nonoption cfg h seen rest _ hn hp self

/-! ### Host options -/

theorem process_long_option_append (lo : List struct_option) (tok : Token)
    (nextchar : List Char) (seen g more : List Token)
    (hrest : (process_long_option lo tok nextchar [] g).d.rest = [])
    (hc : (process_long_option lo tok nextchar [] g).c ≠ 63) :
    process_long_option lo tok nextchar seen (g ++ more)
      = ⟨(process_long_option lo tok nextchar [] g).c,
         (process_long_option lo tok nextchar [] g).optarg,
         ⟨(tok :: g).reverse ++ seen, more, []⟩⟩ := by
  unfold process_long_option at hrest hc ⊢
  cases hl : lookup_long lo (option_name nextchar) with
  | ambiguous => simp [hl] at hc
  | not_found => simp [hl] at hc
  | found p =>
    simp only [hl] at hrest hc ⊢
    cases hn : option_nameend nextchar with
    | cons x value =>
      simp only [hn] at hrest hc ⊢
      by_cases ha : p.has_arg ≠ 0
      · simp only [if_pos ha] at hrest hc ⊢
        subst hrest
        simp
      · simp [if_neg ha] at hc
    | nil =>
      simp only [hn] at hrest hc ⊢
      by_cases ha : p.has_arg = 1
      · simp only [if_pos ha] at hrest hc ⊢
        cases g with
        | nil => simp at hc
        | cons a rest2 =>
          simp only at hrest
          subst hrest
          simp
      · simp only [if_neg ha] at hrest hc ⊢
        subst hrest
        simp

/-- What `getopt_long` does with a host option does not depend on what comes
before or after it. -/
theorem getopt_long_host_option (cfg : htif_config) (grp : List Token)
    (h : is_host_option cfg grp = true) (seen more : List Token) :
    getopt_long cfg.HTIF_LONG_OPTIONS ⟨seen, grp ++ more, []⟩
      = ⟨(getopt_long cfg.HTIF_LONG_OPTIONS ⟨[], grp, []⟩).c,
         (getopt_long cfg.HTIF_LONG_OPTIONS ⟨[], grp, []⟩).optarg,
         ⟨grp.reverse ++ seen, more, []⟩⟩ := by
  simp only [is_host_option, decide_eq_true_eq] at h
  obtain ⟨hne, hrest, hm1, h104, h63, h1, _⟩ := h
  cases grp with
  | nil => exact absurd rfl hne
  | cons tok g =>
    rcases tok with _ | ⟨c0, _ | ⟨c1, chars⟩⟩
    · simp [getopt_long_empty] at h1
    · simp [getopt_long_single] at h1
    · by_cases h0 : c0 = '-'
      · subst h0
        by_cases hd : c1 = '-'
        · subst hd
          cases chars with
          | nil => simp [getopt_long_dashdash] at hm1
          | cons m ms =>
            rw [getopt_long_long] at hrest h63 ⊢
            rw [List.cons_append, getopt_long_long]
            exact process_long_option_append _ _ _ seen g more hrest h63
        · rw [getopt_long_short _ _ _ _ _ hd] at h104 h63
          by_cases hh : c1 = 'h'
          · subst hh
            simp [short_option_h] at h104
          · simp [short_option_other _ _ _ _ hh] at h63
      · simp [getopt_long_nondash _ _ _ _ _ _ h0] at h1

/-- A host option is scanned in either mode: the signature-file option stores
its value, every other one leaves the object alone. -/
theorem run_host_option (cfg : htif_config) (grp : List Token)
    (h : is_host_option cfg grp = true) (seen more : List Token) (e : Int) (self : htif_t) :
    parse_run cfg .top ⟨⟨seen, grp ++ more, []⟩, e, self⟩
      = parse_run cfg .top ⟨⟨grp.reverse ++ seen, more, []⟩, e,
          after_option cfg (getopt_long cfg.HTIF_LONG_OPTIONS ⟨[], grp, []⟩) self⟩ := by
  have hg := getopt_long_host_option cfg grp h seen more
  simp only [is_host_option, decide_eq_true_eq] at h
  obtain ⟨_, _, hm1, h104, h63, h1, hsig⟩ := h
  rw [parse_run_eq]
  simp only [parse_body, hg, if_neg hm1]
  by_cases hs : (getopt_long cfg.HTIF_LONG_OPTIONS ⟨[], grp, []⟩).c
      = cfg.HTIF_LONG_OPTIONS_OPTIND + 2
  · obtain ⟨v, hv⟩ : ∃ v, (getopt_long cfg.HTIF_LONG_OPTIONS ⟨[], grp, []⟩).optarg = some v := by
      cases ho : (getopt_long cfg.HTIF_LONG_OPTIONS ⟨[], grp, []⟩).optarg with
      | none => exact absurd ho (hsig hs)
      | some v => exact ⟨v, rfl⟩
    simp only [switch_c, if_neg h104, if_pos hs, hv, after_option, Option.getD_some]
  · rw [switch_c_default cfg _ _ _ h104 hs h63 h1]
    simp only [after_option, if_neg hs]

/-! ### Plusargs that stand for a long option -/

theorem valued_plusarg_nonoption (tok : Token) (h : is_valued_plusarg tok = true) :
    nonoption tok = true := by
  simp only [is_valued_plusarg, Bool.or_eq_true, beq_iff_eq] at h
  rcases h with (((h | h) | h) | h) | h
  · subst h; rfl
  all_goals
    obtain ⟨t, rfl⟩ := starts_with_split _ _ h
    rfl

theorem run_valued_plusarg (cfg : htif_config) (h : codes_free cfg) (tok : Token)
    (hv : is_valued_plusarg tok = true) (seen rest : List Token) (e : Int) (self : htif_t) :
    parse_run cfg .top ⟨⟨seen, tok :: rest, []⟩, e, self⟩
      = parse_run cfg .top ⟨⟨tok :: seen, rest, []⟩, e, after_plusarg tok self⟩ := by
  have hl := codes_free_labels cfg h
  have k0 := h 0 (by decide)
  have k1 := h 1 (by decide)
  have k3 := h 3 (by decide)
  simp only [Int.add_zero] at k0
  rw [parse_run_eq, parse_body_nonoption cfg hl _ _ _ (valued_plusarg_nonoption tok hv)]
  simp only [is_valued_plusarg, Bool.or_eq_true, beq_iff_eq] at hv
  by_cases h1 : tok = PLUS_RFB
  · subst h1
    simp only [case_1, if_true]
    rw [parse_run_eq]
    simp only [parse_body]
    rw [switch_c_default cfg _ _ _ k0.1 (by omega) k0.2.1 k0.2.2]
    rfl
  by_cases h2 : PLUS_RFB_EQ.isPrefixOf tok = true
  · simp only [case_1, if_neg h1, if_pos h2]
    rw [parse_run_eq]
    simp only [parse_body]
    rw [switch_c_default cfg _ _ _ k0.1 (by omega) k0.2.1 k0.2.2]
    obtain ⟨t, rfl⟩ := starts_with_split _ _ h2
    rfl
  by_cases h3 : PLUS_DISK_EQ.isPrefixOf tok = true
  · simp only [case_1, if_neg h1, if_neg h2, if_pos h3]
    rw [parse_run_eq]
    simp only [parse_body]
    rw [switch_c_default cfg _ _ _ k1.1 (by omega) k1.2.1 k1.2.2]
    obtain ⟨t, rfl⟩ := starts_with_split _ _ h3
    rfl
  by_cases h4 : PLUS_SIGNATURE_EQ.isPrefixOf tok = true
  · simp only [case_1, if_neg h1, if_neg h2, if_neg h3, if_pos h4]
    rw [parse_run_eq]
    simp only [parse_body]
    rw [switch_c_signature cfg hl]
    simp only [after_plusarg, if_pos h4]
  by_cases h5 : PLUS_CHROOT_EQ.isPrefixOf tok = true
  · simp only [case_1, if_neg h1, if_neg h2, if_neg h3, if_neg h4, if_pos h5]
    rw [parse_run_eq]
    simp only [parse_body]
    rw [switch_c_default cfg _ _ _ k3.1 (by omega) k3.2.1 k3.2.2]
    simp only [after_plusarg, if_neg h4]
  · exfalso
    rcases hv with (((hv | hv) | hv) | hv) | hv
    · exact h1 hv
    · exact h2 hv
    · exact h3 hv
    · exact h4 hv
    · exact h5 hv

theorem after_option_sig (cfg : htif_config) (r : getopt_return) (self : htif_t) (sf : Token) :
    { after_option cfg r self with sig_file := sf } = { self with sig_file := sf } := by
  unfold after_option
  split <;> rfl

theorem after_plusarg_sig (tok : Token) (self : htif_t) (sf : Token) :
    { after_plusarg tok self with sig_file := sf } = { self with sig_file := sf } := by
  unfold after_plusarg
  split <;> rfl

/-- The loop passes over a run of options and plusargs whatever follows it: it
is back at its top in the mode the run leads to, and only `sig_file` may have
changed. -/
theorem scan_option_list (cfg : htif_config) (h : codes_free cfg) {m m2 : Bool}
    {opts : List Token} (hopts : option_list cfg m opts m2) :
    ∀ (e : Int) (self : htif_t), (e = 0 ↔ m = true) →
      ∃ (sf : Token) (e2 : Int), (e2 = 0 ↔ m2 = true) ∧
        ∀ (seen more : List Token),
          parse_run cfg .top ⟨⟨seen, opts ++ more, []⟩, e, self⟩
            = parse_run cfg .top ⟨⟨opts.reverse ++ seen, more, []⟩, e2,
                { self with sig_file := sf }⟩ := by
  have hl := codes_free_labels cfg h
  induction hopts with
  | nil m =>
    intro e self he
    exact ⟨self.sig_file, e, he, fun seen more => rfl⟩
  | host grp opts m m2 hg _ ih =>
    intro e self he
    obtain ⟨sf, e2, he2, hrun⟩ :=
      ih e (after_option cfg (getopt_long cfg.HTIF_LONG_OPTIONS ⟨[], grp, []⟩) self) he
    refine ⟨sf, e2, he2, fun seen more => ?_⟩
    rw [List.append_assoc, run_host_option cfg grp hg, hrun, after_option_sig]
    simp
  | plusarg tok opts m m2 hv _ ih =>
    intro e self he
    obtain ⟨sf, e2, he2, hrun⟩ := ih e (after_plusarg tok self) he
    refine ⟨sf, e2, he2, fun seen more => ?_⟩
    rw [List.cons_append, run_valued_plusarg cfg h tok hv, hrun, after_plusarg_sig]
    simp
  | permissive tok opts m2 hp hoff _ ih =>
    intro e self he
    have he0 : e ≠ 0 := fun e0 => Bool.noConfusion (he.mp e0)
    obtain ⟨sf, e2, he2, hrun⟩ := ih 0 self (by simp)
    refine ⟨sf, e2, he2, fun seen more => ?_⟩
    rw [List.cons_append, run_permissive cfg hl _ _ tok hp hoff, if_neg he0, hrun]
    simp
  | permissive_off tok opts m2 hp _ ih =>
    intro e self he
    have he0 : e = 0 := he.mpr rfl
    subst he0
    obtain ⟨sf, e2, he2, hrun⟩ := ih 1 self (by simp)
    refine ⟨sf, e2, he2, fun seen more => ?_⟩
    rw [List.cons_append, run_permissive_off cfg hl _ _ tok hp, if_neg (by simp), hrun]
    simp

/-- In permissive mode the loop passes over any number of unrecognized
elements. -/
theorem run_skip_all_unrecognized (cfg : htif_config) (h : labels_distinct cfg)
    (us : List Token) (hus : ∀ u ∈ us, unrecognized cfg u = true) :
    ∀ (seen more : List Token) (self : htif_t),
      parse_run cfg .top ⟨⟨seen, us ++ more, []⟩, 0, self⟩
        = parse_run cfg .top ⟨⟨us.reverse ++ seen, more, []⟩, 0, self⟩ := by
  induction us with
  | nil => intro seen more self; rfl
  | cons u us ih =>
    intro seen more self
    rw [List.cons_append, run_skip_unrecognized cfg h _ _ u (hus u (List.mem_cons_self u us)),
      ih (fun v hv => hus v (List.mem_cons_of_mem u hv))]
    simp

theorem parse_arguments_cons (cfg : htif_config) (prog : Token) (args : List Token)
    (e : Int) (self : htif_t) :
    parse_arguments cfg (prog :: args) e self
      = parse_run cfg .top ⟨⟨[prog], args, []⟩, e, self⟩ := rfl

/-- The end of `argv`: `getopt_long` returns -1 and nothing is left to collect. -/
theorem run_end (cfg : htif_config) (seen : List Token) (e : Int) (self : htif_t) :
    parse_run cfg .top ⟨⟨seen, [], []⟩, e, self⟩
      = if self.targs = [] then
          ⟨.thrown (.invalid_argument MSG_NO_BINARY), self, e⟩
        else ⟨.returned, self, e⟩ := by
  rw [parse_run_eq]
  simp [parse_body, getopt_long_end, done_processing]

/-! ### The claims about `parse_arguments` -/

/-- C3: in a strict parser, after a run `opts` of host options (with their
values) and plusargs that leaves the mode strict, the first element `p` that
starts with neither `-` nor a plusarg form ends option scanning:
`parse_arguments` returns, and `p` followed by all of `rest`, in order, is
appended to `targs` (which is empty in the constructors).  The mode `e2` and the
signature file `sf` are fixed by `opts` alone: nothing in `rest` is interpreted.
The help option, which ends the scan by an exception, is not part of `opts`. -/
theorem parse_arguments_stops_at_program_path (cfg : htif_config) (hcfg : codes_free cfg)
    (prog : Token) (opts : List Token) (e : Int) (self : htif_t) (he : e ≠ 0)
    (hopts : option_list cfg false opts false) :
    ∃ (sf : Token) (e2 : Int), e2 ≠ 0 ∧
      ∀ (p : Token) (rest : List Token), p.head? ≠ some '-' → is_plusarg p = false →
        parse_arguments cfg (prog :: (opts ++ p :: rest)) e self
          = ⟨.returned, { self with sig_file := sf, targs := self.targs ++ p :: rest }, e2⟩ := by
  obtain ⟨sf, e2, he2, hrun⟩ := scan_option_list cfg hcfg hopts e self (by simp [he])
  have he2' : e2 ≠ 0 := fun e0 => Bool.noConfusion (he2.mp e0)
  refine ⟨sf, e2, he2', fun p rest hp hpl => ?_⟩
  rw [parse_arguments_cons, hrun,
    run_program_path cfg (codes_free_labels cfg hcfg) _ _ p (nonoption_of_head p hp) hpl e2 he2']

/-- Witness for `parse_arguments_stops_at_program_path`: after
`--signature=out.sig +disk=img --rfb +rfb` the elements
`mybinary --help --bogus +permissive +signature=x` all become target arguments. -/
theorem parse_arguments_stops_at_program_path_witness :
    ∃ (sf : Token) (e2 : Int), e2 ≠ 0 ∧
      parse_arguments fesvr_config
          ["prog".toList, "--signature=out.sig".toList, "+disk=img".toList, "--rfb".toList,
            "+rfb".toList, "mybinary".toList, "--help".toList, "--bogus".toList,
            "+permissive".toList, "+signature=x".toList] 1 (htif_t.ctor 2147483648)
        = ⟨.returned,
            { htif_t.ctor 2147483648 with
              sig_file := sf,
              targs := ["mybinary".toList, "--help".toList, "--bogus".toList,
                "+permissive".toList, "+signature=x".toList] }, e2⟩ := by
  obtain ⟨sf, e2, he2, hall⟩ :=
    parse_arguments_stops_at_program_path fesvr_config (by decide) "prog".toList
      ["--signature=out.sig".toList, "+disk=img".toList, "--rfb".toList, "+rfb".toList]
      1 (htif_t.ctor 2147483648) (by decide)
      (option_list.host ["--signature=out.sig".toList] _ false false (by decide)
        (option_list.plusarg "+disk=img".toList _ false false (by decide)
          (option_list.host ["--rfb".toList] _ false false (by decide)
            (option_list.plusarg "+rfb".toList _ false false (by decide)
              (option_list.nil false)))))
  exact ⟨sf, e2, he2, hall "mybinary".toList
    ["--help".toList, "--bogus".toList, "+permissive".toList, "+signature=x".toList]
    (by decide) (by decide)⟩

/-- C5 as stated fails: `prog +permissive +unknown mybinary` does not succeed with
target arguments `mybinary`; `mybinary` is passed over like `+unknown` and the
call ends with "No binary specified". -/
theorem permissive_program_path_counterexample :
    parse_arguments fesvr_config
        ["prog".toList, "+permissive".toList, "+unknown".toList, "mybinary".toList]
        1 (htif_t.ctor 2147483648)
      = ⟨.thrown (.invalid_argument MSG_NO_BINARY), htif_t.ctor 2147483648, 0⟩ := by
  decide

/-- C5 (amended): for `+permissive`, one unrecognized element `u`, then a program
path `p` and nothing else, `parse_arguments` throws `std::invalid_argument`
"No binary specified": in permissive mode `p` is passed over like `u`, so
nothing is collected; the mode stays permissive. -/
theorem parse_arguments_permissive_skips_program_path (cfg : htif_config)
    (hcfg : labels_distinct cfg) (prog u p : Token) (e : Int) (self : htif_t)
    (he : e ≠ 0) (hself : self.targs = []) (hu : unrecognized cfg u = true)
    (hp : p.head? ≠ some '-') (hpl : is_plusarg p = false) :
    parse_arguments cfg [prog, PLUS_PERMISSIVE, u, p] e self
      = ⟨.thrown (.invalid_argument MSG_NO_BINARY), self, 0⟩ := by
  rw [parse_arguments_cons, run_permissive cfg hcfg _ _ PLUS_PERMISSIVE rfl rfl, if_neg he,
    run_skip_unrecognized cfg hcfg _ _ u hu,
    run_skip_nonoption cfg hcfg _ _ p (nonoption_of_head p hp) hpl, run_end, if_pos hself]

/-- Witness for `parse_arguments_permissive_skips_program_path`:
`prog +permissive --vcs-flag pk`. -/
theorem parse_arguments_permissive_skips_program_path_witness :
    parse_arguments fesvr_config
        ["prog".toList, "+permissive".toList, "--vcs-flag".toList, "pk".toList]
        1 (htif_t.ctor 2147483648)
      = ⟨.thrown (.invalid_argument MSG_NO_BINARY), htif_t.ctor 2147483648, 0⟩ :=
  parse_arguments_permissive_skips_program_path fesvr_config (by decide) "prog".toList
    "--vcs-flag".toList "pk".toList 1 (htif_t.ctor 2147483648)
    (by decide) (by decide) (by decide) (by decide) (by decide)

theorem run_dash_option_strict (cfg : htif_config) (hcfg : labels_distinct cfg)
    (tok : Token) (ht : unrecognized_dash_option cfg tok = true)
    (seen rest : List Token) (e : Int) (he : e ≠ 0) (self : htif_t) :
    parse_run cfg .top ⟨⟨seen, tok :: rest, []⟩, e, self⟩
      = ⟨.thrown (.invalid_argument (dash_option_message tok)), self, e⟩ := by
  rcases tok with _ | ⟨c0, _ | ⟨c1, more⟩⟩
  · simp [unrecognized_dash_option] at ht
  · simp [unrecognized_dash_option] at ht
  · simp only [unrecognized_dash_option, Bool.and_eq_true, Bool.or_eq_true,
      decide_eq_true_eq] at ht
    obtain ⟨⟨⟨h0, hdd⟩, _⟩, hl⟩ := ht
    subst h0
    rw [parse_run_eq]
    by_cases h1 : c1 = '-'
    · subst h1
      obtain ⟨m, ms, rfl⟩ : ∃ m ms, more = m :: ms := by
        cases more with
        | nil => exact absurd rfl hdd
        | cons m ms => exact ⟨m, ms, rfl⟩
      have hl2 : lookup_long cfg.HTIF_LONG_OPTIONS (option_name (m :: ms)) = .not_found := by
        rcases hl with hl | hl
        · exact absurd rfl hl
        · exact hl
      simp only [parse_body, getopt_long_long, process_long_option, hl2]
      rw [if_neg (by decide), switch_c_unknown cfg hcfg]
      simp [he, dash_option_message, MSG_HELP, MSG_UNKNOWN]
    · by_cases hh : c1 = 'h'
      · subst hh
        simp only [parse_body, getopt_long_short _ _ _ _ _ h1, short_option_h]
        rw [if_neg (by decide), switch_c_help]
        simp [dash_option_message]
      · simp only [parse_body, getopt_long_short _ _ _ _ _ h1, short_option_other _ _ _ _ hh]
        rw [if_neg (by decide), switch_c_unknown cfg hcfg]
        simp [he, dash_option_message, hh]

theorem unrecognized_of_dash_option (cfg : htif_config) (tok : Token)
    (ht : unrecognized_dash_option cfg tok = true)
    (hh : (tok.drop 1).head? = some '-' ∨ tok.contains 'h' = false) :
    unrecognized cfg tok = true := by
  rcases tok with _ | ⟨c0, _ | ⟨c1, more⟩⟩
  · simp [unrecognized_dash_option] at ht
  · simp [unrecognized_dash_option] at ht
  · simp only [unrecognized_dash_option, Bool.and_eq_true, Bool.or_eq_true,
      decide_eq_true_eq] at ht
    obtain ⟨⟨⟨h0, hdd⟩, _⟩, hl⟩ := ht
    subst h0
    by_cases h1 : c1 = '-'
    · subst h1
      have hl2 : lookup_long cfg.HTIF_LONG_OPTIONS (option_name more) = .not_found := by
        rcases hl with hl | hl
        · exact absurd rfl hl
        · exact hl
      have hne : more ≠ [] := fun e => hdd (by rw [e])
      simp [unrecognized, hl2, hne]
    · have hc : (c1 :: more).contains 'h' = false := by
        rcases hh with hh | hh
        · simp at hh
          exact absurd hh.symm (fun e => h1 e.symm)
        · simp only [List.contains_cons, Bool.or_eq_false_iff] at hh ⊢
          exact hh.2
      simp only [unrecognized, if_true, if_neg h1, hc, Bool.not_false]

/-- C6 as stated fails in permissive mode: `-xh` is an unrecognized dash-option
(it is not `-`, `--` or `-h` and is no long option), yet in permissive mode it
is not passed over: after `x` the scanner reads `h` and the call ends with the
help exception, where the same vector without `-xh` is accepted. -/
theorem permissive_dash_option_counterexample :
    unrecognized_dash_option fesvr_config "-xh".toList = true ∧
    parse_arguments fesvr_config
        ["prog".toList, "+permissive".toList, "-xh".toList, "+permissive-off".toList,
          "mybinary".toList] 1 (htif_t.ctor 2147483648)
      = ⟨.thrown (.invalid_argument MSG_HELP), htif_t.ctor 2147483648, 0⟩ ∧
    parse_arguments fesvr_config
        ["prog".toList, "+permissive".toList, "+permissive-off".toList, "mybinary".toList]
        1 (htif_t.ctor 2147483648)
      = ⟨.returned, { htif_t.ctor 2147483648 with targs := ["mybinary".toList] }, 1⟩ := by
  decide

/-- C6 (amended): an unrecognized dash-option that the scanner reaches in strict
mode makes `parse_arguments` throw `std::invalid_argument` ("Unknown argument",
or the help text when the element starts with `-h`), also after any run of
options that leaves the mode strict; in permissive mode the element is passed
over, the scan going on with the next element, provided it starts with `--` or
contains no `h`. -/
theorem unrecognized_dash_option_fails_or_skipped (cfg : htif_config) (hcfg : codes_free cfg)
    (tok : Token) (ht : unrecognized_dash_option cfg tok = true) :
    (∀ (seen rest : List Token) (e : Int) (self : htif_t), e ≠ 0 →
      parse_run cfg .top ⟨⟨seen, tok :: rest, []⟩, e, self⟩
        = ⟨.thrown (.invalid_argument (dash_option_message tok)), self, e⟩) ∧
    (∀ (prog : Token) (opts rest : List Token) (e : Int) (self : htif_t), e ≠ 0 →
      option_list cfg false opts false →
      (parse_arguments cfg (prog :: (opts ++ tok :: rest)) e self).status
        = .thrown (.invalid_argument (dash_option_message tok))) ∧
    ((tok.drop 1).head? = some '-' ∨ tok.contains 'h' = false →
      ∀ (seen rest : List Token) (self : htif_t),
        parse_run cfg .top ⟨⟨seen, tok :: rest, []⟩, 0, self⟩
          = parse_run cfg .top ⟨⟨tok :: seen, rest, []⟩, 0, self⟩) := by
  have hl := codes_free_labels cfg hcfg
  refine ⟨fun seen rest e self he => run_dash_option_strict cfg hl tok ht seen rest e he self,
    ?_, ?_⟩
  · intro prog opts rest e self he hopts
    obtain ⟨sf, e2, he2, hrun⟩ := scan_option_list cfg hcfg hopts e self (by simp [he])
    have he2' : e2 ≠ 0 := fun e0 => Bool.noConfusion (he2.mp e0)
    rw [parse_arguments_cons, hrun, run_dash_option_strict cfg hl tok ht _ _ e2 he2']
  · intro hh seen rest self
    exact run_skip_unrecognized cfg hl seen rest tok
      (unrecognized_of_dash_option cfg tok ht hh) self

/-- Witness for `unrecognized_dash_option_fails_or_skipped`: the element
`--bogus`, first in a strict parser, after `+disk=img`, and in permissive mode. -/
theorem unrecognized_dash_option_fails_or_skipped_witness :
    parse_run fesvr_config .top
        ⟨⟨["prog".toList], ["--bogus".toList, "mybinary".toList], []⟩, 1,
          htif_t.ctor 2147483648⟩
      = ⟨.thrown (.invalid_argument (dash_option_message "--bogus".toList)),
          htif_t.ctor 2147483648, 1⟩ ∧
    (parse_arguments fesvr_config
        ("prog".toList :: (["+disk=img".toList] ++ "--bogus".toList :: ["mybinary".toList]))
        1 (htif_t.ctor 2147483648)).status
      = .thrown (.invalid_argument (dash_option_message "--bogus".toList)) ∧
    parse_run fesvr_config .top
        ⟨⟨["+permissive".toList, "prog".toList], ["--bogus".toList, "mybinary".toList], []⟩, 0,
          htif_t.ctor 2147483648⟩
      = parse_run fesvr_config .top
        ⟨⟨["--bogus".toList, "+permissive".toList, "prog".toList], ["mybinary".toList], []⟩, 0,
          htif_t.ctor 2147483648⟩ :=
  have h := unrecognized_dash_option_fails_or_skipped fesvr_config (by decide)
    "--bogus".toList (by decide)
  ⟨h.1 _ _ 1 _ (by decide),
   h.2.1 "prog".toList ["+disk=img".toList] ["mybinary".toList] 1 _ (by decide)
     (option_list.plusarg "+disk=img".toList [] false false (by decide) (option_list.nil false)),
   h.2.2 (Or.inl (by decide)) _ _ _⟩

/-- C7 as stated fails: in a strict parser `prog +unknown mybinary` does not fail;
`+unknown` is taken as the program path. -/
theorem strict_unknown_plusarg_counterexample :
    parse_arguments fesvr_config ["prog".toList, "+unknown".toList, "mybinary".toList]
        1 (htif_t.ctor 2147483648)
      = ⟨.returned,
          { htif_t.ctor 2147483648 with targs := ["+unknown".toList, "mybinary".toList] }, 1⟩ := by
  decide

/-- C7 (amended): while the mode is strict, an unrecognized plusarg (an element
that starts with `+` and has none of the recognized forms) ends option scanning
and is itself the first target argument: `parse_arguments` returns with the
plusarg and everything after it appended to `targs`. -/
theorem strict_unknown_plusarg_is_program_path (cfg : htif_config)
    (hcfg : labels_distinct cfg) (u : Token) (hu : u.head? = some '+')
    (hpl : is_plusarg u = false) :
    (∀ (seen rest : List Token) (e : Int) (self : htif_t), e ≠ 0 →
      parse_run cfg .top ⟨⟨seen, u :: rest, []⟩, e, self⟩
        = ⟨.returned, { self with targs := self.targs ++ u :: rest }, e⟩) ∧
    (∀ (prog : Token) (rest : List Token) (e : Int) (self : htif_t), e ≠ 0 →
      parse_arguments cfg (prog :: u :: rest) e self
        = ⟨.returned, { self with targs := self.targs ++ u :: rest }, e⟩) := by
  have hn : nonoption u = true := nonoption_of_head u (by rw [hu]; decide)
  refine ⟨fun seen rest e self he => run_program_path cfg hcfg seen rest u hn hpl e he self, ?_⟩
  intro prog rest e self he
  rw [parse_arguments_cons]
  exact run_program_path cfg hcfg _ rest u hn hpl e he self

/-- Witness for `strict_unknown_plusarg_is_program_path`: `+vcs+lic+wait`. -/
theorem strict_unknown_plusarg_is_program_path_witness :
    parse_run fesvr_config .top
        ⟨⟨["prog".toList], ["+vcs+lic+wait".toList, "pk".toList], []⟩, 1,
          htif_t.ctor 2147483648⟩
      = ⟨.returned,
          { htif_t.ctor 2147483648 with targs := ["+vcs+lic+wait".toList, "pk".toList] }, 1⟩ ∧
    parse_arguments fesvr_config ["prog".toList, "+vcs+lic+wait".toList, "pk".toList]
        1 (htif_t.ctor 2147483648)
      = ⟨.returned,
          { htif_t.ctor 2147483648 with targs := ["+vcs+lic+wait".toList, "pk".toList] }, 1⟩ :=
  have h := strict_unknown_plusarg_is_program_path fesvr_config (by decide)
    "+vcs+lic+wait".toList (by decide) (by decide)
  ⟨h.1 _ ["pk".toList] 1 _ (by decide), h.2 "prog".toList ["pk".toList] 1 _ (by decide)⟩

/-- C8: a mode toggle that asks for the mode already in effect is an error, any
other toggle flips the mode and the scan goes on.  When the scanner reaches
`+permissive` in permissive mode, or `+permissive-off` in strict mode,
`parse_arguments` throws `std::invalid_argument`; otherwise the loop is back at
its top with the next element and the mode flipped.  In particular
`prog +permissive +permissive ...` and, starting strict, `prog +permissive-off ...`
fail. -/
theorem mode_toggle (cfg : htif_config) (hcfg : labels_distinct cfg)
    (seen rest : List Token) (e : Int) (self : htif_t) :
    (e = 0 → parse_run cfg .top ⟨⟨seen, PLUS_PERMISSIVE :: rest, []⟩, e, self⟩
        = ⟨.thrown (.invalid_argument MSG_PERMISSIVE), self, e⟩) ∧
    (e ≠ 0 → parse_run cfg .top ⟨⟨seen, PLUS_PERMISSIVE :: rest, []⟩, e, self⟩
        = parse_run cfg .top ⟨⟨PLUS_PERMISSIVE :: seen, rest, []⟩, 0, self⟩) ∧
    (e ≠ 0 → parse_run cfg .top ⟨⟨seen, PLUS_PERMISSIVE_OFF :: rest, []⟩, e, self⟩
        = ⟨.thrown (.invalid_argument MSG_PERMISSIVE_OFF), self, e⟩) ∧
    (e = 0 → parse_run cfg .top ⟨⟨seen, PLUS_PERMISSIVE_OFF :: rest, []⟩, e, self⟩
        = parse_run cfg .top ⟨⟨PLUS_PERMISSIVE_OFF :: seen, rest, []⟩, 1, self⟩) ∧
    (∀ prog : Token, e ≠ 0 →
      parse_arguments cfg (prog :: PLUS_PERMISSIVE :: PLUS_PERMISSIVE :: rest) e self
        = ⟨.thrown (.invalid_argument MSG_PERMISSIVE), self, 0⟩) ∧
    (∀ prog : Token, e ≠ 0 →
      parse_arguments cfg (prog :: PLUS_PERMISSIVE_OFF :: rest) e self
        = ⟨.thrown (.invalid_argument MSG_PERMISSIVE_OFF), self, e⟩) ∧
    (∀ prog : Token, e ≠ 0 →
      parse_arguments cfg
          (prog :: PLUS_PERMISSIVE :: PLUS_PERMISSIVE_OFF :: PLUS_PERMISSIVE_OFF :: rest) e self
        = ⟨.thrown (.invalid_argument MSG_PERMISSIVE_OFF), self, 1⟩) := by
  refine ⟨?_, ?_, ?_, ?_, ?_, ?_, ?_⟩
  · intro he
    rw [run_permissive cfg hcfg _ _ PLUS_PERMISSIVE rfl rfl, if_pos he]
  · intro he
    rw [run_permissive cfg hcfg _ _ PLUS_PERMISSIVE rfl rfl, if_neg he]
  · intro he
    rw [run_permissive_off cfg hcfg _ _ PLUS_PERMISSIVE_OFF rfl, if_pos he]
  · intro he
    rw [run_permissive_off cfg hcfg _ _ PLUS_PERMISSIVE_OFF rfl, if_neg (by simp [he])]
  · intro prog he
    rw [parse_arguments_cons, run_permissive cfg hcfg _ _ PLUS_PERMISSIVE rfl rfl, if_neg he,
      run_permissive cfg hcfg _ _ PLUS_PERMISSIVE rfl rfl, if_pos rfl]
  · intro prog he
    rw [parse_arguments_cons, run_permissive_off cfg hcfg _ _ PLUS_PERMISSIVE_OFF rfl, if_pos he]
  · intro prog he
    rw [parse_arguments_cons, run_permissive cfg hcfg _ _ PLUS_PERMISSIVE rfl rfl, if_neg he,
      run_permissive_off cfg hcfg _ _ PLUS_PERMISSIVE_OFF rfl, if_neg (by simp),
      run_permissive_off cfg hcfg _ _ PLUS_PERMISSIVE_OFF rfl, if_pos (by decide)]

/-- Witness for `mode_toggle`: `prog +permissive +permissive mybinary` and
`prog +permissive-off mybinary` in a strict parser. -/
theorem mode_toggle_witness :
    parse_arguments fesvr_config
        ("prog".toList :: PLUS_PERMISSIVE :: PLUS_PERMISSIVE :: ["mybinary".toList])
        1 (htif_t.ctor 2147483648)
      = ⟨.thrown (.invalid_argument MSG_PERMISSIVE), htif_t.ctor 2147483648, 0⟩ ∧
    parse_arguments fesvr_config
        ("prog".toList :: PLUS_PERMISSIVE_OFF :: ["mybinary".toList])
        1 (htif_t.ctor 2147483648)
      = ⟨.thrown (.invalid_argument MSG_PERMISSIVE_OFF), htif_t.ctor 2147483648, 1⟩ :=
  have h := mode_toggle fesvr_config (by decide) ["prog".toList] ["mybinary".toList] 1
    (htif_t.ctor 2147483648)
  ⟨h.2.2.2.2.1 "prog".toList (by decide), h.2.2.2.2.2.1 "prog".toList (by decide)⟩

theorem run_help (cfg : htif_config) (tok : Token)
    (ht : tok = "-h".toList ∨ (tok = "--help".toList ∧ has_help_option cfg = true))
    (seen rest : List Token) (e : Int) (self : htif_t) :
    parse_run cfg .top ⟨⟨seen, tok :: rest, []⟩, e, self⟩
      = ⟨.thrown (.invalid_argument MSG_HELP), self, e⟩ := by
  rw [parse_run_eq]
  rcases ht with rfl | ⟨rfl, hcfg⟩
  · have : getopt_long cfg.HTIF_LONG_OPTIONS ⟨seen, "-h".toList :: rest, []⟩
        = ⟨104, none, ⟨"-h".toList :: seen, rest, []⟩⟩ := by
      simp [getopt_long, short_option]
    simp only [parse_body, this]
    rw [if_neg (by decide), switch_c_help]
  · unfold has_help_option at hcfg
    have hname : option_name "help".toList = "help".toList := by decide
    have hend : option_nameend "help".toList = [] := by decide
    cases hl : lookup_long cfg.HTIF_LONG_OPTIONS "help".toList with
    | ambiguous => rw [hl] at hcfg; exact Bool.noConfusion hcfg
    | not_found => rw [hl] at hcfg; exact Bool.noConfusion hcfg
    | found p =>
      rw [hl] at hcfg
      simp only [Bool.and_eq_true, beq_iff_eq] at hcfg
      have : getopt_long cfg.HTIF_LONG_OPTIONS ⟨seen, "--help".toList :: rest, []⟩
          = ⟨104, none, ⟨"--help".toList :: seen, rest, []⟩⟩ := by
        have e1 : "--help".toList = '-' :: '-' :: 'h' :: "elp".toList := by decide
        have e2 : 'h' :: "elp".toList = "help".toList := by decide
        rw [e1, getopt_long_long, e2]
        simp only [process_long_option, hname, hend, hl, hcfg.1, hcfg.2]
        simp
      simp only [parse_body, this]
      rw [if_neg (by decide), switch_c_help]

/-- C9 as stated fails on one point: the help request is not signalled by a
condition of its own kind.  For `prog --help` the call throws a
`std::invalid_argument`, the class of the ordinary errors such as the missing
binary of `prog`. -/
theorem help_is_invalid_argument_counterexample :
    (parse_arguments fesvr_config ["prog".toList, "--help".toList] 1
        (htif_t.ctor 2147483648)).status = .thrown (.invalid_argument MSG_HELP) ∧
    (exception.invalid_argument MSG_HELP).is_invalid_argument = true ∧
    (parse_arguments fesvr_config ["prog".toList] 1
        (htif_t.ctor 2147483648)).status = .thrown (.invalid_argument MSG_NO_BINARY) := by
  decide

/-- C9 (amended): whenever the scanner reaches `-h` or `--help`, in strict or
permissive mode, `parse_arguments` throws `std::invalid_argument` with the text
"User quered htif_t help text", which differs from the text of every other
error of `parse_arguments`; the label `done_processing` is not reached and
`targs` is left as it was (empty in the constructors). -/
theorem help_request_throws (cfg : htif_config) (hcfg : codes_free cfg) (tok : Token)
    (ht : tok = "-h".toList ∨ (tok = "--help".toList ∧ has_help_option cfg = true)) :
    (∀ (seen rest : List Token) (e : Int) (self : htif_t),
      parse_run cfg .top ⟨⟨seen, tok :: rest, []⟩, e, self⟩
        = ⟨.thrown (.invalid_argument MSG_HELP), self, e⟩) ∧
    (∀ (prog : Token) (opts rest : List Token) (m2 : Bool) (e : Int) (self : htif_t),
      option_list cfg (decide (e = 0)) opts m2 →
      ∃ (sf : Token) (e2 : Int),
        parse_arguments cfg (prog :: (opts ++ tok :: rest)) e self
          = ⟨.thrown (.invalid_argument MSG_HELP), { self with sig_file := sf }, e2⟩) ∧
    (MSG_HELP ≠ MSG_UNKNOWN ∧ MSG_HELP ≠ MSG_PERMISSIVE ∧ MSG_HELP ≠ MSG_PERMISSIVE_OFF
      ∧ MSG_HELP ≠ MSG_NO_BINARY) := by
  refine ⟨fun seen rest e self => run_help cfg tok ht seen rest e self, ?_, by decide⟩
  intro prog opts rest m2 e self hopts
  obtain ⟨sf, e2, _, hrun⟩ := scan_option_list cfg hcfg hopts e self (by simp)
  exact ⟨sf, e2, by rw [parse_arguments_cons, hrun, run_help cfg tok ht]⟩

/-- Witness for `help_request_throws`: `prog --help`, and `--help` after
`+permissive --signature=s`. -/
theorem help_request_throws_witness :
    parse_run fesvr_config .top
        ⟨⟨["prog".toList], ["--help".toList], []⟩, 1, htif_t.ctor 2147483648⟩
      = ⟨.thrown (.invalid_argument MSG_HELP), htif_t.ctor 2147483648, 1⟩ ∧
    ∃ (sf : Token) (e2 : Int),
      parse_arguments fesvr_config
          ("prog".toList ::
            (["+permissive".toList, "--signature=s".toList] ++ "--help".toList :: ["x".toList]))
          1 (htif_t.ctor 2147483648)
        = ⟨.thrown (.invalid_argument MSG_HELP),
            { htif_t.ctor 2147483648 with sig_file := sf }, e2⟩ :=
  have h := help_request_throws fesvr_config (by decide) "--help".toList
    (Or.inr ⟨rfl, by decide⟩)
  ⟨h.1 _ [] 1 _,
   h.2.1 "prog".toList ["+permissive".toList, "--signature=s".toList] ["x".toList] true 1 _
     (option_list.permissive "+permissive".toList _ true (by decide) (by decide)
       (option_list.host ["--signature=s".toList] [] true true (by decide)
         (option_list.nil true)))⟩

theorem parse_loop_returned (cfg : htif_config) :
    ∀ (n : Nat) (pc : parse_pc) (s : parse_state),
      (parse_loop cfg n pc s).status = .returned → (parse_loop cfg n pc s).self.targs ≠ [] := by
  intro n
  induction n with
  | zero => intro pc s h; simp [parse_loop] at h
  | succ k ih =>
    intro pc s
    rw [parse_loop]
    cases hb : parse_body cfg pc s with
    | next pc2 s2 => exact ih pc2 s2
    | done_processing s2 =>
      simp only [done_processing]
      split
      · intro h; simp at h
      · rename_i hne
        intro _
        exact hne
    | throw e s2 => intro h; simp at h
    | undefined s2 => intro h; simp at h

/-! ### The claims about the session controller -/

/-- C12: `exit_code()` returns the raw status shifted right by one bit, that is
`floor(s / 2)` for every raw status `s`: the statuses `2 * k` and `2 * k + 1`
both report `k`, 5 reports 2 and 1 reports 0; the object is left as it was. -/
theorem exit_code_halves (self : htif_t) :
    (exit_code self).1 = self.exitcode / 2 ∧
    (exit_code self).1 = Int.fdiv self.exitcode 2 ∧
    (exit_code self).1 = ⌊(self.exitcode : ℚ) / 2⌋ ∧
    (∀ k : Int, (exit_code { self with exitcode := 2 * k }).1 = k
      ∧ (exit_code { self with exitcode := 2 * k + 1 }).1 = k) ∧
    (exit_code { self with exitcode := 5 }).1 = 2 ∧
    (exit_code { self with exitcode := 1 }).1 = 0 ∧
    (exit_code self).2 = self := by
  have h : ∀ s : Int, s >>> (1 : Nat) = s / 2 := by
    intro s
    rw [Int.shiftRight_eq_div_pow]
    norm_num
  refine ⟨h _, ?_, ?_, ?_, rfl, rfl, rfl⟩
  · show self.exitcode >>> (1 : Nat) = Int.fdiv self.exitcode 2
    rw [h, Int.fdiv_eq_ediv _ (by decide : (0 : Int) ≤ 2)]
  · show self.exitcode >>> (1 : Nat) = ⌊(self.exitcode : ℚ) / 2⌋
    rw [h]
    have := Rat.floor_intCast_div_natCast self.exitcode 2
    simpa using this.symm
  · intro k
    constructor
    · show (2 * k) >>> (1 : Nat) = k
      rw [h]; omega
    · show (2 * k + 1) >>> (1 : Nat) = k
      rw [h]; omega

/-- C13: `stop()` sets `stopped` whatever the state: `done()` is true afterwards,
a second `stop()` changes nothing, and `entry`, the raw exit code, the signature
file and the target arguments are left as they were. -/
theorem stop_idempotent (self : htif_t) :
    (stop self).stopped = true ∧
    (done (stop self)).1 = true ∧
    stop (stop self) = stop self ∧
    (stop self).entry = self.entry ∧
    (stop self).exitcode = self.exitcode ∧
    (stop self).sig_file = self.sig_file ∧
    (stop self).targs = self.targs :=
  ⟨rfl, rfl, rfl, rfl, rfl, rfl, rfl⟩

theorem run_loop_never_returns (env : collaborators) :
    ∀ (fuel : Nat) (self : htif_t) (trace : List event) (v : Int),
      (run_loop env (fun _ => true) fuel self trace).status ≠ .returned v := by
  intro fuel
  induction fuel with
  | zero => intro self trace v h; simp [run_loop] at h
  | succ n ih =>
    intro self trace v
    cases hi : env.idle self with
    | continues self2 =>
      have hstep : run_loop env (fun _ => true) (n + 1) self trace
          = run_loop env (fun _ => true) n self2 (trace ++ [.idle self.stopped]) := by
        simp [run_loop, hi]
      rw [hstep]
      exact ih self2 _ v
    | exits status => simp [run_loop, hi]
    | throws e => simp [run_loop, hi]

theorem after_idle_continues (env : collaborators) (self self2 : htif_t)
    (h : env.idle self = .continues self2) : after_idle env self = self2 := by
  simp [after_idle, h]

/-- The loop `while (true) idle();` as long as `idle()` comes back: after any
number of loop tests it is still running, and every test was followed by a call
of `idle()`. -/
theorem run_loop_trace (env : collaborators)
    (hidle : ∀ s, ∃ s2, env.idle s = .continues s2) :
    ∀ (fuel : Nat) (self : htif_t) (trace : List event),
      run_loop env (fun _ => true) fuel self trace
        = ⟨.running, polled env fuel self, trace ++ idle_calls env fuel self⟩ := by
  intro fuel
  induction fuel with
  | zero => intro self trace; simp [run_loop, polled, idle_calls]
  | succ n ih =>
    intro self trace
    obtain ⟨s2, hs2⟩ := hidle self
    have hstep : run_loop env (fun _ => true) (n + 1) self trace
        = run_loop env (fun _ => true) n s2 (trace ++ [.idle self.stopped]) := by
      simp [run_loop, hs2]
    rw [hstep, ih, polled, idle_calls, after_idle_continues env self s2 hs2,
      List.append_assoc, List.singleton_append]

theorem idle_calls_length (env : collaborators) :
    ∀ (n : Nat) (self : htif_t), (idle_calls env n self).length = n := by
  intro n
  induction n with
  | zero => intro self; rfl
  | succ n ih =>
    intro self
    rw [idle_calls, List.length_cons, ih]

theorem idle_calls_get (env : collaborators) :
    ∀ (n : Nat) (self : htif_t) (k : Nat), k < n →
      (idle_calls env n self)[k]? = some (.idle (polled env k self).stopped) := by
  intro n
  induction n with
  | zero => intro self k hk; omega
  | succ n ih =>
    intro self k hk
    cases k with
    | zero => simp [idle_calls, polled]
    | succ j =>
      rw [idle_calls, List.getElem?_cons_succ, ih _ j (by omega), polled]

/-- C14 as stated fails: with a transport whose `idle()` calls `stop()`, `run()`
on the target `none` calls `idle()` with `stopped` already true (the second and
third call) and has not returned. -/
theorem run_polls_after_stop_counterexample :
    run example_build stopping_transport 3 { htif_t.ctor 2147483648 with targs := ["none".toList] }
      = ⟨.running, { stop (htif_t.ctor 2147483648) with targs := ["none".toList] },
          [.reset, .idle false, .idle true, .idle true]⟩ := by
  decide

/-- C14 (amended): the run loop is `while (true) idle();`.  `run()` never reaches
`stop(); return exit_code();`, whatever the collaborators do.  When `start()`
returns and `idle()` always comes back, then after any number `fuel` of loop
tests `run()` is still running and its calls are those of `start()` followed by
exactly `fuel` calls of `idle()`, one for each test: call number `k` is made on
the object as the first `k` calls left it, whether `stopped` is true there or
not, so once `stopped` is true `idle()` is called with `stopped` true. -/
theorem run_polls_unconditionally (b : build_config) (env : collaborators) (fuel : Nat)
    (self : htif_t) :
    (∀ v : Int, (run b env fuel self).status ≠ .returned v) ∧
    ((start b env self).status = .returned → (∀ s, ∃ s2, env.idle s = .continues s2) →
      run b env fuel self
        = ⟨.running, polled env fuel (start b env self).self,
            (start b env self).trace ++ idle_calls env fuel (start b env self).self⟩ ∧
      (idle_calls env fuel (start b env self).self).length = fuel ∧
      (∀ k, k < fuel →
        (idle_calls env fuel (start b env self).self)[k]?
          = some (.idle (polled env k (start b env self).self).stopped)) ∧
      (∀ k, k < fuel → (polled env k (start b env self).self).stopped = true →
        event.idle true ∈ (run b env fuel self).trace)) := by
  constructor
  · intro v
    cases hs : (start b env self).status with
    | returned =>
      simp only [run, hs]
      exact run_loop_never_returns env fuel _ _ v
    | thrown e => simp [run, hs]
    | undefined => simp [run, hs]
  · intro hs hidle
    have hrun : run b env fuel self
        = ⟨.running, polled env fuel (start b env self).self,
            (start b env self).trace ++ idle_calls env fuel (start b env self).self⟩ := by
      simp only [run, hs]
      exact run_loop_trace env hidle fuel _ _
    refine ⟨hrun, idle_calls_length env fuel _, idle_calls_get env fuel _, ?_⟩
    intro k hk hstop
    rw [hrun]
    have hget := idle_calls_get env fuel (start b env self).self k hk
    rw [hstop] at hget
    exact List.mem_append_right _ (List.mem_iff_getElem?.mpr ⟨k, hget⟩)

/-- Witness for `run_polls_unconditionally`: the transport whose `idle()` calls
`stop()`, after 5 loop tests; the second call of `idle()` (number 1) is made
with `stopped` true. -/
theorem run_polls_unconditionally_witness :
    run example_build stopping_transport 5
        { htif_t.ctor 2147483648 with targs := ["none".toList] }
      = ⟨.running,
          polled stopping_transport 5
            (start example_build stopping_transport
              { htif_t.ctor 2147483648 with targs := ["none".toList] }).self,
          (start example_build stopping_transport
              { htif_t.ctor 2147483648 with targs := ["none".toList] }).trace
            ++ idle_calls stopping_transport 5
                (start example_build stopping_transport
                  { htif_t.ctor 2147483648 with targs := ["none".toList] }).self⟩ ∧
    (idle_calls stopping_transport 5
        (start example_build stopping_transport
          { htif_t.ctor 2147483648 with targs := ["none".toList] }).self)[1]?
      = some (.idle (polled stopping_transport 1
          (start example_build stopping_transport
            { htif_t.ctor 2147483648 with targs := ["none".toList] }).self).stopped) ∧
    event.idle true ∈ (run example_build stopping_transport 5
        { htif_t.ctor 2147483648 with targs := ["none".toList] }).trace :=
  have h := (run_polls_unconditionally example_build stopping_transport 5
    { htif_t.ctor 2147483648 with targs := ["none".toList] }).2 (by decide)
    (fun s => ⟨stop s, rfl⟩)
  ⟨h.1, h.2.2.1 1 (by decide), h.2.2.2 1 (by decide) (by decide)⟩

/-- C15 as stated fails: for the target `nofile`, which exists nowhere,
`load_program()` throws and `start()` ends without calling `reset()`. -/
theorem start_without_reset_counterexample :
    start example_build stopping_transport
        { htif_t.ctor 2147483648 with targs := ["nofile".toList] }
      = ⟨.thrown (.runtime_error (MSG_COULD_NOT_OPEN "nofile".toList)),
          { htif_t.ctor 2147483648 with targs := ["nofile".toList] },
          [.access "nofile".toList,
            .access "/usr/local/riscv64-unknown-elf/bin/nofile".toList]⟩ := by
  decide

/-- C15 (amended): `start()` calls `load_program()` exactly when `targs` is not
empty and its first element is not `none`.  When it is not called, `start()`
makes no file probe and no loader call, changes no field, and calls `reset()`.
When it is called and returns, `reset()` follows; when it throws, `start()`
ends with that exception and `reset()` is not called. -/
theorem start_loads_then_resets (b : build_config) (env : collaborators) (self : htif_t) :
    ((self.targs = [] ∨ self.targs.head? = some "none".toList) →
      start b env self = ⟨.returned, env.reset self, [.reset]⟩) ∧
    (self.targs ≠ [] → self.targs.head? ≠ some "none".toList →
      (load_program b env self).status = .returned →
      start b env self
        = ⟨.returned, env.reset (load_program b env self).self,
            (load_program b env self).trace ++ [.reset]⟩) ∧
    (self.targs ≠ [] → self.targs.head? ≠ some "none".toList →
      (load_program b env self).status ≠ .returned →
      start b env self = load_program b env self ∧
      event.reset ∉ (start b env self).trace) := by
  refine ⟨?_, ?_, ?_⟩
  · intro h
    unfold start
    rw [if_neg]
    rintro ⟨h1, h2⟩
    rcases h with h | h
    · exact h1 h
    · exact h2 h
  · intro h1 h2 h3
    unfold start
    rw [if_pos ⟨h1, h2⟩]
    simp only [h3]
  · intro h1 h2 h3
    have hst : start b env self = load_program b env self := by
      unfold start
      rw [if_pos ⟨h1, h2⟩]
      cases hs : (load_program b env self).status with
      | returned => exact absurd hs h3
      | thrown e => simp only [hs]
      | undefined => simp only [hs]
    refine ⟨hst, ?_⟩
    rw [hst]
    unfold load_program
    cases ht : self.targs with
    | nil => simp
    | cons t ts =>
      simp only
      have hr : event.reset ∉ (resolve_path b env t).2 := by
        unfold resolve_path
        split
        · simp
        · split
          · split <;> simp
          · simp
      split
      · exact hr
      · split <;> simp [hr]

/-- Witness for `start_loads_then_resets`: the targets `none` and `nofile` with
a transport that finds no file. -/
theorem start_loads_then_resets_witness :
    start example_build stopping_transport
        { htif_t.ctor 2147483648 with targs := ["none".toList] }
      = ⟨.returned,
          stopping_transport.reset { htif_t.ctor 2147483648 with targs := ["none".toList] },
          [.reset]⟩ ∧
    (start example_build stopping_transport
        { htif_t.ctor 2147483648 with targs := ["nofile".toList] }
      = load_program example_build stopping_transport
        { htif_t.ctor 2147483648 with targs := ["nofile".toList] } ∧
     event.reset ∉ (start example_build stopping_transport
        { htif_t.ctor 2147483648 with targs := ["nofile".toList] }).trace) :=
  ⟨(start_loads_then_resets example_build stopping_transport
      { htif_t.ctor 2147483648 with targs := ["none".toList] }).1 (Or.inr (by decide)),
   (start_loads_then_resets example_build stopping_transport
      { htif_t.ctor 2147483648 with targs := ["nofile".toList] }).2.2
      (by decide) (by decide) (by decide)⟩

theorem target_dir_path_ne_nil (b : build_config) (t : Token) :
    b.PREFIX ++ TARGET_DIR b ++ t ≠ [] := by
  intro h
  have := congrArg List.length h
  simp [TARGET_DIR] at this

/-- C17: `load_program()` resolves `t = targs[0]` in this order, for a file
system in which the empty path does not exist (as `access` has it).  If `t`
exists the loader is called with `t`, and the installed copy is not probed;
otherwise, if `t` has no `/` and `PREFIX "/" TARGET_ARCH "/bin/"` followed by
`t` exists, the loader is called with that path; in every other case
`load_program()` throws the `std::runtime_error` "could not open ...", the
loader is not called and no field changes. -/
theorem load_program_resolves (b : build_config) (env : collaborators) (self : htif_t)
    (t : Token) (ts : List Token) (hself : self.targs = t :: ts)
    (hempty : env.access [] = false) :
    (env.access t = true →
      (load_program b env self).trace = [.access t, .load_elf t] ∧
      (∀ entry, env.load_elf t = .ok entry →
        load_program b env self
          = ⟨.returned, { self with entry := entry }, [.access t, .load_elf t]⟩)) ∧
    (env.access t = false → t.contains '/' = false →
      env.access (b.PREFIX ++ "/".toList ++ b.TARGET_ARCH ++ "/bin/".toList ++ t) = true →
      (load_program b env self).trace
        = [.access t, .access (b.PREFIX ++ "/".toList ++ b.TARGET_ARCH ++ "/bin/".toList ++ t),
            .load_elf (b.PREFIX ++ "/".toList ++ b.TARGET_ARCH ++ "/bin/".toList ++ t)] ∧
      (∀ entry,
        env.load_elf (b.PREFIX ++ "/".toList ++ b.TARGET_ARCH ++ "/bin/".toList ++ t) = .ok entry →
        (load_program b env self).status = .returned ∧
        (load_program b env self).self = { self with entry := entry })) ∧
    (env.access t = false →
      (t.contains '/' = true ∨
        env.access (b.PREFIX ++ "/".toList ++ b.TARGET_ARCH ++ "/bin/".toList ++ t) = false) →
      (load_program b env self).status = .thrown (.runtime_error (MSG_COULD_NOT_OPEN t)) ∧
      (load_program b env self).self = self ∧
      (∀ path, event.load_elf path ∉ (load_program b env self).trace)) := by
  have hp : b.PREFIX ++ "/".toList ++ b.TARGET_ARCH ++ "/bin/".toList ++ t
      = b.PREFIX ++ TARGET_DIR b ++ t := by
    simp [TARGET_DIR]
  rw [hp]
  refine ⟨?_, ?_, ?_⟩
  · intro ha
    have hne : t ≠ [] := by
      intro e
      rw [e, hempty] at ha
      exact Bool.noConfusion ha
    have hr : resolve_path b env t = (t, [.access t]) := by
      unfold resolve_path
      rw [if_pos ha]
    constructor
    · simp only [load_program, hself, hr, if_neg hne]
      cases env.load_elf t <;> rfl
    · intro entry he
      simp only [load_program, hself, hr, if_neg hne, he]
      rfl
  · intro ha hs hb
    have hr : resolve_path b env t
        = (b.PREFIX ++ TARGET_DIR b ++ t,
            [.access t, .access (b.PREFIX ++ TARGET_DIR b ++ t)]) := by
      unfold resolve_path
      rw [if_neg (by rw [ha]; decide), if_pos (by rw [hs]; decide), if_pos hb]
    constructor
    · simp only [load_program, hself, hr, if_neg (target_dir_path_ne_nil b t)]
      cases env.load_elf (b.PREFIX ++ TARGET_DIR b ++ t) <;> rfl
    · intro entry he
      simp only [load_program, hself, hr, if_neg (target_dir_path_ne_nil b t), he]
      exact ⟨trivial, trivial⟩
  · intro ha hor
    have hr : (resolve_path b env t).1 = [] ∧
        ∀ path, event.load_elf path ∉ (resolve_path b env t).2 := by
      unfold resolve_path
      rw [if_neg (by rw [ha]; decide)]
      by_cases hs : t.contains '/' = true
      · rw [if_neg (by rw [hs]; decide)]
        exact ⟨rfl, fun path => by simp⟩
      · have hb : env.access (b.PREFIX ++ TARGET_DIR b ++ t) = false := by
          rcases hor with h | h
          · exact absurd h hs
          · exact h
        rw [if_pos hs, if_neg (by rw [hb]; decide)]
        exact ⟨rfl, fun path => by simp⟩
    simp only [load_program, hself, if_pos hr.1]
    exact ⟨trivial, trivial, hr.2⟩

/-- Witness for `load_program_resolves`: the target `pk` when only the installed
copy exists. -/
theorem load_program_resolves_witness :
    (load_program example_build installed_pk
        { htif_t.ctor 2147483648 with targs := ["pk".toList] }).trace
      = [.access "pk".toList,
          .access ("/usr/local".toList ++ "/".toList ++ "riscv64-unknown-elf".toList
            ++ "/bin/".toList ++ "pk".toList),
          .load_elf ("/usr/local".toList ++ "/".toList ++ "riscv64-unknown-elf".toList
            ++ "/bin/".toList ++ "pk".toList)] ∧
    (load_program example_build installed_pk
        { htif_t.ctor 2147483648 with targs := ["pk".toList] }).status = .returned ∧
    (load_program example_build installed_pk
        { htif_t.ctor 2147483648 with targs := ["pk".toList] }).self
      = { htif_t.ctor 2147483648 with targs := ["pk".toList], entry := 65536 } :=
  have h := (load_program_resolves example_build installed_pk
    { htif_t.ctor 2147483648 with targs := ["pk".toList] } "pk".toList [] rfl (by decide)).2.1
    (by decide) (by decide) (by decide)
  ⟨h.1, (h.2 65536 rfl).1, (h.2 65536 rfl).2⟩

theorem step_same_next (p : parse_pc) (s : parse_state) (seen : List Token)
    (h : p ≠ .top → seen.head? = s.d.seen.head?) :
    step_same (.next p s) (.next p (reseen seen s)) :=
  ⟨rfl, seen, rfl, h⟩

theorem step_same_throw (e : exception) (s : parse_state) (seen : List Token) :
    step_same (.throw e s) (.throw e (reseen seen s)) :=
  ⟨rfl, seen, rfl⟩

theorem step_same_undefined (s : parse_state) (seen : List Token) :
    step_same (.undefined s) (.undefined (reseen seen s)) :=
  ⟨seen, rfl⟩

theorem put_back_same (s : parse_state) (seen : List Token)
    (h : seen.head? = s.d.seen.head?) :
    step_same (put_back s) (put_back (reseen seen s)) := by
  obtain ⟨⟨sn, rest, nc⟩, e, self⟩ := s
  cases sn with
  | nil =>
    cases seen with
    | nil => exact ⟨[], rfl⟩
    | cons a as => simp at h
  | cons t ts =>
    cases seen with
    | nil => simp at h
    | cons a as =>
      simp only [List.head?_cons, Option.some.injEq] at h
      subst h
      exact ⟨as, rfl⟩

theorem case_1_same (cfg : htif_config) (arg : Token) (s : parse_state) (seen : List Token)
    (h : seen.head? = s.d.seen.head?) :
    step_same (case_1 cfg arg s) (case_1 cfg arg (reseen seen s)) := by
  have hop : (reseen seen s).opterr = s.opterr := rfl
  unfold case_1
  rw [hop]
  by_cases h1 : arg = PLUS_RFB
  · simp only [if_pos h1]
    exact step_same_next _ s seen (fun _ => h)
  simp only [if_neg h1]
  by_cases h2 : PLUS_RFB_EQ.isPrefixOf arg = true
  · simp only [if_pos h2]
    exact step_same_next _ s seen (fun _ => h)
  simp only [if_neg h2]
  by_cases h3 : PLUS_DISK_EQ.isPrefixOf arg = true
  · simp only [if_pos h3]
    exact step_same_next _ s seen (fun _ => h)
  simp only [if_neg h3]
  by_cases h4 : PLUS_SIGNATURE_EQ.isPrefixOf arg = true
  · simp only [if_pos h4]
    exact step_same_next _ s seen (fun _ => h)
  simp only [if_neg h4]
  by_cases h5 : PLUS_CHROOT_EQ.isPrefixOf arg = true
  · simp only [if_pos h5]
    exact step_same_next _ s seen (fun _ => h)
  simp only [if_neg h5]
  by_cases h6 : PLUS_PERMISSIVE_OFF.isPrefixOf arg = true
  · simp only [if_pos h6]
    by_cases he : s.opterr ≠ 0
    · simp only [if_pos he]
      exact step_same_throw _ s seen
    · simp only [if_neg he]
      exact step_same_next .top { s with opterr := 1 } seen (fun hne => absurd rfl hne)
  simp only [if_neg h6]
  by_cases h7 : PLUS_PERMISSIVE.isPrefixOf arg = true
  · simp only [if_pos h7]
    by_cases he : s.opterr = 0
    · simp only [if_pos he]
      exact step_same_throw _ s seen
    · simp only [if_neg he]
      exact step_same_next .top { s with opterr := 0 } seen (fun hne => absurd rfl hne)
  simp only [if_neg h7]
  by_cases he : s.opterr = 0
  · simp only [if_pos he]
    exact step_same_next .top s seen (fun hne => absurd rfl hne)
  · simp only [if_neg he]
    exact put_back_same s seen h

theorem switch_c_same (cfg : htif_config) (c : Int) (optarg : Option Token)
    (s : parse_state) (seen : List Token) (h : c = 1 → seen.head? = s.d.seen.head?) :
    step_same (switch_c cfg c optarg s) (switch_c cfg c optarg (reseen seen s)) := by
  have hop : (reseen seen s).opterr = s.opterr := rfl
  unfold switch_c
  rw [hop]
  by_cases h1 : c = 104
  · simp only [if_pos h1]
    exact step_same_throw _ s seen
  simp only [if_neg h1]
  by_cases h2 : c = cfg.HTIF_LONG_OPTIONS_OPTIND + 2
  · simp only [if_pos h2]
    cases optarg with
    | none => exact step_same_undefined s seen
    | some v =>
      exact step_same_next .top { s with self := { s.self with sig_file := v } } seen
        (fun hne => absurd rfl hne)
  simp only [if_neg h2]
  by_cases h3 : c = 63
  · simp only [if_pos h3]
    by_cases he : s.opterr = 0
    · simp only [if_pos he]
      exact step_same_next .top s seen (fun hne => absurd rfl hne)
    · simp only [if_neg he]
      exact step_same_throw _ s seen
  simp only [if_neg h3]
  by_cases h4 : c = 1
  · simp only [if_pos h4]
    cases optarg with
    | none => exact step_same_undefined s seen
    | some arg => exact case_1_same cfg arg s seen (h h4)
  · simp only [if_neg h4]
    exact step_same_next .top s seen (fun hne => absurd rfl hne)

theorem short_option_reseen (ch : Char) (more : List Char) (seen seen2 rest : List Token) :
    (short_option ch more seen2 rest).c = (short_option ch more seen rest).c ∧
    (short_option ch more seen2 rest).optarg = (short_option ch more seen rest).optarg ∧
    (short_option ch more seen2 rest).d.rest = (short_option ch more seen rest).d.rest ∧
    (short_option ch more seen2 rest).d.nextchar = (short_option ch more seen rest).d.nextchar ∧
    (short_option ch more seen rest).c ≠ 1 := by
  unfold short_option
  by_cases hm : more = [] <;> by_cases hh : ch = 'h' <;> simp [hm, hh]

theorem process_long_option_reseen (lo : List struct_option) (tok : Token)
    (nextchar : List Char) (seen seen2 rest : List Token) :
    (process_long_option lo tok nextchar seen2 rest).c
      = (process_long_option lo tok nextchar seen rest).c ∧
    (process_long_option lo tok nextchar seen2 rest).optarg
      = (process_long_option lo tok nextchar seen rest).optarg ∧
    (process_long_option lo tok nextchar seen2 rest).d.rest
      = (process_long_option lo tok nextchar seen rest).d.rest ∧
    (process_long_option lo tok nextchar seen2 rest).d.nextchar
      = (process_long_option lo tok nextchar seen rest).d.nextchar ∧
    (process_long_option lo tok nextchar seen2 rest).d.seen.head?
      = (process_long_option lo tok nextchar seen rest).d.seen.head? := by
  unfold process_long_option
  cases lookup_long lo (option_name nextchar) with
  | ambiguous => simp
  | not_found => simp
  | found p =>
    simp only
    cases option_nameend nextchar with
    | cons x value =>
      simp only
      by_cases ha : p.has_arg ≠ 0
      · simp only [if_pos ha, List.head?_cons, and_self]
      · simp only [if_neg ha, List.head?_cons, and_self]
    | nil =>
      simp only
      by_cases ha : p.has_arg = 1
      · simp only [if_pos ha]
        cases rest with
        | nil => simp
        | cons a rest2 => simp
      · simp only [if_neg ha, List.head?_cons, and_self]

/-- What `getopt_long` returns does not depend on the elements before `optind`;
when it returns 1, neither does the element it has just passed. -/
theorem getopt_long_reseen (lo : List struct_option) (seen seen2 rest : List Token)
    (nextchar : List Char) :
    (getopt_long lo ⟨seen2, rest, nextchar⟩).c = (getopt_long lo ⟨seen, rest, nextchar⟩).c ∧
    (getopt_long lo ⟨seen2, rest, nextchar⟩).optarg
      = (getopt_long lo ⟨seen, rest, nextchar⟩).optarg ∧
    (getopt_long lo ⟨seen2, rest, nextchar⟩).d.rest
      = (getopt_long lo ⟨seen, rest, nextchar⟩).d.rest ∧
    (getopt_long lo ⟨seen2, rest, nextchar⟩).d.nextchar
      = (getopt_long lo ⟨seen, rest, nextchar⟩).d.nextchar ∧
    ((getopt_long lo ⟨seen, rest, nextchar⟩).c = 1 →
      (getopt_long lo ⟨seen2, rest, nextchar⟩).d.seen.head?
        = (getopt_long lo ⟨seen, rest, nextchar⟩).d.seen.head?) := by
  cases nextchar with
  | cons ch more =>
    simp only [getopt_long_cluster]
    have := short_option_reseen ch more seen seen2 rest
    exact ⟨this.1, this.2.1, this.2.2.1, this.2.2.2.1, fun h => absurd h this.2.2.2.2⟩
  | nil =>
    cases rest with
    | nil => simp [getopt_long_end]
    | cons tok rest =>
      rcases tok with _ | ⟨c0, _ | ⟨c1, more⟩⟩
      · simp [getopt_long_empty]
      · simp [getopt_long_single]
      · by_cases h0 : c0 = '-'
        · subst h0
          by_cases h1 : c1 = '-'
          · subst h1
            cases more with
            | nil => simp [getopt_long_dashdash]
            | cons m ms =>
              simp only [getopt_long_long]
              have := process_long_option_reseen lo ('-' :: '-' :: m :: ms) (m :: ms)
                seen seen2 rest
              exact ⟨this.1, this.2.1, this.2.2.1, this.2.2.2.1, fun _ => this.2.2.2.2⟩
          · simp only [getopt_long_short _ _ _ _ _ h1]
            have := short_option_reseen c1 more seen seen2 (('-' :: c1 :: more) :: rest)
            exact ⟨this.1, this.2.1, this.2.2.1, this.2.2.2.1, fun h => absurd h this.2.2.2.2⟩
        · simp [getopt_long_nondash _ _ _ _ _ _ h0]

theorem parse_body_same (cfg : htif_config) (pc : parse_pc) (s : parse_state)
    (seen : List Token) (h : pc ≠ .top → seen.head? = s.d.seen.head?) :
    step_same (parse_body cfg pc s) (parse_body cfg pc (reseen seen s)) := by
  cases pc with
  | retry c optarg =>
    exact switch_c_same cfg c optarg s seen (fun _ => h (fun e => parse_pc.noConfusion e))
  | top =>
    obtain ⟨⟨sn, rest, nc⟩, e, self⟩ := s
    obtain ⟨hc, ho, hr, hn, hh⟩ := getopt_long_reseen cfg.HTIF_LONG_OPTIONS sn seen rest nc
    have hd : (⟨getopt_long cfg.HTIF_LONG_OPTIONS ⟨seen, rest, nc⟩ |>.d, e, self⟩ : parse_state)
        = reseen (getopt_long cfg.HTIF_LONG_OPTIONS ⟨seen, rest, nc⟩).d.seen
            ⟨(getopt_long cfg.HTIF_LONG_OPTIONS ⟨sn, rest, nc⟩).d, e, self⟩ := by
      simp only [reseen, ← hr, ← hn]
    simp only [parse_body, reseen, hc, ho]
    by_cases hm : (getopt_long cfg.HTIF_LONG_OPTIONS ⟨sn, rest, nc⟩).c = -1
    · simp only [if_pos hm]
      exact ⟨_, hd⟩
    · simp only [if_neg hm]
      rw [hd]
      exact switch_c_same cfg _ _ _ _ hh

/-- The outcome of the loop does not depend on the elements before `optind`,
except, at the label `retry`, on the last of them. -/
theorem parse_run_reseen (cfg : htif_config) :
    ∀ (n : Nat) (pc : parse_pc) (s : parse_state) (seen : List Token),
      parse_measure pc s = n → (pc ≠ .top → seen.head? = s.d.seen.head?) →
      parse_run cfg pc (reseen seen s) = parse_run cfg pc s := by
  intro n
  induction n using Nat.strong_induction_on with
  | _ n ih =>
    intro pc s seen hn h
    have hsame := parse_body_same cfg pc s seen h
    rw [parse_run_eq cfg pc s, parse_run_eq cfg pc (reseen seen s)]
    cases ha : parse_body cfg pc s with
    | next p s2 =>
      cases hb : parse_body cfg pc (reseen seen s) with
      | next p2 s3 =>
        rw [ha, hb] at hsame
        obtain ⟨rfl, seen2, rfl, hh⟩ := hsame
        have hm := parse_body_measure cfg pc p s s2 ha
        exact ih (parse_measure p s2) (by omega) p s2 seen2 rfl hh
      | done_processing s3 => rw [ha, hb] at hsame; exact absurd hsame id
      | throw e s3 => rw [ha, hb] at hsame; exact absurd hsame id
      | undefined s3 => rw [ha, hb] at hsame; exact absurd hsame id
    | done_processing s2 =>
      cases hb : parse_body cfg pc (reseen seen s) with
      | next p2 s3 => rw [ha, hb] at hsame; exact absurd hsame id
      | done_processing s3 =>
        rw [ha, hb] at hsame
        obtain ⟨seen2, rfl⟩ := hsame
        rfl
      | throw e s3 => rw [ha, hb] at hsame; exact absurd hsame id
      | undefined s3 => rw [ha, hb] at hsame; exact absurd hsame id
    | throw e s2 =>
      cases hb : parse_body cfg pc (reseen seen s) with
      | next p2 s3 => rw [ha, hb] at hsame; exact absurd hsame id
      | done_processing s3 => rw [ha, hb] at hsame; exact absurd hsame id
      | throw e2 s3 =>
        rw [ha, hb] at hsame
        obtain ⟨rfl, seen2, rfl⟩ := hsame
        rfl
      | undefined s3 => rw [ha, hb] at hsame; exact absurd hsame id
    | undefined s2 =>
      cases hb : parse_body cfg pc (reseen seen s) with
      | next p2 s3 => rw [ha, hb] at hsame; exact absurd hsame id
      | done_processing s3 => rw [ha, hb] at hsame; exact absurd hsame id
      | throw e2 s3 => rw [ha, hb] at hsame; exact absurd hsame id
      | undefined s3 =>
        rw [ha, hb] at hsame
        obtain ⟨seen2, rfl⟩ := hsame
        rfl

/-- At the top of the loop the elements before `optind` do not matter. -/
theorem run_top_seen (cfg : htif_config) (seen seen2 rest : List Token) (nextchar : List Char)
    (e : Int) (self : htif_t) :
    parse_run cfg .top ⟨⟨seen2, rest, nextchar⟩, e, self⟩
      = parse_run cfg .top ⟨⟨seen, rest, nextchar⟩, e, self⟩ :=
  parse_run_reseen cfg _ .top ⟨⟨seen, rest, nextchar⟩, e, self⟩ seen2 rfl
    (fun h => absurd rfl h)

/-! ### The signature file -/

theorem run_plus_signature (cfg : htif_config) (hl : labels_distinct cfg) (v : Token)
    (seen post : List Token) (e : Int) (self : htif_t) :
    parse_run cfg .top ⟨⟨seen, (PLUS_SIGNATURE_EQ ++ v) :: post, []⟩, e, self⟩
      = parse_run cfg .top ⟨⟨(PLUS_SIGNATURE_EQ ++ v) :: seen, post, []⟩, e,
          { self with sig_file := v }⟩ := by
  have hn : nonoption (PLUS_SIGNATURE_EQ ++ v) = true := rfl
  have h1 : PLUS_SIGNATURE_EQ ++ v ≠ PLUS_RFB := by
    intro h
    have := congrArg (fun l => (l.drop 1).head?) h
    simp [PLUS_SIGNATURE_EQ, PLUS_RFB] at this
  have h2 : PLUS_RFB_EQ.isPrefixOf (PLUS_SIGNATURE_EQ ++ v) = false := rfl
  have h3 : PLUS_DISK_EQ.isPrefixOf (PLUS_SIGNATURE_EQ ++ v) = false := rfl
  have h4 : PLUS_SIGNATURE_EQ.isPrefixOf (PLUS_SIGNATURE_EQ ++ v) = true :=
    List.isPrefixOf_iff_prefix.mpr
      (List.prefix_append _ _)
  have hd : (PLUS_SIGNATURE_EQ ++ v).drop 11 = v := by
    simp [PLUS_SIGNATURE_EQ]
  rw [parse_run_eq, parse_body_nonoption cfg hl _ _ _ hn]
  simp only [case_1, if_neg h1, h2, h3, h4, if_true, if_false, Bool.false_eq_true]
  rw [parse_run_eq]
  simp only [parse_body]
  rw [switch_c_signature cfg hl, hd]

theorem run_dash_signature (cfg : htif_config) (hl : labels_distinct cfg)
    (hs : has_signature_option cfg = true) (v : Token)
    (seen post : List Token) (e : Int) (self : htif_t) :
    parse_run cfg .top ⟨⟨seen, (DASH_SIGNATURE_EQ ++ v) :: post, []⟩, e, self⟩
      = parse_run cfg .top ⟨⟨(DASH_SIGNATURE_EQ ++ v) :: seen, post, []⟩, e,
          { self with sig_file := v }⟩ := by
  unfold has_signature_option at hs
  cases hlk : lookup_long cfg.HTIF_LONG_OPTIONS "signature".toList with
  | ambiguous => rw [hlk] at hs; exact Bool.noConfusion hs
  | not_found => rw [hlk] at hs; exact Bool.noConfusion hs
  | found p =>
    rw [hlk] at hs
    simp only [Bool.and_eq_true, bne_iff_ne, ne_eq, beq_iff_eq] at hs
    have htok : DASH_SIGNATURE_EQ ++ v
        = '-' :: '-' :: 's' :: ("ignature=".toList ++ v) := rfl
    have hname : option_name ('s' :: ("ignature=".toList ++ v)) = "signature".toList := by
      simp [option_name, List.takeWhile]
    have hend : option_nameend ('s' :: ("ignature=".toList ++ v)) = '=' :: v := by
      simp [option_nameend, List.dropWhile]
    have hg : getopt_long cfg.HTIF_LONG_OPTIONS ⟨seen, (DASH_SIGNATURE_EQ ++ v) :: post, []⟩
        = ⟨cfg.HTIF_LONG_OPTIONS_OPTIND + 2, some v,
            ⟨(DASH_SIGNATURE_EQ ++ v) :: seen, post, []⟩⟩ := by
      rw [htok, getopt_long_long]
      simp only [process_long_option, hname, hlk, hend]
      rw [if_pos hs.1.1, hs.1.2]
    have hne : cfg.HTIF_LONG_OPTIONS_OPTIND + 2 ≠ -1 := by
      rw [← hs.1.2]
      exact hs.2
    rw [parse_run_eq]
    simp only [parse_body, hg, if_neg hne]
    rw [switch_c_signature cfg hl]

/-- C11 as stated fails: not for every `pre`.  After the program path the two
spellings are target arguments, passed on as they are, so the outcomes differ. -/
theorem signature_after_program_path_counterexample :
    parse_arguments fesvr_config
        ["prog".toList, "mybinary".toList, "+signature=x".toList] 1 (htif_t.ctor 2147483648)
      = ⟨.returned,
          { htif_t.ctor 2147483648 with
            targs := ["mybinary".toList, "+signature=x".toList] }, 1⟩ ∧
    parse_arguments fesvr_config
        ["prog".toList, "mybinary".toList, "--signature=x".toList] 1 (htif_t.ctor 2147483648)
      = ⟨.returned,
          { htif_t.ctor 2147483648 with
            targs := ["mybinary".toList, "--signature=x".toList] }, 1⟩ ∧
    parse_arguments fesvr_config
        ["prog".toList, "mybinary".toList, "+signature=x".toList] 1 (htif_t.ctor 2147483648)
      ≠ parse_arguments fesvr_config
        ["prog".toList, "mybinary".toList, "--signature=x".toList] 1 (htif_t.ctor 2147483648) := by
  decide

/-- C11 (amended): whenever the scanner reaches it, the plusarg
`+signature=<value>` does what the host option `--signature=<value>` does.
From the top of the loop, in either mode, each of the two stores the value as
it stands in `sig_file` and leaves the loop at its top with the next element;
the outcome of the call is the same for both.  This holds in particular after
every run `pre` of host options, plusargs and mode toggles, whatever `post`
is. -/
theorem signature_plusarg_equivalent (cfg : htif_config) (hcfg : codes_free cfg)
    (hs : has_signature_option cfg = true) (v : Token) :
    (∀ (seen post : List Token) (e : Int) (self : htif_t),
      parse_run cfg .top ⟨⟨seen, (PLUS_SIGNATURE_EQ ++ v) :: post, []⟩, e, self⟩
        = parse_run cfg .top ⟨⟨seen, (DASH_SIGNATURE_EQ ++ v) :: post, []⟩, e, self⟩) ∧
    (∀ (seen post : List Token) (e : Int) (self : htif_t),
      parse_run cfg .top ⟨⟨seen, (PLUS_SIGNATURE_EQ ++ v) :: post, []⟩, e, self⟩
        = parse_run cfg .top ⟨⟨(PLUS_SIGNATURE_EQ ++ v) :: seen, post, []⟩, e,
            { self with sig_file := v }⟩) ∧
    (∀ (seen post : List Token) (e : Int) (self : htif_t),
      parse_run cfg .top ⟨⟨seen, (DASH_SIGNATURE_EQ ++ v) :: post, []⟩, e, self⟩
        = parse_run cfg .top ⟨⟨(DASH_SIGNATURE_EQ ++ v) :: seen, post, []⟩, e,
            { self with sig_file := v }⟩) ∧
    (∀ (prog : Token) (pre post : List Token) (m2 : Bool) (e : Int) (self : htif_t),
      option_list cfg (decide (e = 0)) pre m2 →
      parse_arguments cfg (prog :: (pre ++ (PLUS_SIGNATURE_EQ ++ v) :: post)) e self
        = parse_arguments cfg (prog :: (pre ++ (DASH_SIGNATURE_EQ ++ v) :: post)) e self) := by
  have hl := codes_free_labels cfg hcfg
  have hsame : ∀ (seen post : List Token) (e : Int) (self : htif_t),
      parse_run cfg .top ⟨⟨seen, (PLUS_SIGNATURE_EQ ++ v) :: post, []⟩, e, self⟩
        = parse_run cfg .top ⟨⟨seen, (DASH_SIGNATURE_EQ ++ v) :: post, []⟩, e, self⟩ := by
    intro seen post e self
    rw [run_plus_signature cfg hl, run_dash_signature cfg hl hs]
    exact run_top_seen cfg _ _ post [] e _
  refine ⟨hsame, fun seen post e self => run_plus_signature cfg hl v seen post e self,
    fun seen post e self => run_dash_signature cfg hl hs v seen post e self, ?_⟩
  intro prog pre post m2 e self hpre
  obtain ⟨sf, e2, _, hrun⟩ := scan_option_list cfg hcfg hpre e self (by simp)
  rw [parse_arguments_cons, parse_arguments_cons, hrun, hrun, hsame]

/-- Witness for `signature_plusarg_equivalent`: `+signature=out.sig` and
`--signature=out.sig` after `+permissive +disk=img`, before
`+permissive-off mybinary`. -/
theorem signature_plusarg_equivalent_witness :
    parse_arguments fesvr_config
        ("prog".toList :: (["+permissive".toList, "+disk=img".toList]
          ++ (PLUS_SIGNATURE_EQ ++ "out.sig".toList)
            :: ["+permissive-off".toList, "mybinary".toList]))
        1 (htif_t.ctor 2147483648)
      = parse_arguments fesvr_config
        ("prog".toList :: (["+permissive".toList, "+disk=img".toList]
          ++ (DASH_SIGNATURE_EQ ++ "out.sig".toList)
            :: ["+permissive-off".toList, "mybinary".toList]))
        1 (htif_t.ctor 2147483648) :=
  (signature_plusarg_equivalent fesvr_config (by decide) (by decide) "out.sig".toList).2.2.2
    "prog".toList ["+permissive".toList, "+disk=img".toList]
    ["+permissive-off".toList, "mybinary".toList] true 1 (htif_t.ctor 2147483648)
    (option_list.permissive "+permissive".toList _ true (by decide) (by decide)
      (option_list.plusarg "+disk=img".toList [] true true (by decide) (option_list.nil true)))

/-! ### Calls one after the other, and the text of the errors -/

/-- C16: the code does not start every classification in strict mode.  The call
for `prog +permissive` throws and leaves the global `opterr` at 0; a following
call for `prog mybinary` then starts permissive, passes over `mybinary` and
throws "No binary specified", where the same call in a fresh process (`opterr`
is 1) returns with the target argument `mybinary`. -/
theorem opterr_leaks_between_calls :
    parse_arguments fesvr_config ["prog".toList, "+permissive".toList] 1
        (htif_t.ctor 2147483648)
      = ⟨.thrown (.invalid_argument MSG_NO_BINARY), htif_t.ctor 2147483648, 0⟩ ∧
    parse_arguments fesvr_config ["prog".toList, "mybinary".toList]
        (parse_arguments fesvr_config ["prog".toList, "+permissive".toList] 1
          (htif_t.ctor 2147483648)).opterr
        (htif_t.ctor 2147483648)
      = ⟨.thrown (.invalid_argument MSG_NO_BINARY), htif_t.ctor 2147483648, 0⟩ ∧
    parse_arguments fesvr_config ["prog".toList, "mybinary".toList] 1
        (htif_t.ctor 2147483648)
      = ⟨.returned, { htif_t.ctor 2147483648 with targs := ["mybinary".toList] }, 1⟩ := by
  decide

theorem contains_text_head (c : Char) (t msg : List Char)
    (h : contains_text (c :: t) msg = true) : c ∈ msg := by
  simp only [contains_text, List.any_eq_true, List.mem_tails] at h
  obtain ⟨s, hs, hp⟩ := h
  obtain ⟨u, rfl⟩ := starts_with_split _ _ hp
  exact hs.subset (by simp)

/-- C18 as stated fails: the error for the unknown option `--bogus` in strict mode
has the text "Unknown argument (did you mean to enable +permissive parsing?)",
in which `--bogus` does not occur. -/
theorem unknown_option_message_counterexample :
    parse_arguments fesvr_config ["prog".toList, "--bogus".toList, "mybinary".toList] 1
        (htif_t.ctor 2147483648)
      = ⟨.thrown (.invalid_argument MSG_UNKNOWN), htif_t.ctor 2147483648, 1⟩ ∧
    contains_text "--bogus".toList MSG_UNKNOWN.toList = false := by
  decide

/-- C18 (amended): when classification fails because of an unknown option in
strict mode (an unrecognized dash-option that does not start with `-h`), the
`std::invalid_argument` carries one fixed text, the same for every element:
"Unknown argument (did you mean to enable +permissive parsing?)".  The text
names `+permissive`, and it does not contain the offending element. -/
theorem unknown_option_message_fixed (cfg : htif_config) (hcfg : labels_distinct cfg)
    (tok : Token) (ht : unrecognized_dash_option cfg tok = true)
    (hh : (tok.drop 1).head? ≠ some 'h') :
    (∀ (seen rest : List Token) (e : Int) (self : htif_t), e ≠ 0 →
      parse_run cfg .top ⟨⟨seen, tok :: rest, []⟩, e, self⟩
        = ⟨.thrown (.invalid_argument MSG_UNKNOWN), self, e⟩) ∧
    (∀ (prog : Token) (rest : List Token) (e : Int) (self : htif_t), e ≠ 0 →
      parse_arguments cfg (prog :: tok :: rest) e self
        = ⟨.thrown (.invalid_argument MSG_UNKNOWN), self, e⟩) ∧
    contains_text PLUS_PERMISSIVE MSG_UNKNOWN.toList = true ∧
    contains_text tok MSG_UNKNOWN.toList = false := by
  have hm : dash_option_message tok = MSG_UNKNOWN := by
    unfold dash_option_message
    rw [if_neg hh]
  have hrun : ∀ (seen rest : List Token) (e : Int) (self : htif_t), e ≠ 0 →
      parse_run cfg .top ⟨⟨seen, tok :: rest, []⟩, e, self⟩
        = ⟨.thrown (.invalid_argument MSG_UNKNOWN), self, e⟩ := by
    intro seen rest e self he
    rw [run_dash_option_strict cfg hcfg tok ht seen rest e he self, hm]
  refine ⟨hrun, fun prog rest e self he => ?_, by decide, ?_⟩
  · rw [parse_arguments_cons]
    exact hrun _ rest e self he
  · rcases tok with _ | ⟨c0, _ | ⟨c1, more⟩⟩
    · simp [unrecognized_dash_option] at ht
    · simp [unrecognized_dash_option] at ht
    · simp only [unrecognized_dash_option, Bool.and_eq_true, decide_eq_true_eq] at ht
      have h0 : c0 = '-' := ht.1.1.1
      subst h0
      cases hc : contains_text ('-' :: c1 :: more) MSG_UNKNOWN.toList with
      | false => rfl
      | true =>
        have := contains_text_head '-' (c1 :: more) MSG_UNKNOWN.toList hc
        exact absurd this (by decide)

/-- Witness for `unknown_option_message_fixed`: the element `--bogus`. -/
theorem unknown_option_message_fixed_witness :
    parse_arguments fesvr_config ("prog".toList :: "--bogus".toList :: ["mybinary".toList]) 1
        (htif_t.ctor 2147483648)
      = ⟨.thrown (.invalid_argument MSG_UNKNOWN), htif_t.ctor 2147483648, 1⟩ ∧
    contains_text "--bogus".toList MSG_UNKNOWN.toList = false :=
  have h := unknown_option_message_fixed fesvr_config (by decide) "--bogus".toList
    (by decide) (by decide)
  ⟨h.2.1 "prog".toList ["mybinary".toList] 1 _ (by decide), h.2.2.2⟩

/-! ### Plusargs are matched by their beginning -/

theorem starts_with_append (p t : List Char) : p.isPrefixOf (p ++ t) = true :=
  List.isPrefixOf_iff_prefix.mpr
    (List.prefix_append p t)

theorem valued_not_permissive (p t : Token)
    (hp : p = PLUS_RFB_EQ ∨ p = PLUS_DISK_EQ ∨ p = PLUS_SIGNATURE_EQ ∨ p = PLUS_CHROOT_EQ) :
    p ++ t ≠ PLUS_RFB ∧ PLUS_PERMISSIVE_OFF.isPrefixOf (p ++ t) = false
      ∧ PLUS_PERMISSIVE.isPrefixOf (p ++ t) = false := by
  rcases hp with rfl | rfl | rfl | rfl
  · refine ⟨?_, rfl, rfl⟩
    intro h
    have := congrArg List.length h
    simp [PLUS_RFB_EQ, PLUS_RFB] at this
  all_goals
    refine ⟨?_, rfl, rfl⟩
    intro h
    have := congrArg (fun l => (l.drop 1).head?) h
    simp [PLUS_DISK_EQ, PLUS_SIGNATURE_EQ, PLUS_CHROOT_EQ, PLUS_RFB] at this

/-- The branches of `case 1`, with the tests that lead to each of them. -/
theorem case_1_branch (cfg : htif_config) (arg : Token) (s : parse_state) :
    (arg = PLUS_RFB ∧ PLUS_PERMISSIVE_OFF.isPrefixOf arg = false
      ∧ PLUS_PERMISSIVE.isPrefixOf arg = false
      ∧ case_1 cfg arg s = .next (.retry cfg.HTIF_LONG_OPTIONS_OPTIND none) s)
    ∨ (arg ≠ PLUS_RFB ∧ PLUS_PERMISSIVE_OFF.isPrefixOf arg = false
      ∧ PLUS_PERMISSIVE.isPrefixOf arg = false
      ∧ ∃ c v, (c = cfg.HTIF_LONG_OPTIONS_OPTIND ∨ c = cfg.HTIF_LONG_OPTIONS_OPTIND + 1
          ∨ c = cfg.HTIF_LONG_OPTIONS_OPTIND + 2 ∨ c = cfg.HTIF_LONG_OPTIONS_OPTIND + 3)
        ∧ case_1 cfg arg s = .next (.retry c (some v)) s)
    ∨ (arg ≠ PLUS_RFB ∧ PLUS_PERMISSIVE_OFF.isPrefixOf arg = true
      ∧ case_1 cfg arg s = toggle_off s)
    ∨ (arg ≠ PLUS_RFB ∧ PLUS_PERMISSIVE_OFF.isPrefixOf arg = false
      ∧ PLUS_PERMISSIVE.isPrefixOf arg = true ∧ case_1 cfg arg s = toggle_on s)
    ∨ (arg ≠ PLUS_RFB ∧ PLUS_PERMISSIVE_OFF.isPrefixOf arg = false
      ∧ PLUS_PERMISSIVE.isPrefixOf arg = false
      ∧ case_1 cfg arg s = if s.opterr = 0 then .next .top s else put_back s) := by
  by_cases h1 : arg = PLUS_RFB
  · left
    subst h1
    exact ⟨rfl, rfl, rfl, rfl⟩
  right
  by_cases h2 : PLUS_RFB_EQ.isPrefixOf arg = true
  · left
    obtain ⟨t, rfl⟩ := starts_with_split _ _ h2
    obtain ⟨_, k2, k3⟩ := valued_not_permissive PLUS_RFB_EQ t (Or.inl rfl)
    exact ⟨h1, k2, k3, _, _, Or.inl rfl, by simp only [case_1, if_neg h1, if_pos h2]; rfl⟩
  by_cases h3 : PLUS_DISK_EQ.isPrefixOf arg = true
  · left
    obtain ⟨t, rfl⟩ := starts_with_split _ _ h3
    obtain ⟨_, k2, k3⟩ := valued_not_permissive PLUS_DISK_EQ t (Or.inr (Or.inl rfl))
    exact ⟨h1, k2, k3, _, _, Or.inr (Or.inl rfl),
      by simp only [case_1, if_neg h1, if_neg h2, if_pos h3]; rfl⟩
  by_cases h4 : PLUS_SIGNATURE_EQ.isPrefixOf arg = true
  · left
    obtain ⟨t, rfl⟩ := starts_with_split _ _ h4
    obtain ⟨_, k2, k3⟩ :=
      valued_not_permissive PLUS_SIGNATURE_EQ t (Or.inr (Or.inr (Or.inl rfl)))
    exact ⟨h1, k2, k3, _, _, Or.inr (Or.inr (Or.inl rfl)),
      by simp only [case_1, if_neg h1, if_neg h2, if_neg h3, if_pos h4]; rfl⟩
  by_cases h5 : PLUS_CHROOT_EQ.isPrefixOf arg = true
  · left
    obtain ⟨t, rfl⟩ := starts_with_split _ _ h5
    obtain ⟨_, k2, k3⟩ :=
      valued_not_permissive PLUS_CHROOT_EQ t (Or.inr (Or.inr (Or.inr rfl)))
    exact ⟨h1, k2, k3, _, _, Or.inr (Or.inr (Or.inr rfl)),
      by simp only [case_1, if_neg h1, if_neg h2, if_neg h3, if_neg h4, if_pos h5]; rfl⟩
  right
  by_cases h6 : PLUS_PERMISSIVE_OFF.isPrefixOf arg = true
  · left
    exact ⟨h1, h6, case_1_permissive_off cfg arg s h6⟩
  right
  have h6f : PLUS_PERMISSIVE_OFF.isPrefixOf arg = false := Bool.eq_false_iff.mpr h6
  by_cases h7 : PLUS_PERMISSIVE.isPrefixOf arg = true
  · left
    exact ⟨h1, h6f, h7, case_1_permissive cfg arg s h7 h6f⟩
  right
  have h7f : PLUS_PERMISSIVE.isPrefixOf arg = false := Bool.eq_false_iff.mpr h7
  refine ⟨h1, h6f, h7f, ?_⟩
  simp only [case_1, if_neg h1, if_neg h2, if_neg h3, if_neg h4, if_neg h5, if_neg h6, if_neg h7]

theorem toggle_off_ne_retry (s s2 : parse_state) (c : Int) (optarg : Option Token) :
    parse_step.next (.retry c optarg) s2 ≠ toggle_off s := by
  unfold toggle_off
  split <;> simp

theorem toggle_on_ne_retry (s s2 : parse_state) (c : Int) (optarg : Option Token) :
    parse_step.next (.retry c optarg) s2 ≠ toggle_on s := by
  unfold toggle_on
  split <;> simp

theorem toggle_on_ne_off (s : parse_state) : toggle_on s ≠ toggle_off s := by
  unfold toggle_on toggle_off
  by_cases he : s.opterr = 0
  · simp [he]
  · simp [he]

theorem skip_ne_toggle_off (s : parse_state) :
    (if s.opterr = 0 then parse_step.next .top s else put_back s) ≠ toggle_off s := by
  unfold toggle_off put_back
  obtain ⟨d, e, self⟩ := s
  by_cases he : e = 0
  · subst he
    simp
  · simp only [if_neg he, ne_eq, not_not, if_true]
    cases d.seen <;> simp [he]

theorem skip_ne_toggle_on (s : parse_state) :
    (if s.opterr = 0 then parse_step.next .top s else put_back s) ≠ toggle_on s := by
  unfold toggle_on put_back
  obtain ⟨d, e, self⟩ := s
  by_cases he : e = 0
  · subst he
    simp
  · simp only [if_neg he]
    cases d.seen <;> simp

theorem skip_ne_retry (s s2 : parse_state) (c : Int) (optarg : Option Token) :
    (if s.opterr = 0 then parse_step.next .top s else put_back s)
      ≠ parse_step.next (.retry c optarg) s2 := by
  unfold put_back
  by_cases he : s.opterr = 0
  · simp [he]
  · simp only [if_neg he]
    cases s.d.seen <;> simp

/-- C20: the mode toggles and the valued plusargs are matched by their beginning,
`+rfb` by equality.  For `std::string arg = optarg` in `case 1`: `arg` is
treated as `+permissive-off` exactly when it begins with `+permissive-off`, as
`+permissive` exactly when it begins with `+permissive` but not with
`+permissive-off`, and as the bare `+rfb` exactly when it equals `+rfb`; an
`arg` that begins with `+rfb=`, `+disk=`, `+signature=` or `+chroot=` is sent to
`retry` with the rest as value.  So in a strict parser `+permissive-of` and
`+permissiveX` turn permissive mode on (the program path after them is passed
over), and `+rfbX` is no plusarg: it ends the scan as the program path. -/
theorem plusargs_matched_by_beginning (cfg : htif_config) (hcfg : labels_distinct cfg) :
    (∀ (arg : Token) (s : parse_state),
      (case_1 cfg arg s = toggle_off s ↔ PLUS_PERMISSIVE_OFF.isPrefixOf arg = true) ∧
      (case_1 cfg arg s = toggle_on s ↔
        (PLUS_PERMISSIVE.isPrefixOf arg = true ∧ PLUS_PERMISSIVE_OFF.isPrefixOf arg = false)) ∧
      (case_1 cfg arg s = .next (.retry cfg.HTIF_LONG_OPTIONS_OPTIND none) s ↔
        arg = PLUS_RFB)) ∧
    (∀ (v : Token) (s : parse_state),
      case_1 cfg (PLUS_RFB_EQ ++ v) s
        = .next (.retry cfg.HTIF_LONG_OPTIONS_OPTIND (some v)) s ∧
      case_1 cfg (PLUS_DISK_EQ ++ v) s
        = .next (.retry (cfg.HTIF_LONG_OPTIONS_OPTIND + 1) (some v)) s ∧
      case_1 cfg (PLUS_SIGNATURE_EQ ++ v) s
        = .next (.retry (cfg.HTIF_LONG_OPTIONS_OPTIND + 2) (some v)) s ∧
      case_1 cfg (PLUS_CHROOT_EQ ++ v) s
        = .next (.retry (cfg.HTIF_LONG_OPTIONS_OPTIND + 3) (some v)) s) ∧
    (∀ (seen rest : List Token) (x : Token) (e : Int) (self : htif_t),
      x ≠ [] → (∀ t, x ≠ "-off".toList ++ t) → e ≠ 0 →
      parse_run cfg .top ⟨⟨seen, (PLUS_PERMISSIVE ++ x) :: rest, []⟩, e, self⟩
        = parse_run cfg .top ⟨⟨(PLUS_PERMISSIVE ++ x) :: seen, rest, []⟩, 0, self⟩) ∧
    (∀ (prog p : Token) (e : Int) (self : htif_t), e ≠ 0 → self.targs = [] →
      p.head? ≠ some '-' → is_plusarg p = false →
      parse_arguments cfg [prog, "+permissive-of".toList, p] e self
        = ⟨.thrown (.invalid_argument MSG_NO_BINARY), self, 0⟩ ∧
      parse_arguments cfg [prog, "+permissiveX".toList, p] e self
        = ⟨.thrown (.invalid_argument MSG_NO_BINARY), self, 0⟩) ∧
    (is_plusarg "+rfbX".toList = false ∧
      ∀ (prog : Token) (rest : List Token) (e : Int) (self : htif_t), e ≠ 0 →
        parse_arguments cfg (prog :: "+rfbX".toList :: rest) e self
          = ⟨.returned, { self with targs := self.targs ++ "+rfbX".toList :: rest }, e⟩) := by
  refine ⟨?_, ?_, ?_, ?_, ?_⟩
  · intro arg s
    have hb := case_1_branch cfg arg s
    refine ⟨⟨?_, ?_⟩, ⟨?_, ?_⟩, ⟨?_, ?_⟩⟩
    · intro h
      rcases hb with ⟨_, _, _, hc⟩ | ⟨_, _, _, c, v, _, hc⟩ | ⟨_, ho, _⟩ | ⟨_, _, _, hc⟩
        | ⟨_, _, _, hc⟩
      · rw [hc] at h; exact absurd h (toggle_off_ne_retry _ _ _ _)
      · rw [hc] at h; exact absurd h (toggle_off_ne_retry _ _ _ _)
      · exact ho
      · rw [hc] at h; exact absurd h (toggle_on_ne_off s)
      · rw [hc] at h; exact absurd h (skip_ne_toggle_off s)
    · intro h
      exact case_1_permissive_off cfg arg s h
    · intro h
      rcases hb with ⟨_, _, _, hc⟩ | ⟨_, _, _, c, v, _, hc⟩ | ⟨_, _, hc⟩ | ⟨_, ho, hp, _⟩
        | ⟨_, _, _, hc⟩
      · rw [hc] at h; exact absurd h (toggle_on_ne_retry _ _ _ _)
      · rw [hc] at h; exact absurd h (toggle_on_ne_retry _ _ _ _)
      · rw [hc] at h; exact absurd h.symm (toggle_on_ne_off s)
      · exact ⟨hp, ho⟩
      · rw [hc] at h; exact absurd h (skip_ne_toggle_on s)
    · intro h
      exact case_1_permissive cfg arg s h.1 h.2
    · intro h
      rcases hb with ⟨ha, _⟩ | ⟨_, _, _, c, v, _, hc⟩ | ⟨_, _, hc⟩ | ⟨_, _, _, hc⟩
        | ⟨_, _, _, hc⟩
      · exact ha
      · rw [hc] at h; simp at h
      · rw [hc] at h; exact absurd h.symm (toggle_off_ne_retry _ _ _ _)
      · rw [hc] at h; exact absurd h.symm (toggle_on_ne_retry _ _ _ _)
      · rw [hc] at h; exact absurd h (skip_ne_retry _ _ _ _)
    · intro h
      subst h
      rfl
  · intro v s
    refine ⟨?_, ?_, ?_, ?_⟩
    · have h := (valued_not_permissive PLUS_RFB_EQ v (Or.inl rfl)).1
      have h2 : PLUS_RFB_EQ.isPrefixOf (PLUS_RFB_EQ ++ v) = true :=
        starts_with_append _ _
      simp only [case_1, if_neg h, if_pos h2]
      rfl
    · have h := (valued_not_permissive PLUS_DISK_EQ v (Or.inr (Or.inl rfl))).1
      have h2 : PLUS_RFB_EQ.isPrefixOf (PLUS_DISK_EQ ++ v) = false := rfl
      have h3 : PLUS_DISK_EQ.isPrefixOf (PLUS_DISK_EQ ++ v) = true :=
        starts_with_append _ _
      simp only [case_1, if_neg h, h2, if_pos h3, if_false, Bool.false_eq_true]
      rfl
    · have h := (valued_not_permissive PLUS_SIGNATURE_EQ v (Or.inr (Or.inr (Or.inl rfl)))).1
      have h2 : PLUS_RFB_EQ.isPrefixOf (PLUS_SIGNATURE_EQ ++ v) = false := rfl
      have h3 : PLUS_DISK_EQ.isPrefixOf (PLUS_SIGNATURE_EQ ++ v) = false := rfl
      have h4 : PLUS_SIGNATURE_EQ.isPrefixOf (PLUS_SIGNATURE_EQ ++ v) = true :=
        starts_with_append _ _
      simp only [case_1, if_neg h, h2, h3, if_pos h4, if_false, Bool.false_eq_true]
      rfl
    · have h := (valued_not_permissive PLUS_CHROOT_EQ v (Or.inr (Or.inr (Or.inr rfl)))).1
      have h2 : PLUS_RFB_EQ.isPrefixOf (PLUS_CHROOT_EQ ++ v) = false := rfl
      have h3 : PLUS_DISK_EQ.isPrefixOf (PLUS_CHROOT_EQ ++ v) = false := rfl
      have h4 : PLUS_SIGNATURE_EQ.isPrefixOf (PLUS_CHROOT_EQ ++ v) = false := rfl
      have h5 : PLUS_CHROOT_EQ.isPrefixOf (PLUS_CHROOT_EQ ++ v) = true :=
        starts_with_append _ _
      simp only [case_1, if_neg h, h2, h3, h4, if_pos h5, if_false, Bool.false_eq_true]
      rfl
  · intro seen rest x e self hx hoff he
    have hp : PLUS_PERMISSIVE.isPrefixOf (PLUS_PERMISSIVE ++ x) = true :=
      starts_with_append _ _
    have hno : PLUS_PERMISSIVE_OFF.isPrefixOf (PLUS_PERMISSIVE ++ x) = false := by
      apply Bool.eq_false_iff.mpr
      intro h
      obtain ⟨t, ht⟩ := starts_with_split _ _ h
      have e1 : PLUS_PERMISSIVE_OFF = PLUS_PERMISSIVE ++ "-off".toList := rfl
      rw [e1, List.append_assoc] at ht
      exact hoff t (List.append_cancel_left ht).symm
    rw [run_permissive cfg hcfg _ _ _ hp hno, if_neg he]
  · intro prog p e self he hs hp hpl
    have k1 : PLUS_PERMISSIVE.isPrefixOf "+permissive-of".toList = true := by decide
    have k2 : PLUS_PERMISSIVE_OFF.isPrefixOf "+permissive-of".toList = false := by decide
    have k3 : PLUS_PERMISSIVE.isPrefixOf "+permissiveX".toList = true := by decide
    have k4 : PLUS_PERMISSIVE_OFF.isPrefixOf "+permissiveX".toList = false := by decide
    constructor
    · rw [parse_arguments_cons, run_permissive cfg hcfg _ _ _ k1 k2, if_neg he,
        run_skip_nonoption cfg hcfg _ _ p (nonoption_of_head p hp) hpl, run_end, if_pos hs]
    · rw [parse_arguments_cons, run_permissive cfg hcfg _ _ _ k3 k4, if_neg he,
        run_skip_nonoption cfg hcfg _ _ p (nonoption_of_head p hp) hpl, run_end, if_pos hs]
  · refine ⟨by decide, ?_⟩
    intro prog rest e self he
    rw [parse_arguments_cons]
    exact run_program_path cfg hcfg _ rest "+rfbX".toList (by decide) (by decide) e he self

/-- Witness for `plusargs_matched_by_beginning`: `prog +permissive-of mybinary`
and `prog +rfbX mybinary` in a strict parser. -/
theorem plusargs_matched_by_beginning_witness :
    parse_arguments fesvr_config ["prog".toList, "+permissive-of".toList, "mybinary".toList] 1
        (htif_t.ctor 2147483648)
      = ⟨.thrown (.invalid_argument MSG_NO_BINARY), htif_t.ctor 2147483648, 0⟩ ∧
    parse_arguments fesvr_config ("prog".toList :: "+rfbX".toList :: ["mybinary".toList]) 1
        (htif_t.ctor 2147483648)
      = ⟨.returned,
          { htif_t.ctor 2147483648 with
            targs := (htif_t.ctor 2147483648).targs ++ "+rfbX".toList :: ["mybinary".toList] },
          1⟩ :=
  have h := plusargs_matched_by_beginning fesvr_config (by decide)
  ⟨(h.2.2.2.1 "prog".toList "mybinary".toList 1 _ (by decide) rfl (by decide) (by decide)).1,
   h.2.2.2.2.2 "prog".toList ["mybinary".toList] 1 _ (by decide)⟩

/-! ### Permissive mode without `+permissive-off` -/

theorem lookup_long_mem (lo : List struct_option) (name : List Char) (p : struct_option)
    (h : lookup_long lo name = .found p) : p ∈ lo := by
  unfold lookup_long at h
  split at h
  · rename_i q hq
    injection h with h
    subst h
    exact List.mem_of_find?_eq_some hq
  · split at h
    · exact long_lookup.noConfusion h
    · rename_i q qs hq
      split at h
      · injection h with h
        subst h
        have hm : q ∈ abbrev_matches lo name := by
          rw [hq]
          exact List.mem_cons_self _ _
        exact (List.mem_filter.mp hm).1
      · exact long_lookup.noConfusion h

theorem short_option_plain (ch : Char) (more : List Char) (seen rest : List Token) :
    ((short_option ch more seen rest).c = 104 ∨ (short_option ch more seen rest).c = 63)
      ∧ ∀ t ∈ (short_option ch more seen rest).d.rest, t ∈ rest := by
  unfold short_option
  by_cases hm : more = []
  · by_cases hc : ch = 'h'
    · simp only [hm, hc, if_true, true_or, true_and]
      intro t ht
      exact List.mem_of_mem_tail ht
    · simp only [hm, hc, if_true, if_false, or_true, true_and]
      intro t ht
      exact List.mem_of_mem_tail ht
  · by_cases hc : ch = 'h'
    · simp only [hm, hc, if_true, if_false, true_or, true_and]
      intro t ht
      exact ht
    · simp only [hm, hc, if_false, or_true, true_and]
      intro t ht
      exact ht

theorem process_long_option_plain (cfg : htif_config) (hp : options_plain cfg)
    (hl : labels_distinct cfg) (tok : Token) (nextchar : List Char) (seen rest : List Token)
    (r : getopt_return)
    (hr : process_long_option cfg.HTIF_LONG_OPTIONS tok nextchar seen rest = r) :
    r.c ≠ -1 ∧ r.c ≠ 1 ∧ (r.c = cfg.HTIF_LONG_OPTIONS_OPTIND + 2 → r.optarg ≠ none)
      ∧ ∀ t ∈ r.d.rest, t ∈ rest := by
  have h63 : ∀ d : getopt_data, (∀ t ∈ d.rest, t ∈ rest) →
      (⟨63, none, d⟩ : getopt_return).c ≠ -1 ∧ (⟨63, none, d⟩ : getopt_return).c ≠ 1
        ∧ ((⟨63, none, d⟩ : getopt_return).c = cfg.HTIF_LONG_OPTIONS_OPTIND + 2 →
            (⟨63, none, d⟩ : getopt_return).optarg ≠ none)
        ∧ ∀ t ∈ (⟨63, none, d⟩ : getopt_return).d.rest, t ∈ rest := by
    intro d hd
    refine ⟨show (63 : Int) ≠ -1 by decide, show (63 : Int) ≠ 1 by decide, ?_, hd⟩
    intro h
    exact absurd h.symm hl.2.1
  subst hr
  unfold process_long_option
  cases hlk : lookup_long cfg.HTIF_LONG_OPTIONS (option_name nextchar) with
  | ambiguous => exact h63 _ (fun t ht => ht)
  | not_found => exact h63 _ (fun t ht => ht)
  | found p =>
    obtain ⟨h1, h2, h3⟩ := hp p (lookup_long_mem _ _ _ hlk)
    simp only
    cases hne : option_nameend nextchar with
    | cons x value =>
      simp only
      by_cases ha : p.has_arg ≠ 0
      · rw [if_pos ha]
        exact ⟨h1, h2, fun _ => Option.noConfusion, fun t ht => ht⟩
      · rw [if_neg ha]
        exact h63 _ (fun t ht => ht)
    | nil =>
      simp only
      by_cases ha : p.has_arg = 1
      · rw [if_pos ha]
        cases rest with
        | nil => exact h63 _ (fun t ht => ht)
        | cons a rest2 =>
          exact ⟨h1, h2, fun _ => Option.noConfusion, fun t ht => List.mem_cons_of_mem a ht⟩
      · rw [if_neg ha]
        exact ⟨h1, h2, fun hc => absurd (h3 hc) ha, fun t ht => ht⟩

/-- What `getopt_long` can hand back when no element left is `--`: -1 only at
the end of `argv`, code 1 only with an element of `argv` as `optarg`, the code of
the signature file only with an `optarg`; and it only moves forward. -/
theorem getopt_long_plain (cfg : htif_config) (hp : options_plain cfg)
    (hl : labels_distinct cfg) (d : getopt_data) (hd : ∀ t ∈ d.rest, t ≠ DASH_DASH)
    (r : getopt_return) (hr : getopt_long cfg.HTIF_LONG_OPTIONS d = r) :
    (r.c = -1 → r.d.rest = [])
      ∧ (r.c = 1 → ∃ tok, tok ∈ d.rest ∧ r.optarg = some tok)
      ∧ (r.c ≠ -1 → r.c = cfg.HTIF_LONG_OPTIONS_OPTIND + 2 → r.optarg ≠ none)
      ∧ ∀ t ∈ r.d.rest, t ∈ d.rest := by
  have hshort : ∀ (ch : Char) (more : List Char) (seen rest : List Token),
      (∀ t ∈ rest, t ∈ d.rest) →
      ((short_option ch more seen rest).c = -1 → (short_option ch more seen rest).d.rest = [])
      ∧ ((short_option ch more seen rest).c = 1 →
          ∃ tok, tok ∈ d.rest ∧ (short_option ch more seen rest).optarg = some tok)
      ∧ ((short_option ch more seen rest).c ≠ -1 →
          (short_option ch more seen rest).c = cfg.HTIF_LONG_OPTIONS_OPTIND + 2 →
          (short_option ch more seen rest).optarg ≠ none)
      ∧ ∀ t ∈ (short_option ch more seen rest).d.rest, t ∈ d.rest := by
    intro ch more seen rest hsub
    obtain ⟨hc, hrest⟩ := short_option_plain ch more seen rest
    refine ⟨?_, ?_, ?_, fun t ht => hsub t (hrest t ht)⟩
    · intro h
      rcases hc with hc | hc <;> rw [hc] at h <;> exact absurd h (by decide)
    · intro h
      rcases hc with hc | hc <;> rw [hc] at h <;> exact absurd h (by decide)
    · intro _ h
      rcases hc with hc | hc
      · rw [hc] at h
        exact absurd h.symm hl.1
      · rw [hc] at h
        exact absurd h.symm hl.2.1
  have hone : ∀ (tok : Token) (seen rest : List Token), tok ∈ d.rest →
      (∀ t ∈ rest, t ∈ d.rest) →
      ((⟨1, some tok, ⟨seen, rest, []⟩⟩ : getopt_return).c = -1 →
        (⟨1, some tok, ⟨seen, rest, []⟩⟩ : getopt_return).d.rest = [])
      ∧ ((⟨1, some tok, ⟨seen, rest, []⟩⟩ : getopt_return).c = 1 →
          ∃ tok2, tok2 ∈ d.rest
            ∧ (⟨1, some tok, ⟨seen, rest, []⟩⟩ : getopt_return).optarg = some tok2)
      ∧ ((⟨1, some tok, ⟨seen, rest, []⟩⟩ : getopt_return).c ≠ -1 →
          (⟨1, some tok, ⟨seen, rest, []⟩⟩ : getopt_return).c
            = cfg.HTIF_LONG_OPTIONS_OPTIND + 2 →
          (⟨1, some tok, ⟨seen, rest, []⟩⟩ : getopt_return).optarg ≠ none)
      ∧ ∀ t ∈ (⟨1, some tok, ⟨seen, rest, []⟩⟩ : getopt_return).d.rest, t ∈ d.rest := by
    intro tok seen rest hmem hsub
    exact ⟨fun h => absurd h (show (1 : Int) ≠ -1 by decide), fun _ => ⟨tok, hmem, rfl⟩,
      fun _ _ => Option.noConfusion, hsub⟩
  subst hr
  obtain ⟨seen, rest, nc⟩ := d
  cases nc with
  | cons ch more =>
    rw [getopt_long_cluster]
    exact hshort ch more seen rest (fun t ht => ht)
  | nil =>
    cases rest with
    | nil =>
      rw [getopt_long_end]
      exact ⟨fun _ => rfl, fun h => absurd h (show (-1 : Int) ≠ 1 by decide),
        fun h => absurd rfl h,
        fun t ht => ht⟩
    | cons tok rest =>
      have hsub : ∀ t ∈ rest, t ∈ (⟨seen, tok :: rest, []⟩ : getopt_data).rest :=
        fun t ht => List.mem_cons_of_mem tok ht
      have hmem : tok ∈ (⟨seen, tok :: rest, []⟩ : getopt_data).rest :=
        List.mem_cons_self tok rest
      rcases tok with _ | ⟨c0, _ | ⟨c1, more⟩⟩
      · exact hone [] _ _ hmem hsub
      · exact hone [c0] _ _ hmem hsub
      · by_cases h0 : c0 = '-'
        · subst h0
          by_cases h1 : c1 = '-'
          · subst h1
            by_cases hm : more = []
            · subst hm
              exact absurd rfl (hd _ hmem)
            · have hg : getopt_long cfg.HTIF_LONG_OPTIONS
                  ⟨seen, ('-' :: '-' :: more) :: rest, []⟩
                  = process_long_option cfg.HTIF_LONG_OPTIONS ('-' :: '-' :: more) more
                      seen rest := by
                simp [getopt_long, hm]
              rw [hg]
              obtain ⟨k1, k2, k3, k4⟩ :=
                process_long_option_plain cfg hp hl ('-' :: '-' :: more) more seen rest _ rfl
              exact ⟨fun h => absurd h k1, fun h => absurd h k2, fun _ => k3,
                fun t ht => hsub t (k4 t ht)⟩
          · have hg : getopt_long cfg.HTIF_LONG_OPTIONS
                ⟨seen, ('-' :: c1 :: more) :: rest, []⟩
                = short_option c1 more seen (('-' :: c1 :: more) :: rest) := by
              simp [getopt_long, h1]
            rw [hg]
            exact hshort c1 more seen _ (fun t ht => ht)
        · have hg : getopt_long cfg.HTIF_LONG_OPTIONS
              ⟨seen, (c0 :: c1 :: more) :: rest, []⟩
              = ⟨1, some (c0 :: c1 :: more), ⟨(c0 :: c1 :: more) :: seen, rest, []⟩⟩ := by
            simp [getopt_long, h0]
          rw [hg]
          exact hone _ _ _ hmem hsub

theorem case_1_dead_end (cfg : htif_config) (hcfg : codes_free cfg) (arg : Token)
    (s : parse_state) (hs : s.opterr = 0) (ht : s.self.targs = [])
    (hrest : stays_permissive s.d.rest) (hoff : PLUS_PERMISSIVE_OFF.isPrefixOf arg = false) :
    dead_end_step cfg (case_1 cfg arg s) := by
  have c0 := hcfg 0 (by decide)
  have c1 := hcfg 1 (by decide)
  have c2 := hcfg 2 (by decide)
  have c3 := hcfg 3 (by decide)
  rw [Int.add_zero] at c0
  rcases case_1_branch cfg arg s with ⟨_, _, _, h⟩ | ⟨_, _, _, c, v, hc, h⟩ | ⟨_, h, _⟩
    | ⟨_, _, _, h⟩ | ⟨_, _, _, h⟩
  · rw [h]
    exact ⟨hs, ht, hrest, c0.1, c0.2.1, c0.2.2, fun e => absurd e (by omega)⟩
  · rw [h]
    refine ⟨hs, ht, hrest, ?_⟩
    rcases hc with rfl | rfl | rfl | rfl
    · exact ⟨c0.1, c0.2.1, c0.2.2, fun _ => Option.noConfusion⟩
    · exact ⟨c1.1, c1.2.1, c1.2.2, fun _ => Option.noConfusion⟩
    · exact ⟨c2.1, c2.2.1, c2.2.2, fun _ => Option.noConfusion⟩
    · exact ⟨c3.1, c3.2.1, c3.2.2, fun _ => Option.noConfusion⟩
  · rw [hoff] at h
    exact Bool.noConfusion h
  · rw [h]
    unfold toggle_on
    rw [if_pos hs]
    exact ⟨Or.inr rfl, ht, hs⟩
  · rw [h, if_pos hs]
    exact ⟨hs, ht, hrest, trivial⟩

theorem switch_c_dead_end (cfg : htif_config) (hcfg : codes_free cfg) (c : Int)
    (optarg : Option Token) (s : parse_state) (hs : s.opterr = 0) (ht : s.self.targs = [])
    (hrest : stays_permissive s.d.rest)
    (hc1 : c = 1 → ∃ tok, optarg = some tok ∧ PLUS_PERMISSIVE_OFF.isPrefixOf tok = false)
    (hc2 : c = cfg.HTIF_LONG_OPTIONS_OPTIND + 2 → optarg ≠ none) :
    dead_end_step cfg (switch_c cfg c optarg s) := by
  have hl := codes_free_labels cfg hcfg
  by_cases h104 : c = 104
  · subst h104
    rw [switch_c_help]
    exact ⟨Or.inl rfl, ht, hs⟩
  by_cases hsig : c = cfg.HTIF_LONG_OPTIONS_OPTIND + 2
  · cases optarg with
    | none => exact absurd rfl (hc2 hsig)
    | some v =>
      subst hsig
      rw [switch_c_signature cfg hl]
      exact ⟨hs, ht, hrest, trivial⟩
  by_cases h63 : c = 63
  · subst h63
    rw [switch_c_unknown cfg hl, if_pos hs]
    exact ⟨hs, ht, hrest, trivial⟩
  by_cases h1 : c = 1
  · obtain ⟨tok, rfl, hoff⟩ := hc1 h1
    subst h1
    rw [switch_c_one cfg hl]
    exact case_1_dead_end cfg hcfg tok s hs ht hrest hoff
  rw [switch_c_default cfg c optarg s h104 hsig h63 h1]
  exact ⟨hs, ht, hrest, trivial⟩

theorem parse_body_dead_end (cfg : htif_config) (hcfg : codes_free cfg)
    (hp : options_plain cfg) (pc : parse_pc) (s : parse_state)
    (hinv : permissive_inv cfg pc s) : dead_end_step cfg (parse_body cfg pc s) := by
  obtain ⟨hs, ht, hrest, hpc⟩ := hinv
  have hl := codes_free_labels cfg hcfg
  cases pc with
  | top =>
    obtain ⟨g1, g2, g3, g4⟩ :=
      getopt_long_plain cfg hp hl s.d (fun t h => (hrest t h).1) _ rfl
    have hrest2 : stays_permissive (getopt_long cfg.HTIF_LONG_OPTIONS s.d).d.rest :=
      fun t h => hrest t (g4 t h)
    simp only [parse_body]
    by_cases hc : (getopt_long cfg.HTIF_LONG_OPTIONS s.d).c = -1
    · rw [if_pos hc]
      exact ⟨g1 hc, ht, hs⟩
    · rw [if_neg hc]
      refine switch_c_dead_end cfg hcfg _ _ _ hs ht hrest2 ?_ (g3 hc)
      intro h1
      obtain ⟨tok, hmem, ho⟩ := g2 h1
      exact ⟨tok, ho, (hrest tok hmem).2⟩
  | retry c optarg =>
    obtain ⟨k1, k2, k3, k4⟩ := hpc
    simp only [parse_body]
    exact switch_c_dead_end cfg hcfg c optarg s hs ht hrest (fun h => absurd h k3) k4

/-- From a permissive state with nothing collected and neither `--` nor
`+permissive-off` ahead, the loop ends in one of the three exceptions. -/
theorem run_dead_end (cfg : htif_config) (hcfg : codes_free cfg) (hp : options_plain cfg) :
    ∀ (n : Nat) (pc : parse_pc) (s : parse_state), parse_measure pc s = n →
      permissive_inv cfg pc s → dead_end (parse_run cfg pc s) := by
  intro n
  induction n using Nat.strong_induction_on with
  | _ n ih =>
    intro pc s hn hinv
    have hb := parse_body_dead_end cfg hcfg hp pc s hinv
    rw [parse_run_eq]
    cases hbody : parse_body cfg pc s with
    | next pc2 s2 =>
      rw [hbody] at hb
      have hm := parse_body_measure cfg pc pc2 s s2 hbody
      exact ih _ (by omega) pc2 s2 rfl hb
    | done_processing s2 =>
      rw [hbody] at hb
      obtain ⟨h1, h2, h3⟩ := hb
      simp only [done_processing, h1, h2, List.append_nil, if_true]
      exact ⟨Or.inl rfl, rfl, h3⟩
    | throw e s2 =>
      rw [hbody] at hb
      obtain ⟨h1, h2, h3⟩ := hb
      refine ⟨?_, h2, h3⟩
      rcases h1 with rfl | rfl
      · exact Or.inr (Or.inl rfl)
      · exact Or.inr (Or.inr rfl)
    | undefined s2 =>
      rw [hbody] at hb
      exact hb.elim

/-! ### Permissive mode and the program path -/

/-- C19 as stated fails: in `prog +permissive mybinary -h` and in
`prog +permissive mybinary --help` no element is `--` and the last mode toggle
reached is `+permissive`, yet the call does not end with "No binary specified":
`mybinary` is passed over and the help request that follows throws the help text.
With a second `+permissive` after `mybinary` the call ends with "Found
+permissive when already parsing permissively". -/
theorem permissive_dead_end_counterexample :
    parse_arguments fesvr_config
        ["prog".toList, "+permissive".toList, "mybinary".toList, "-h".toList]
        1 (htif_t.ctor 2147483648)
      = ⟨.thrown (.invalid_argument MSG_HELP), htif_t.ctor 2147483648, 0⟩ ∧
    parse_arguments fesvr_config
        ["prog".toList, "+permissive".toList, "mybinary".toList, "--help".toList]
        1 (htif_t.ctor 2147483648)
      = ⟨.thrown (.invalid_argument MSG_HELP), htif_t.ctor 2147483648, 0⟩ ∧
    parse_arguments fesvr_config
        ["prog".toList, "+permissive".toList, "mybinary".toList, "+permissive".toList]
        1 (htif_t.ctor 2147483648)
      = ⟨.thrown (.invalid_argument MSG_PERMISSIVE), htif_t.ctor 2147483648, 0⟩ ∧
    MSG_HELP ≠ MSG_NO_BINARY ∧ MSG_PERMISSIVE ≠ MSG_NO_BINARY := by
  decide

/-- C19 (amended): let `pre` be a run of host options, plusargs and mode toggles
that leaves the scanner permissive, on an object with empty `targs`.
(1) An element `p` after `pre` that does not start with `-` and has no plusarg
form is skipped, not taken as program path: the call ends as it does without
`p`.
(2) Whatever elements `post` follow, as long as none is `--` and none begins with
`+permissive-off`, the call throws `std::invalid_argument`, collects nothing and
leaves the mode permissive; the text is "No binary specified", or the help text
(a help request follows), or "Found +permissive when already parsing
permissively" (another `+permissive` follows).
(3) The text is "No binary specified" when every element of `post` is
unrecognized (no host option, no plusarg, no toggle, no help request).
The table is assumed not to return -1 or 1 and to give the code of the signature
file only to an entry with a required argument. -/
theorem permissive_mode_dead_end (cfg : htif_config) (hcfg : codes_free cfg)
    (hp : options_plain cfg) (prog : Token) (pre : List Token) (e : Int) (self : htif_t)
    (hself : self.targs = []) (hpre : option_list cfg (decide (e = 0)) pre true) :
    (∀ (p : Token) (post : List Token), p.head? ≠ some '-' → is_plusarg p = false →
      parse_arguments cfg (prog :: (pre ++ p :: post)) e self
        = parse_arguments cfg (prog :: (pre ++ post)) e self) ∧
    (∀ (post : List Token), stays_permissive post →
      dead_end (parse_arguments cfg (prog :: (pre ++ post)) e self)) ∧
    (∀ (post : List Token), (∀ u ∈ post, unrecognized cfg u = true) →
      (parse_arguments cfg (prog :: (pre ++ post)) e self).status
        = .thrown (.invalid_argument MSG_NO_BINARY)) := by
  have hl := codes_free_labels cfg hcfg
  obtain ⟨sf, e2, he2, hrun⟩ := scan_option_list cfg hcfg hpre e self (by simp)
  have h0 : e2 = 0 := he2.mpr rfl
  subst h0
  refine ⟨?_, ?_, ?_⟩
  · intro p post hp1 hp2
    rw [parse_arguments_cons, parse_arguments_cons, hrun, hrun,
      run_skip_nonoption cfg hl _ _ p (nonoption_of_head p hp1) hp2]
    exact run_top_seen cfg _ _ _ _ _ _
  · intro post hpost
    rw [parse_arguments_cons, hrun]
    exact run_dead_end cfg hcfg hp _ .top _ rfl ⟨rfl, hself, hpost, trivial⟩
  · intro post hpost
    have hrun2 := hrun [prog] post
    rw [parse_arguments_cons, hrun2]
    have hskip := run_skip_all_unrecognized cfg hl post hpost (pre.reverse ++ [prog]) []
      { self with sig_file := sf }
    rw [List.append_nil] at hskip
    rw [hskip, run_end, if_pos hself]

/-- Witness for `permissive_mode_dead_end`: after `prog +permissive`, the element
`mybinary` is skipped; `mybinary -h` leads to one of the three exceptions; and
`mybinary arg1` leads to "No binary specified". -/
theorem permissive_mode_dead_end_witness :
    (parse_arguments fesvr_config
        ("prog".toList :: (["+permissive".toList] ++ "mybinary".toList :: ["arg1".toList]))
        1 (htif_t.ctor 2147483648)
      = parse_arguments fesvr_config
        ("prog".toList :: (["+permissive".toList] ++ ["arg1".toList]))
        1 (htif_t.ctor 2147483648)) ∧
    dead_end (parse_arguments fesvr_config
        ("prog".toList :: (["+permissive".toList] ++ ["mybinary".toList, "-h".toList]))
        1 (htif_t.ctor 2147483648)) ∧
    (parse_arguments fesvr_config
        ("prog".toList :: (["+permissive".toList] ++ ["mybinary".toList, "arg1".toList]))
        1 (htif_t.ctor 2147483648)).status
      = .thrown (.invalid_argument MSG_NO_BINARY) :=
  have h := permissive_mode_dead_end fesvr_config (by decide) (by decide) "prog".toList
    ["+permissive".toList] 1 (htif_t.ctor 2147483648) rfl
    (option_list.permissive "+permissive".toList [] true (by decide) (by decide)
      (option_list.nil true))
  ⟨h.1 "mybinary".toList ["arg1".toList] (by decide) (by decide),
   h.2.1 ["mybinary".toList, "-h".toList] (by decide),
   h.2.2 ["mybinary".toList, "arg1".toList] (by decide)⟩

/-! ### The permissive section -/

/-- In permissive mode the rest of a cluster with an `h` in it ends in the help
request. -/
theorem run_cluster_help (cfg : htif_config) (h : labels_distinct cfg)
    (seen rest : List Token) (tok : Token) (self : htif_t) :
    ∀ (ch : Char) (more : List Char), (ch :: more).contains 'h' = true →
      parse_run cfg .top ⟨⟨seen, tok :: rest, ch :: more⟩, 0, self⟩
        = ⟨.thrown (.invalid_argument MSG_HELP), self, 0⟩ := by
  intro ch more
  induction more generalizing ch with
  | nil =>
    intro hh
    have hch : ch = 'h' := by
      have h2 : 'h' = ch := by simpa using hh
      exact h2.symm
    subst hch
    rw [parse_run_eq]
    simp only [parse_body, getopt_long_cluster, short_option_h]
    rw [if_neg (by decide), switch_c_help]
  | cons m ms ih =>
    intro hh
    by_cases hch : ch = 'h'
    · subst hch
      rw [parse_run_eq]
      simp only [parse_body, getopt_long_cluster, short_option_h]
      rw [if_neg (by decide), switch_c_help]
    · have hrest : (m :: ms).contains 'h' = true := by
        simp only [List.contains_cons, Bool.or_eq_true, beq_iff_eq] at hh ⊢
        rcases hh with hh | hh
        · exact absurd hh.symm hch
        · exact hh
      rw [parse_run_eq]
      simp only [parse_body, getopt_long_cluster, short_option_other _ _ _ _ hch]
      rw [if_neg (by decide), switch_c_unknown cfg h]
      simp only [if_true, if_false, List.cons_ne_nil]
      exact ih m hrest

/-- In permissive mode a cluster of short options with an `h` in it ends in the
help request. -/
theorem run_help_cluster (cfg : htif_config) (h : labels_distinct cfg)
    (seen rest : List Token) (tok : Token) (ht : help_cluster tok = true) (self : htif_t) :
    parse_run cfg .top ⟨⟨seen, tok :: rest, []⟩, 0, self⟩
      = ⟨.thrown (.invalid_argument MSG_HELP), self, 0⟩ := by
  rcases tok with _ | ⟨c0, _ | ⟨c1, more⟩⟩
  · exact Bool.noConfusion ht
  · exact Bool.noConfusion ht
  · simp only [help_cluster, Bool.and_eq_true, decide_eq_true_eq] at ht
    obtain ⟨⟨h0, h1⟩, hh⟩ := ht
    subst h0
    have hbody : parse_body cfg .top ⟨⟨seen, ('-' :: c1 :: more) :: rest, []⟩, 0, self⟩
        = parse_body cfg .top ⟨⟨seen, ('-' :: c1 :: more) :: rest, c1 :: more⟩, 0, self⟩ := by
      simp only [parse_body, getopt_long_short _ _ _ _ _ h1, getopt_long_cluster]
    rw [parse_run_eq, hbody, ← parse_run_eq]
    exact run_cluster_help cfg h seen rest _ self c1 more hh

/-- C4 as stated fails: `-cm_hier` matches no host option and no plusarg pattern
and is not `--`, yet in the permissive section it is not passed over: its letter
`h` is read as the option `-h` and the call ends with the help exception. -/
theorem permissive_section_counterexample :
    unrecognized_dash_option fesvr_config "-cm_hier".toList = true ∧
    is_plusarg "-cm_hier".toList = false ∧
    parse_arguments fesvr_config
        ["prog".toList, "+permissive".toList, "-cm_hier".toList, "+permissive-off".toList,
          "mybinary".toList, "arg1".toList] 1 (htif_t.ctor 2147483648)
      = ⟨.thrown (.invalid_argument MSG_HELP), htif_t.ctor 2147483648, 0⟩ := by
  decide

/-- C4 (amended): in an initially strict parser, after `+permissive` and any
number of unrecognized elements `us`:
(1) `+permissive-off`, a program path `p` and `rest` make `parse_arguments`
return, and exactly `p` followed by `rest` is appended to `targs`;
(2) a cluster of short options with the letter `h` in it (`-xh`, `-cm_hier`)
makes it throw the help text, whatever follows.
An element is unrecognized here when it is a `--name` that no entry of the table
matches, a cluster of short options none of which is `h`, or an element that is
no option and has no plusarg form; `--` is not one. -/
theorem parse_arguments_permissive_section (cfg : htif_config) (hcfg : labels_distinct cfg)
    (prog : Token) (us : List Token) (e : Int) (self : htif_t)
    (he : e ≠ 0) (hus : ∀ u ∈ us, unrecognized cfg u = true) :
    (∀ (p : Token) (rest : List Token), p.head? ≠ some '-' → is_plusarg p = false →
      parse_arguments cfg
          (prog :: PLUS_PERMISSIVE :: (us ++ PLUS_PERMISSIVE_OFF :: p :: rest)) e self
        = ⟨.returned, { self with targs := self.targs ++ p :: rest }, 1⟩) ∧
    (∀ (tok : Token) (more : List Token), help_cluster tok = true →
      parse_arguments cfg (prog :: PLUS_PERMISSIVE :: (us ++ tok :: more)) e self
        = ⟨.thrown (.invalid_argument MSG_HELP), self, 0⟩) := by
  constructor
  · intro p rest hp hpl
    rw [parse_arguments_cons, run_permissive cfg hcfg _ _ PLUS_PERMISSIVE rfl rfl, if_neg he,
      run_skip_all_unrecognized cfg hcfg us hus,
      run_permissive_off cfg hcfg _ _ PLUS_PERMISSIVE_OFF rfl, if_neg (by simp),
      run_program_path cfg hcfg _ _ p (nonoption_of_head p hp) hpl 1 (by decide)]
  · intro tok more ht
    rw [parse_arguments_cons, run_permissive cfg hcfg _ _ PLUS_PERMISSIVE rfl rfl, if_neg he,
      run_skip_all_unrecognized cfg hcfg us hus,
      run_help_cluster cfg hcfg _ _ tok ht]

/-- Witness for `parse_arguments_permissive_section`: the vectors
`prog +permissive +unknown +permissive-off mybinary arg1` and
`prog +permissive +unknown -xh +permissive-off mybinary`. -/
theorem parse_arguments_permissive_section_witness :
    parse_arguments fesvr_config
        ("prog".toList :: PLUS_PERMISSIVE :: (["+unknown".toList]
          ++ PLUS_PERMISSIVE_OFF :: "mybinary".toList :: ["arg1".toList]))
        1 (htif_t.ctor 2147483648)
      = ⟨.returned,
          { htif_t.ctor 2147483648 with
            targs := (htif_t.ctor 2147483648).targs ++ "mybinary".toList :: ["arg1".toList] },
          1⟩ ∧
    parse_arguments fesvr_config
        ("prog".toList :: PLUS_PERMISSIVE :: (["+unknown".toList]
          ++ "-xh".toList :: ["+permissive-off".toList, "mybinary".toList]))
        1 (htif_t.ctor 2147483648)
      = ⟨.thrown (.invalid_argument MSG_HELP), htif_t.ctor 2147483648, 0⟩ :=
  have h := parse_arguments_permissive_section fesvr_config (by decide) "prog".toList
    ["+unknown".toList] 1 (htif_t.ctor 2147483648) (by decide) (by decide)
  ⟨h.1 "mybinary".toList ["arg1".toList] (by decide) (by decide),
   h.2 "-xh".toList ["+permissive-off".toList, "mybinary".toList] (by decide)⟩

/-! ### Vectors of options only -/

/-- The code 1 of `getopt_long` comes with an element of `argv` that is not an
option. -/
theorem getopt_long_one (cfg : htif_config) (hp : options_plain cfg)
    (hl : labels_distinct cfg) (d : getopt_data) (h1 : (getopt_long cfg.HTIF_LONG_OPTIONS d).c = 1) :
    ∃ tok, tok ∈ d.rest ∧ nonoption tok = true
      ∧ (getopt_long cfg.HTIF_LONG_OPTIONS d).optarg = some tok := by
  obtain ⟨seen, rest, nc⟩ := d
  cases nc with
  | cons ch more =>
    rw [getopt_long_cluster] at h1
    rcases (short_option_plain ch more seen rest).1 with hc | hc
    · rw [hc] at h1
      exact absurd h1 (by decide)
    · rw [hc] at h1
      exact absurd h1 (by decide)
  | nil =>
    cases rest with
    | nil =>
      rw [getopt_long_end] at h1
      exact absurd h1 (show (-1 : Int) ≠ 1 by decide)
    | cons tok rest =>
      rcases tok with _ | ⟨c0, _ | ⟨c1, more⟩⟩
      · exact ⟨[], List.mem_cons_self _ _, rfl, rfl⟩
      · exact ⟨[c0], List.mem_cons_self _ _, rfl, rfl⟩
      · by_cases h0 : c0 = '-'
        · subst h0
          by_cases hd : c1 = '-'
          · subst hd
            by_cases hm : more = []
            · subst hm
              exact absurd h1 (show (-1 : Int) ≠ 1 by decide)
            · have hg : getopt_long cfg.HTIF_LONG_OPTIONS
                  ⟨seen, ('-' :: '-' :: more) :: rest, []⟩
                  = process_long_option cfg.HTIF_LONG_OPTIONS ('-' :: '-' :: more) more
                      seen rest := by
                simp [getopt_long, hm]
              rw [hg] at h1
              exact absurd h1
                (process_long_option_plain cfg hp hl ('-' :: '-' :: more) more seen rest
                  _ rfl).2.1
          · rw [getopt_long_short _ _ _ _ _ hd] at h1
            rcases (short_option_plain c1 more seen (('-' :: c1 :: more) :: rest)).1
              with hc | hc
            · rw [hc] at h1
              exact absurd h1 (by decide)
            · rw [hc] at h1
              exact absurd h1 (by decide)
        · have hg : getopt_long cfg.HTIF_LONG_OPTIONS
              ⟨seen, (c0 :: c1 :: more) :: rest, []⟩
              = ⟨1, some (c0 :: c1 :: more), ⟨(c0 :: c1 :: more) :: seen, rest, []⟩⟩ := by
            simp [getopt_long, h0]
          rw [hg]
          exact ⟨_, List.mem_cons_self _ _, by simp [nonoption, h0], rfl⟩

/-- What `case 1` does with an element that has a plusarg form: it goes to
`retry` with the code of a long option, or it is one of the two toggles. -/
theorem case_1_of_plusarg (cfg : htif_config) (hcfg : codes_free cfg) (arg : Token)
    (s : parse_state) (h : is_plusarg arg = true) :
    (∃ c optarg, retry_plain cfg (.retry c optarg)
        ∧ case_1 cfg arg s = .next (.retry c optarg) s)
      ∨ case_1 cfg arg s = toggle_off s ∨ case_1 cfg arg s = toggle_on s := by
  have c0 := hcfg 0 (by decide)
  have c1 := hcfg 1 (by decide)
  have c2 := hcfg 2 (by decide)
  have c3 := hcfg 3 (by decide)
  rw [Int.add_zero] at c0
  rcases case_1_branch cfg arg s with ⟨_, _, _, hk⟩ | ⟨_, _, _, c, v, hc, hk⟩ | ⟨_, _, hk⟩
    | ⟨_, _, _, hk⟩ | ⟨k1, k6, k7, hk⟩
  · exact Or.inl ⟨_, _, ⟨c0.1, c0.2.1, c0.2.2, fun e => absurd e (by omega)⟩, hk⟩
  · refine Or.inl ⟨c, some v, ?_, hk⟩
    rcases hc with rfl | rfl | rfl | rfl
    · exact ⟨c0.1, c0.2.1, c0.2.2, fun _ => Option.noConfusion⟩
    · exact ⟨c1.1, c1.2.1, c1.2.2, fun _ => Option.noConfusion⟩
    · exact ⟨c2.1, c2.2.1, c2.2.2, fun _ => Option.noConfusion⟩
    · exact ⟨c3.1, c3.2.1, c3.2.2, fun _ => Option.noConfusion⟩
  · exact Or.inr (Or.inl hk)
  · exact Or.inr (Or.inr hk)
  · exfalso
    by_cases k2 : PLUS_RFB_EQ.isPrefixOf arg = true
    · simp only [case_1, if_neg k1, if_pos k2] at hk
      exact skip_ne_retry s s _ _ hk.symm
    by_cases k3 : PLUS_DISK_EQ.isPrefixOf arg = true
    · simp only [case_1, if_neg k1, if_neg k2, if_pos k3] at hk
      exact skip_ne_retry s s _ _ hk.symm
    by_cases k4 : PLUS_SIGNATURE_EQ.isPrefixOf arg = true
    · simp only [case_1, if_neg k1, if_neg k2, if_neg k3, if_pos k4] at hk
      exact skip_ne_retry s s _ _ hk.symm
    by_cases k5 : PLUS_CHROOT_EQ.isPrefixOf arg = true
    · simp only [case_1, if_neg k1, if_neg k2, if_neg k3, if_neg k4, if_pos k5] at hk
      exact skip_ne_retry s s _ _ hk.symm
    have hf : is_plusarg arg = false := by
      simp only [is_plusarg, Bool.or_eq_false_iff, beq_eq_false_iff_ne]
      exact ⟨⟨⟨⟨⟨⟨k1, Bool.eq_false_iff.mpr k2⟩, Bool.eq_false_iff.mpr k3⟩,
        Bool.eq_false_iff.mpr k4⟩, Bool.eq_false_iff.mpr k5⟩, k6⟩, k7⟩
    rw [hf] at h
    exact Bool.noConfusion h

theorem msg_mem (cfg : htif_config) (msg : String) (h : msg ∈ CLASSIFICATION_MESSAGES) (s : parse_state)
    (ht : s.self.targs = []) :
    fails_step cfg (.throw (.invalid_argument msg) s) :=
  ⟨⟨msg, h, rfl⟩, ht⟩

theorem switch_c_fails (cfg : htif_config) (hcfg : codes_free cfg) (c : Int)
    (optarg : Option Token) (s : parse_state) (ht : s.self.targs = [])
    (hrest : all_options s.d.rest)
    (hc1 : c = 1 → ∃ tok, optarg = some tok ∧ is_plusarg tok = true)
    (hc2 : c = cfg.HTIF_LONG_OPTIONS_OPTIND + 2 → optarg ≠ none) :
    fails_step cfg (switch_c cfg c optarg s) := by
  have hl := codes_free_labels cfg hcfg
  by_cases h104 : c = 104
  · subst h104
    rw [switch_c_help]
    exact msg_mem cfg MSG_HELP (by decide) s ht
  by_cases hsig : c = cfg.HTIF_LONG_OPTIONS_OPTIND + 2
  · cases optarg with
    | none => exact absurd rfl (hc2 hsig)
    | some v =>
      subst hsig
      rw [switch_c_signature cfg hl]
      exact ⟨ht, hrest, trivial⟩
  by_cases h63 : c = 63
  · subst h63
    rw [switch_c_unknown cfg hl]
    by_cases he : s.opterr = 0
    · rw [if_pos he]
      exact ⟨ht, hrest, trivial⟩
    · rw [if_neg he]
      exact msg_mem cfg MSG_UNKNOWN (by decide) s ht
  by_cases h1 : c = 1
  · obtain ⟨tok, rfl, hpl⟩ := hc1 h1
    subst h1
    rw [switch_c_one cfg hl]
    rcases case_1_of_plusarg cfg hcfg tok s hpl with ⟨c, oa, hr, hk⟩ | hk | hk
    · rw [hk]
      exact ⟨ht, hrest, hr⟩
    · rw [hk]
      unfold toggle_off
      by_cases he : s.opterr ≠ 0
      · rw [if_pos he]
        exact msg_mem cfg MSG_PERMISSIVE_OFF (by decide) s ht
      · rw [if_neg he]
        exact ⟨ht, hrest, trivial⟩
    · rw [hk]
      unfold toggle_on
      by_cases he : s.opterr = 0
      · rw [if_pos he]
        exact msg_mem cfg MSG_PERMISSIVE (by decide) s ht
      · rw [if_neg he]
        exact ⟨ht, hrest, trivial⟩
  rw [switch_c_default cfg c optarg s h104 hsig h63 h1]
  exact ⟨ht, hrest, trivial⟩

theorem parse_body_fails (cfg : htif_config) (hcfg : codes_free cfg)
    (hp : options_plain cfg) (pc : parse_pc) (s : parse_state)
    (hinv : option_inv cfg pc s) : fails_step cfg (parse_body cfg pc s) := by
  obtain ⟨ht, hrest, hpc⟩ := hinv
  have hl := codes_free_labels cfg hcfg
  cases pc with
  | top =>
    obtain ⟨g1, _, g3, g4⟩ :=
      getopt_long_plain cfg hp hl s.d (fun t h => (hrest t h).1) _ rfl
    have hrest2 : all_options (getopt_long cfg.HTIF_LONG_OPTIONS s.d).d.rest :=
      fun t h => hrest t (g4 t h)
    simp only [parse_body]
    by_cases hc : (getopt_long cfg.HTIF_LONG_OPTIONS s.d).c = -1
    · rw [if_pos hc]
      exact ⟨g1 hc, ht⟩
    · rw [if_neg hc]
      refine switch_c_fails cfg hcfg _ _ _ ht hrest2 ?_ (g3 hc)
      intro h1
      obtain ⟨tok, hmem, hn, ho⟩ := getopt_long_one cfg hp hl s.d h1
      exact ⟨tok, ho, (hrest tok hmem).2 hn⟩
  | retry c optarg =>
    obtain ⟨k1, k2, k3, k4⟩ := hpc
    simp only [parse_body]
    exact switch_c_fails cfg hcfg c optarg s ht hrest (fun h => absurd h k3) k4

/-- With nothing collected and only options ahead, the loop ends in one of the
exceptions of `parse_arguments`. -/
theorem run_fails (cfg : htif_config) (hcfg : codes_free cfg) (hp : options_plain cfg) :
    ∀ (n : Nat) (pc : parse_pc) (s : parse_state), parse_measure pc s = n →
      option_inv cfg pc s → classification_error (parse_run cfg pc s) := by
  intro n
  induction n using Nat.strong_induction_on with
  | _ n ih =>
    intro pc s hn hinv
    have hb := parse_body_fails cfg hcfg hp pc s hinv
    rw [parse_run_eq]
    cases hbody : parse_body cfg pc s with
    | next pc2 s2 =>
      rw [hbody] at hb
      have hm := parse_body_measure cfg pc pc2 s s2 hbody
      exact ih _ (by omega) pc2 s2 rfl hb
    | done_processing s2 =>
      rw [hbody] at hb
      obtain ⟨h1, h2⟩ := hb
      simp only [done_processing, h1, h2, List.append_nil, if_true]
      exact ⟨⟨MSG_NO_BINARY, by decide, rfl⟩, rfl⟩
    | throw e s2 =>
      rw [hbody] at hb
      obtain ⟨⟨msg, hmsg, rfl⟩, h2⟩ := hb
      exact ⟨⟨msg, hmsg, rfl⟩, h2⟩
    | undefined s2 =>
      rw [hbody] at hb
      exact hb.elim

/-- C10 as stated fails for vectors of options only: `prog --disk` (the value of
the option is missing) ends with "Unknown argument", `prog +permissive-off` with
the text of the toggle, and `prog --rfb=1 --help` with the help text, not with
"No binary specified". -/
theorem all_option_vector_counterexample :
    parse_arguments fesvr_config ["prog".toList, "--disk".toList] 1 (htif_t.ctor 2147483648)
      = ⟨.thrown (.invalid_argument MSG_UNKNOWN), htif_t.ctor 2147483648, 1⟩ ∧
    parse_arguments fesvr_config ["prog".toList, "+permissive-off".toList] 1
        (htif_t.ctor 2147483648)
      = ⟨.thrown (.invalid_argument MSG_PERMISSIVE_OFF), htif_t.ctor 2147483648, 1⟩ ∧
    parse_arguments fesvr_config ["prog".toList, "--rfb=1".toList, "--help".toList] 1
        (htif_t.ctor 2147483648)
      = ⟨.thrown (.invalid_argument MSG_HELP), htif_t.ctor 2147483648, 1⟩ ∧
    MSG_UNKNOWN ≠ MSG_NO_BINARY ∧ MSG_PERMISSIVE_OFF ≠ MSG_NO_BINARY
      ∧ MSG_HELP ≠ MSG_NO_BINARY := by
  decide

/-- C10 (amended): `parse_arguments` never returns normally with an empty `targs`:
every call ends, and one that returns leaves `targs` non-empty.  Called on a
fresh object (empty `targs`) with an empty vector, with the program name alone,
or with the program name followed by a run of host options and plusargs that
the scan passes over (values present, mode toggles used in order, no help
request), it throws `std::invalid_argument` "No binary specified".  For every
vector of options only (each element after the program name a dash-option or of
a plusarg form) it throws `std::invalid_argument` and collects nothing; the text
is "No binary specified" or that of the option that raises: the help text,
"Unknown argument", or one of the two texts of the toggles.  For this last part
the table is assumed not to return -1 or 1 and to give the code of the signature
file only to an entry with a required argument. -/
theorem parse_arguments_nonempty_or_fails (cfg : htif_config) (hcfg : codes_free cfg) :
    (∀ (argv : List Token) (e : Int) (self : htif_t),
      (parse_arguments cfg argv e self).status ≠ .running) ∧
    (∀ (argv : List Token) (e : Int) (self : htif_t),
      (parse_arguments cfg argv e self).status = .returned →
        (parse_arguments cfg argv e self).self.targs ≠ []) ∧
    (∀ (e : Int) (self : htif_t), self.targs = [] →
      parse_arguments cfg [] e self = ⟨.thrown (.invalid_argument MSG_NO_BINARY), self, e⟩) ∧
    (∀ (prog : Token) (e : Int) (self : htif_t), self.targs = [] →
      parse_arguments cfg [prog] e self
        = ⟨.thrown (.invalid_argument MSG_NO_BINARY), self, e⟩) ∧
    (∀ (prog : Token) (opts : List Token) (m2 : Bool) (e : Int) (self : htif_t),
      self.targs = [] → option_list cfg (decide (e = 0)) opts m2 →
      ∃ (sf : Token) (e2 : Int),
        parse_arguments cfg (prog :: opts) e self
          = ⟨.thrown (.invalid_argument MSG_NO_BINARY), { self with sig_file := sf }, e2⟩) ∧
    (options_plain cfg →
      ∀ (prog : Token) (args : List Token) (e : Int) (self : htif_t),
        self.targs = [] → all_options args →
        classification_error (parse_arguments cfg (prog :: args) e self)) := by
  refine ⟨?_, ?_, ?_, ?_, ?_, ?_⟩
  · intro argv e self
    exact parse_run_ends cfg _ _ _ (by simp [parse_measure, scan_measure])
  · intro argv e self
    exact parse_loop_returned cfg _ _ _
  · intro e self hs
    have : parse_arguments cfg [] e self = parse_run cfg .top ⟨⟨[], [], []⟩, e, self⟩ := rfl
    rw [this, run_end, if_pos hs]
  · intro prog e self hs
    rw [parse_arguments_cons, run_end, if_pos hs]
  · intro prog opts m2 e self hs hopts
    obtain ⟨sf, e2, _, hrun⟩ := scan_option_list cfg hcfg hopts e self (by simp)
    refine ⟨sf, e2, ?_⟩
    have hrun2 := hrun [prog] []
    rw [List.append_nil] at hrun2
    rw [parse_arguments_cons, hrun2, run_end, if_pos (by simpa using hs)]
  · intro hp prog args e self hs hargs
    rw [parse_arguments_cons]
    exact run_fails cfg hcfg hp _ .top _ rfl ⟨hs, hargs, trivial⟩

/-- Witness for `parse_arguments_nonempty_or_fails`: `prog` alone,
`prog --signature=s +rfb +permissive --disk img` and `prog --rfb=1 --disk` on a
fresh object. -/
theorem parse_arguments_nonempty_or_fails_witness :
    parse_arguments fesvr_config ["prog".toList] 1 (htif_t.ctor 2147483648)
      = ⟨.thrown (.invalid_argument MSG_NO_BINARY), htif_t.ctor 2147483648, 1⟩ ∧
    (∃ (sf : Token) (e2 : Int),
      parse_arguments fesvr_config
          ("prog".toList :: ["--signature=s".toList, "+rfb".toList, "+permissive".toList,
            "--disk".toList, "img".toList])
          1 (htif_t.ctor 2147483648)
        = ⟨.thrown (.invalid_argument MSG_NO_BINARY),
            { htif_t.ctor 2147483648 with sig_file := sf }, e2⟩) ∧
    classification_error
      (parse_arguments fesvr_config ("prog".toList :: ["--rfb=1".toList, "--disk".toList])
        1 (htif_t.ctor 2147483648)) :=
  have h := parse_arguments_nonempty_or_fails fesvr_config (by decide)
  ⟨h.2.2.2.1 "prog".toList 1 _ rfl,
   h.2.2.2.2.1 "prog".toList _ true 1 _ rfl
     (option_list.host ["--signature=s".toList] _ false true (by decide)
       (option_list.plusarg "+rfb".toList _ false true (by decide)
         (option_list.permissive "+permissive".toList _ true (by decide) (by decide)
           (option_list.host ["--disk".toList, "img".toList] [] true true (by decide)
             (option_list.nil true))))),
   h.2.2.2.2.2 (by decide) "prog".toList ["--rfb=1".toList, "--disk".toList] 1 _ rfl
     (by decide)⟩

end Fesvr
